import Mathlib

/-!
# libimageloader: loader registry, dispatch and collection lifecycle

A shallow embedding of `img_loader.c`.  Heap objects (`ImageData`) live in an
explicit heap indexed by address; the slot array of the `ImageContext` holds
optional addresses (`none` is the C `NULL`).  Calls that leave the library
(backend `img_open` / `img_close`, `open`, `fstat`, `lseek`, `close`) are
fields of an environment `Env`, and every such call is appended to a trace.
Undefined behaviour of the C program (dereferencing `NULL`, calling a `NULL`
function pointer, writing outside the slot array) is the error `Err.ub`.
-/

set_option autoImplicit false

namespace ImgLoader

/-! ## Data model -/

/-- Address of a heap-allocated `ImageData`. -/
abbrev Addr := Nat

/-- Capability bit `MULTI_LOADER` (img_loader.c, line 42). -/
def MULTI_LOADER : Nat := 1 <<< 0
/-- Capability bit `NO_SEEK` (img_loader.c, line 43). -/
def NO_SEEK : Nat := 1 <<< 1
/-- Capability bit `NO_FD` (img_loader.c, line 44). -/
def NO_FD : Nat := 1 <<< 2

/-- The C test `flags & BIT`. -/
def hasFlag (flags bit : Nat) : Bool := (flags &&& bit) != 0

/-- A backend descriptor, `struct ImageLoader`.  The two function pointers are
represented by the loader itself (the environment maps a loader to the
behaviour of its `img_open` and `img_close`); `has_close` records whether the
`img_close` pointer is non-`NULL`. -/
structure ImageLoader where
  name : String
  has_close : Bool
  flags : Nat
deriving DecidableEq, Repr

/-- The macro `CREATE_LOADER(NAME)`: open and close set, flags zero. -/
def CREATE_LOADER (name : String) : ImageLoader :=
  { name := name, has_close := true, flags := 0 }

/-- The macro `CREATE_PARENT_LOADER(NAME, FLAGS)`: open and flags set, the
`img_close` member is not initialised and therefore `NULL`. -/
def CREATE_PARENT_LOADER (name : String) (flags : Nat) : ImageLoader :=
  { name := name, has_close := false, flags := flags }

/-- The table `img_loaders` with every backend compiled in. -/
def img_loaders : List ImageLoader :=
  [ CREATE_PARENT_LOADER "dir" (MULTI_LOADER ||| NO_SEEK),
    CREATE_LOADER "spng",
    CREATE_LOADER "stb_image",
    CREATE_PARENT_LOADER "zip" MULTI_LOADER,
    CREATE_LOADER "imlib2",
    CREATE_PARENT_LOADER "curl" (MULTI_LOADER ||| NO_FD ||| NO_SEEK) ]

/-- The standing descriptor `pipe_loader`. -/
def pipe_loader : ImageLoader :=
  CREATE_PARENT_LOADER "pipe" (MULTI_LOADER ||| NO_SEEK)

/-- Modelled from the spec: the fields of `struct ImageData`
(`img_loader_private.h` is not part of the sources).  The fields are those the
code of `img_loader.c` reads or writes; integer fields are mathematical
integers, the decoded buffer `data` is `none` for `NULL` and otherwise the
bytes it points to. -/
structure ImageData where
  id : Int
  name : String
  fd : Int
  data : Option (List Nat)
  image_data : Option Nat
  image_width : Nat
  image_height : Nat
  size : Int
  mod_time : Int
  stats_loaded : Bool
  ref_count : Int
  loader : Option ImageLoader
  flags : Nat
deriving DecidableEq, Repr

/-- Modelled from the spec: the fields of `struct ImageContext`
(`img_loader_private.h` is not part of the sources).  `data` is the slot
array (its length is the allocated capacity, the empty list is `NULL`), `num`
the logical length, `size` the capacity field, `counter` the id counter. -/
structure ImageContext where
  data : List (Option Addr)
  num : Nat
  size : Int
  counter : Int
  flags : Nat
deriving DecidableEq, Repr

/-- The part of the machine that backends can see and change: the context,
the heap of entries and an opaque token for the state of the operating
system (file offsets, descriptor table). -/
structure Sys where
  context : ImageContext
  heap : List (Option ImageData)
  world : Nat
deriving DecidableEq, Repr

/-- Calls that leave the library, in the order they are made. -/
inductive Event where
  | img_open (l : ImageLoader) (fd : Int) (p : Addr) (ret : Int)
  | img_close (l : ImageLoader) (p : Addr)
  | sys_open (name : String)
  | fstat (fd : Int)
  | lseek (fd : Int)
  | close (fd : Int)
  | free (p : Addr)
deriving DecidableEq, Repr

/-- Machine state: what backends see, and the trace of external calls. -/
structure St where
  sys : Sys
  trace : List Event
deriving DecidableEq, Repr

/-- Ways a run of the model can stop without a result. -/
inductive Err where
  | ub
  | fuel
deriving DecidableEq, Repr

/-- Everything `img_loader.c` uses but does not define: the constants of the
absent headers and the behaviour of backends and system calls. -/
structure Env where
  /-- the compiled-in registry table -/
  img_loaders : List ImageLoader
  /-- behaviour of a backend's `img_open(context, fd, data)` -/
  img_open : ImageLoader → Sys → Int → Addr → Int × Sys
  /-- behaviour of a backend's `img_close(data)` -/
  img_close : ImageLoader → Sys → Addr → Sys
  /-- behaviour of `open(name, O_RDONLY | O_CLOEXEC)` -/
  sys_open : Nat → String → Int × Nat
  /-- behaviour of `fstat`: size and modification time on success -/
  sys_fstat : Nat → Int → Option (Int × Int)
  /-- behaviour of `lseek(fd, 0, SEEK_SET)` -/
  sys_lseek : Nat → Int → Nat
  /-- behaviour of `close(fd)` -/
  sys_close : Nat → Int → Nat
  LOAD_STATS : Nat
  PRE_EXPAND : Nat
  REMOVE_INVALID : Nat
  IMG_DATA_KEEP_OPEN : Nat
  IMG_DATA_FREE_NAME : Nat
  IMG_DATA_FLIP_RED_BLUE : Nat
  IMG_SORT_LOADED : Nat
  IMG_SORT_NAME : Nat
  IMG_SORT_MOD : Nat
  IMG_SORT_SIZE : Nat

/-! ## Heap access -/

/-- Dereference a pointer to an `ImageData`. -/
def deref (s : St) (p : Addr) : Option ImageData :=
  (s.sys.heap.getD p none)

/-- Store through a pointer to an `ImageData`. -/
def store (s : St) (p : Addr) (d : ImageData) : St :=
  { s with sys := { s.sys with heap := s.sys.heap.set p (some d) } }

/-- Append an event to the trace. -/
def St.log (s : St) (e : Event) : St :=
  { s with trace := s.trace ++ [e] }

/-- Read slot `i` of the slot array. -/
def slot (c : ImageContext) (i : Nat) : Option Addr :=
  c.data.getD i none

/-- The logical range of the slot array: slots `0 .. num-1`. -/
def slots (c : ImageContext) : List (Option Addr) :=
  c.data.take c.num

/-! ## removeInvalid -/

/-- First loop of `removeInvalid`:
`for(i = 0; i < num && data[i]; i++);`, started at `i`. -/
def removeInvalid_scan (data : List (Option Addr)) (num : Nat) : Nat → Nat → Nat
  | 0, i => i
  | fuel + 1, i =>
    if i < num ∧ (data.getD i none).isSome then removeInvalid_scan data num fuel (i + 1)
    else i

/-- Second loop of `removeInvalid`:
`for(int j = 1; i + j < num; i++) data[i] = data[i + j];` (`j` stays 1). -/
def removeInvalid_shift (num : Nat) : Nat → List (Option Addr) → Nat → List (Option Addr) × Nat
  | 0, data, i => (data, i)
  | fuel + 1, data, i =>
    if i + 1 < num then
      removeInvalid_shift num fuel (data.set i (data.getD (i + 1) none)) (i + 1)
    else (data, i)

/-- The function `removeInvalid(context)`. -/
def removeInvalid (c : ImageContext) : ImageContext :=
  let i := removeInvalid_scan c.data c.num c.num 0
  let r := removeInvalid_shift c.num c.num c.data i
  { c with data := r.1, num := r.2 }

/-! ## Descriptors and stat metadata -/

/-- Replace the operating-system token of a state. -/
def St.setWorld (s : St) (w : Nat) : St :=
  { s with sys := { s.sys with world := w } }

/-- Replace the context of a state. -/
def St.setContext (s : St) (c : ImageContext) : St :=
  { s with sys := { s.sys with context := c } }

/-- The function `getFD(data)`: the cached descriptor, or the result of
opening the name when the cached one is `-1`. -/
def getFD (E : Env) (s : St) (p : Addr) : Except Err (Int × St) :=
  match deref s p with
  | none => .error .ub
  | some d =>
    if d.fd = -1 then
      let r := E.sys_open s.sys.world d.name
      .ok (r.1, (s.setWorld r.2).log (.sys_open d.name))
    else .ok (d.fd, s)

/-- The function `setStats(data, size, mod_time)`. -/
def setStats (s : St) (p : Addr) (size mod_time : Int) : Except Err St :=
  match deref s p with
  | none => .error .ub
  | some d => .ok (store s p { d with size := size, mod_time := mod_time, stats_loaded := true })

/-- The function `loadStats(data)`. -/
def loadStats (E : Env) (s : St) (p : Addr) : Except Err St :=
  match deref s p with
  | none => .error .ub
  | some d =>
    if d.stats_loaded then .ok s
    else
      match getFD E s p with
      | .error e => .error e
      | .ok (fd, s1) =>
        let s2 := s1.log (.fstat fd)
        let r := match E.sys_fstat s2.sys.world fd with
          | some (sz, mt) => setStats s2 p sz mt
          | none => .ok s2
        match r with
        | .error e => .error e
        | .ok s3 =>
          match deref s3 p with
          | none => .error .ub
          | some d3 => .ok (store s3 p { d3 with stats_loaded := true })

/-! ## Channel swap -/

/-- The loop bound `image_width * image_height * 4` of `flipRedBlue`, a
product of 32-bit operands: it wraps modulo `2 ^ 32`. -/
def flipLimit (d : ImageData) : Nat :=
  (d.image_width * d.image_height * 4) % 2 ^ 32

/-- Loop of `flipRedBlue`: `for(int i ...; i < limit; i += 4)` swapping
`raw[i]` and `raw[i+2]`; an access outside the buffer is undefined, and so is
the step `i += 4` when it leaves the range of `int`. -/
def flipRedBlue_loop (limit : Nat) : Nat → Nat → List Nat → Except Err (List Nat)
  | 0, _, raw => .ok raw
  | fuel + 1, i, raw =>
    if i < limit then
      match raw.get? i, raw.get? (i + 2) with
      | some a, some b =>
        if i + 4 < 2 ^ 31 then
          flipRedBlue_loop limit fuel (i + 4) ((raw.set i b).set (i + 2) a)
        else .error .ub
      | _, _ => .error .ub
    else .ok raw

/-- The function `flipRedBlue(data)`. -/
def flipRedBlue (s : St) (p : Addr) : Except Err St :=
  match deref s p with
  | none => .error .ub
  | some d =>
    let limit := flipLimit d
    if limit = 0 then .ok s
    else
      match d.data with
      | none => .error .ub
      | some raw =>
        match flipRedBlue_loop limit limit 0 raw with
        | .error e => .error e
        | .ok raw1 => .ok (store s p { d with data := some raw1 })

/-! ## Release and destruction -/

/-- The function `closeImage(data, force)`. -/
def closeImage (E : Env) (s : St) (p : Addr) (force : Bool) : Except Err St :=
  match deref s p with
  | none => .error .ub
  | some d =>
    let d1 := { d with ref_count := d.ref_count - 1 }
    let s1 := store s p d1
    if (d1.ref_count = 0 ∧ hasFlag d1.flags E.IMG_DATA_KEEP_OPEN = false) ∨ force = true then
      match d1.loader with
      | none => .error .ub
      | some l =>
        if l.has_close then
          let s2 : St := { sys := E.img_close l s1.sys p, trace := s1.trace ++ [.img_close l p] }
          match deref s2 p with
          | none => .error .ub
          | some d2 => .ok (store s2 p { d2 with image_data := none, data := none })
        else .error .ub
    else .ok s1

/-- Loop of `freeImageData`: every slot of the logical range that holds the
freed pointer becomes `NULL`. -/
def clearSlots (c : ImageContext) (p : Addr) : ImageContext :=
  { c with data := (c.data.take c.num).map (fun x => if x = some p then none else x)
                    ++ c.data.drop c.num }

/-- The function `freeImageData(context, data)`. -/
def freeImageData (E : Env) (s : St) (q : Option Addr) : Except Err St :=
  match q with
  | none => .error .ub
  | some p =>
    match deref s p with
    | none => .error .ub
    | some d =>
      let r := if d.data.isSome then closeImage E s p true else .ok s
      match r with
      | .error e => .error e
      | .ok s1 =>
        let s2 : St := { sys := { s1.sys with heap := s1.sys.heap.set p none },
                         trace := s1.trace ++ [.free p] }
        .ok (s2.setContext (clearSlots s2.sys.context p))

/-! ## Dispatch -/

/-- The function `loadImageWithLoader(context, fd, data, img_loader)`. -/
def loadImageWithLoader (E : Env) (s : St) (fd : Int) (p : Addr) (l : ImageLoader) :
    Except Err (Int × St) :=
  let r := E.img_open l s.sys fd p
  let s1 : St := { sys := r.2, trace := s.trace ++ [.img_open l fd p r.1] }
  if r.1 = 0 then
    match deref s1 p with
    | none => .error .ub
    | some d =>
      let s2 := store s1 p { d with loader := some l }
      if hasFlag d.flags E.IMG_DATA_FLIP_RED_BLUE then
        match flipRedBlue s2 p with
        | .error e => .error e
        | .ok s3 => .ok (r.1, s3)
      else .ok (r.1, s2)
  else .ok (r.1, s1)

/-- The registry scan of `_loadImage`, over the remaining table entries. -/
def _loadImage_loop (E : Env) (fd : Int) (p : Addr) (multi_lib_only : Bool) :
    List ImageLoader → St → Except Err (Option Addr × St)
  | [], s => .ok (none, s)
  | l :: rest, s =>
    if multi_lib_only && hasFlag l.flags MULTI_LOADER then
      _loadImage_loop E fd p multi_lib_only rest s
    else if fd = -1 ∧ hasFlag l.flags NO_FD = false then
      _loadImage_loop E fd p multi_lib_only rest s
    else
      match loadImageWithLoader E s fd p l with
      | .error e => .error e
      | .ok (ret, s1) =>
        if ret = 0 then .ok (some p, s1)
        else
          let s2 := if hasFlag l.flags NO_SEEK = false then
              (s1.setWorld (E.sys_lseek s1.sys.world fd)).log (.lseek fd)
            else s1
          _loadImage_loop E fd p multi_lib_only rest s2

/-- The function `_loadImage(context, data, multi_lib_only)`. -/
def _loadImage (E : Env) (s : St) (p : Addr) (multi_lib_only : Bool) :
    Except Err (Option Addr × St) :=
  match getFD E s p with
  | .error e => .error e
  | .ok (fd, s1) =>
    match _loadImage_loop E fd p multi_lib_only E.img_loaders s1 with
    | .error e => .error e
    | .ok (some r, s2) => .ok (some r, s2)
    | .ok (none, s2) =>
      if fd ≠ -1 then .ok (none, (s2.setWorld (E.sys_close s2.sys.world fd)).log (.close fd))
      else .ok (none, s2)

/-- The statement `data->ref_count++; return data;` of `loadImage`. -/
def acquire (s : St) (p : Addr) : Except Err (Option Addr × St) :=
  match deref s p with
  | none => .error .ub
  | some d => .ok (some p, store s p { d with ref_count := d.ref_count + 1 })

/-- The function `loadImage(context, data)`. -/
def loadImage (E : Env) (s : St) (q : Option Addr) : Except Err (Option Addr × St) :=
  match q with
  | none => .error .ub
  | some p =>
    match deref s p with
    | none => .error .ub
    | some d =>
      if d.data.isSome then acquire s p
      else
        match _loadImage E s p false with
        | .error e => .error e
        | .ok (some _, s1) => acquire s1 p
        | .ok (none, s1) => .ok (none, s1)

/-! ## Navigation -/

/-- The end of `openImage`: `if(currentImage) closeImage(currentImage, 0);
return data;`. -/
def openImage_tail (E : Env) (s : St) (currentImage data : Option Addr) :
    Except Err (Option Addr × St) :=
  match currentImage with
  | none => .ok (data, s)
  | some c =>
    match closeImage E s c false with
    | .error e => .error e
    | .ok s1 => .ok (data, s1)

/-- The test `!data || !data->data` of `openImage`. -/
def noBuffer (s : St) (data : Option Addr) : Except Err Bool :=
  match data with
  | none => .ok true
  | some p =>
    match deref s p with
    | none => .error .ub
    | some d => .ok d.data.isNone

/-- The function `openImage(context, index, currentImage)`.  The first
argument bounds the depth of the recursion. -/
def openImage (E : Env) : Nat → St → Int → Option Addr → Except Err (Option Addr × St)
  | 0, _, _, _ => .error .fuel
  | fuel + 1, s, index, currentImage =>
    if 0 ≤ index ∧ index < (s.sys.context.num : Int) then
      if currentImage = slot s.sys.context index.toNat then .ok (currentImage, s)
      else
        match loadImage E s (slot s.sys.context index.toNat) with
        | .error e => .error e
        | .ok (data, s1) =>
          match noBuffer s1 data with
          | .error e => .error e
          | .ok nb =>
            if nb && hasFlag s1.sys.context.flags E.REMOVE_INVALID then
              match freeImageData E s1 (slot s1.sys.context index.toNat) with
              | .error e => .error e
              | .ok s2 =>
                let c2 := s2.sys.context
                let c3 := { c2 with data := c2.data.set index.toNat none }
                openImage E fuel (s2.setContext (removeInvalid c3)) index currentImage
            else openImage_tail E s1 currentImage data
    else openImage_tail E s currentImage none

/-! ## Insertion and construction -/

/-- The C library call `realloc(data, size * sizeof(data[0]))`: the old slots
are kept, the array has `size` slots afterwards (none when the request cannot
be met). -/
def realloc (data : List (Option Addr)) (size : Int) : List (Option Addr) :=
  (data ++ List.replicate (size.toNat - data.length) none).take size.toNat

/-- The result of `calloc(1, sizeof(ImageData))`. -/
def zeroImageData : ImageData :=
  { id := 0, name := "", fd := 0, data := none, image_data := none, image_width := 0,
    image_height := 0, size := 0, mod_time := 0, stats_loaded := false, ref_count := 0,
    loader := none, flags := 0 }

/-- First statement of `addFile`: when the array is full or not yet
allocated, double `size` (only if allocated) and `realloc`. -/
def addFile_grow (c : ImageContext) : ImageContext :=
  if (c.num : Int) = c.size ∨ c.data = [] then
    let size1 := if c.data ≠ [] then c.size * 2 else c.size
    { c with size := size1, data := realloc c.data size1 }
  else c

/-- The allocation part of `addFile`: grow, `calloc` the entry, `fd = -1`,
store the pointer in slot `num`, `id = counter++`, `name = file_name`. -/
def addFile_alloc (s : St) (file_name : String) : Except Err (Addr × St) :=
  let c1 := addFile_grow s.sys.context
  let p : Addr := s.sys.heap.length
  if c1.num < c1.data.length then
    let d : ImageData := { zeroImageData with fd := -1, id := c1.counter, name := file_name }
    let c2 : ImageContext :=
      { c1 with data := c1.data.set c1.num (some p), counter := c1.counter + 1 }
    .ok (p, { s with sys := { s.sys with context := c2, heap := s.sys.heap ++ [some d] } })
  else .error .ub

/-- The statement `if(context->flags & LOAD_STATS) loadStats(context->data[context->num]);`. -/
def addFile_stats (E : Env) (s : St) : Except Err St :=
  if hasFlag s.sys.context.flags E.LOAD_STATS then
    match slot s.sys.context s.sys.context.num with
    | none => .error .ub
    | some q => loadStats E s q
  else .ok s

/-- The statement `if(context->flags & PRE_EXPAND) { if(_loadImage(context,
context->data[context->num], 1)); }`. -/
def addFile_expand (E : Env) (s : St) : Except Err St :=
  if hasFlag s.sys.context.flags E.PRE_EXPAND then
    match slot s.sys.context s.sys.context.num with
    | none => .error .ub
    | some q =>
      match _loadImage E s q true with
      | .error e => .error e
      | .ok (_, s1) => .ok s1
  else .ok s

/-- The function `addFile(context, file_name)`. -/
def addFile (E : Env) (s : St) (file_name : String) : Except Err (Addr × St) :=
  match addFile_alloc s file_name with
  | .error e => .error e
  | .ok (p, s1) =>
    match addFile_stats E s1 with
    | .error e => .error e
    | .ok s2 =>
      match addFile_expand E s2 with
      | .error e => .error e
      | .ok s3 =>
        let c3 := s3.sys.context
        .ok (p, s3.setContext { c3 with num := c3.num + 1 })

/-- The function `addFromPipe(context, fd, name)`. -/
def addFromPipe (E : Env) (s : St) (fd : Int) (name : String) : Except Err (Int × St) :=
  match addFile E s name with
  | .error e => .error e
  | .ok (p, s1) => loadImageWithLoader E s1 fd p pipe_loader

/-- The descriptor number `STDIN_FILENO`. -/
def STDIN_FILENO : Int := 0

/-- The loop of `createContext` over the name array, at index `i`; the list
holds the array elements from index `i` on (`none` is a `NULL` element). -/
def createContext_loop (E : Env) (num : Int) :
    List (Option String) → Nat → St → Except Err St
  | [], i, s => if num = 0 ∨ (i : Int) < num then .error .ub else .ok s
  | x :: rest, i, s =>
    if num = 0 ∨ (i : Int) < num then
      match x with
      | none => .ok s
      | some nm =>
        if nm = "-" then
          match addFromPipe E s STDIN_FILENO "stdin" with
          | .error e => .error e
          | .ok (_, s1) => createContext_loop E num rest (i + 1) s1
        else
          match addFile E s nm with
          | .error e => .error e
          | .ok (_, s1) => createContext_loop E num rest (i + 1) s1
    else .ok s

/-- The function `createContext(file_names, num, flags)`, run in the
operating-system state `world`. -/
def createContext (E : Env) (world : Nat) (file_names : Option (List (Option String)))
    (num : Int) (flags : Nat) : Except Err St :=
  let c : ImageContext :=
    { data := [], num := 0, size := if num ≠ 0 then num else 16, counter := 0, flags := flags }
  let s : St := { sys := { context := c, heap := [], world := world }, trace := [] }
  match file_names with
  | none => .ok s
  | some names => createContext_loop E num names 0 s

/-! ## Sorting -/

/-- Conversion of an integer to a 32-bit `int` (two's complement). -/
def toInt32 (x : Int) : Int := (x + 2 ^ 31) % 2 ^ 32 - 2 ^ 31

/-- The function `compareName`, on the two entries pointed to. -/
def compareName (a b : ImageData) : Int :=
  if a.name < b.name then -1 else if a.name = b.name then 0 else 1

/-- The function `compareMod`: the difference, returned as an `int`. -/
def compareMod (a b : ImageData) : Int := toInt32 (a.mod_time - b.mod_time)

/-- The function `compareSize`: the difference, returned as an `int`. -/
def compareSize (a b : ImageData) : Int := toInt32 (a.size - b.size)

/-- The function `compareId`: the difference, returned as an `int`. -/
def compareId (a b : ImageData) : Int := toInt32 (a.id - b.id)

/-- The table `sort_func` of `sortImages`, indexed by `abs(type)`; a later
designated initialiser wins, an index without initialiser is `NULL`. -/
def sort_func (E : Env) (k : Nat) : Option (ImageData → ImageData → Int) :=
  if k = E.IMG_SORT_SIZE then some compareSize
  else if k = E.IMG_SORT_MOD then some compareMod
  else if k = E.IMG_SORT_NAME then some compareName
  else if k = E.IMG_SORT_LOADED then some compareId
  else none

/-- A comparator applied to two slots of the array (it dereferences both). -/
def cmpSlots (s : St) (f : ImageData → ImageData → Int) (a b : Option Addr) : Int :=
  match a.bind (deref s), b.bind (deref s) with
  | some x, some y => f x y
  | _, _ => 0

/-- The C library call `qsort` with comparator `cmp`, realised as an
insertion sort that puts `a` before `b` when `cmp a b <= 0`. -/
def qsort {α : Type} (cmp : α → α → Int) (l : List α) : List α :=
  l.insertionSort (fun a b => cmp a b ≤ 0)

/-- The loop of `sortImages` that calls `loadStats` on every slot. -/
def sortImages_stats (E : Env) : Nat → Nat → St → Except Err St
  | 0, _, s => .ok s
  | fuel + 1, i, s =>
    if i < s.sys.context.num then
      match slot s.sys.context i with
      | none => .error .ub
      | some p =>
        match loadStats E s p with
        | .error e => .error e
        | .ok s1 => sortImages_stats E fuel (i + 1) s1
    else .ok s

/-- The loop of `sortImages` that swaps slot `i` with slot `num - 1 - i`
for `i < num / 2`. -/
def sortImages_swap (num : Nat) : Nat → Nat → List (Option Addr) → List (Option Addr)
  | 0, _, data => data
  | fuel + 1, i, data =>
    if i < num / 2 then
      sortImages_swap num fuel (i + 1)
        ((data.set i (data.getD (num - 1 - i) none)).set (num - 1 - i) (data.getD i none))
    else data

/-- The function `sortImages(context, type)`. -/
def sortImages (E : Env) (s : St) (type : Int) : Except Err St :=
  let r : Except Err St :=
    if hasFlag s.sys.context.flags E.LOAD_STATS = false ∧ type.natAbs > E.IMG_SORT_NAME then
      sortImages_stats E s.sys.context.num 0 s
    else .ok s
  match r with
  | .error e => .error e
  | .ok s1 =>
    let c := s1.sys.context
    if 2 ≤ c.num ∧ ((slots c).all (fun q => (q.bind (deref s1)).isSome) = false
        ∨ c.data.length < c.num) then .error .ub
    else
      match sort_func E type.natAbs with
      | none => if 2 ≤ c.num then .error .ub else .ok s1
      | some f =>
        let sorted := qsort (cmpSlots s1 f) (slots c) ++ c.data.drop c.num
        let data1 := if type < 0 then sortImages_swap c.num c.num 0 sorted else sorted
        .ok (s1.setContext { c with data := data1 })

/-! ## Vocabulary of the statements -/

/-- The two `continue` tests of the registry scan of `_loadImage`. -/
def skipped (multi_lib_only : Bool) (fd : Int) (l : ImageLoader) : Bool :=
  (multi_lib_only && hasFlag l.flags MULTI_LOADER) || (decide (fd = -1) && !hasFlag l.flags NO_FD)

/-- The backend opens recorded in a trace, each with the status it returned. -/
def opens (t : List Event) : List (ImageLoader × Int) :=
  t.filterMap (fun e => match e with
    | .img_open l _ _ ret => some (l, ret)
    | _ => none)

/-- The backend closes recorded in a trace, each with the entry closed. -/
def closes (t : List Event) : List (ImageLoader × Addr) :=
  t.filterMap (fun e => match e with
    | .img_close l p => some (l, p)
    | _ => none)

/-- The channel swap is defined on an entry: the swap is not requested, or
its loop bound is 0, or the bound is within the range of the `int` counter and
the buffer holds that many bytes. -/
def flipFits (E : Env) (d : ImageData) : Prop :=
  hasFlag d.flags E.IMG_DATA_FLIP_RED_BLUE = true → flipLimit d ≠ 0 →
    flipLimit d < 2 ^ 31 ∧ ∃ raw, d.data = some raw ∧ flipLimit d ≤ raw.length

/-- Part of the backend contract: `img_open` of `l` on entry `p` does not free
the entry, and when it reports success the buffer it leaves covers
`width * height` pixels of 4 bytes if the channel swap is requested. -/
def openKeeps (E : Env) (l : ImageLoader) (fd : Int) (p : Addr) : Prop :=
  ∀ sys : Sys, (sys.heap.getD p none).isSome = true →
    ∃ d, (E.img_open l sys fd p).2.heap.getD p none = some d ∧
      ((E.img_open l sys fd p).1 = 0 → flipFits E d)

/-- Part of the backend contract: `img_close` of `l` on entry `p` does not
free the entry and does not touch its reference count. -/
def closeKeeps (E : Env) (l : ImageLoader) (p : Addr) : Prop :=
  ∀ (sys : Sys) (d : ImageData), sys.heap.getD p none = some d →
    ∃ d1, (E.img_close l sys p).heap.getD p none = some d1 ∧ d1.ref_count = d.ref_count

/-- The call `loadImage(context, entry)` made `n` times in a row. -/
def loadImage_times (E : Env) (p : Addr) : Nat → St → Except Err St
  | 0, s => .ok s
  | n + 1, s =>
    match loadImage E s (some p) with
    | .error e => .error e
    | .ok (_, s1) => loadImage_times E p n s1

/-- The call `closeImage(entry, 0)` made `n` times in a row. -/
def closeImage_times (E : Env) (p : Addr) : Nat → St → Except Err St
  | 0, s => .ok s
  | n + 1, s =>
    match closeImage E s p false with
    | .error e => .error e
    | .ok s1 => closeImage_times E p n s1

/-! ## The buffer / reference-count invariant -/

/-- The invariant on one entry: unless `KEEP_OPEN` is set, the decoded buffer
is present exactly when the reference count is positive (and the count is not
negative). -/
def entryOk (E : Env) (d : ImageData) : Prop :=
  hasFlag d.flags E.IMG_DATA_KEEP_OPEN = false →
    ((d.data.isSome = true ↔ 0 < d.ref_count) ∧ 0 ≤ d.ref_count)

/-- The invariant on a state: every allocated entry satisfies `entryOk`, and
the session flag `PRE_EXPAND` is not set. -/
def Inv (E : Env) (s : St) : Prop :=
  (∀ (q : Nat) (d : ImageData), deref s q = some d → entryOk E d) ∧
    hasFlag s.sys.context.flags E.PRE_EXPAND = false

/-- What a call working on entry `p` may change besides that entry: other
entries that existed keep their value, entries allocated by the call satisfy
the entry invariant, the heap does not shrink, the session flags stay. -/
def Frame (E : Env) (p : Addr) (h : List (Option ImageData)) (f : Nat)
    (h1 : List (Option ImageData)) (f1 : Nat) : Prop :=
  h.length ≤ h1.length ∧ f1 = f ∧
    (∀ q : Nat, q ≠ p → q < h.length → h1.getD q none = h.getD q none) ∧
    (∀ (q : Nat) (d1 : ImageData), q ≠ p → h.length ≤ q → h1.getD q none = some d1 →
      entryOk E d1)

/-- Backend contract of a registry backend's `img_open` on an entry without
buffer: the entry stays allocated with the same reference count and the same
`KEEP_OPEN` bit; it has a buffer afterwards exactly when the status is 0;
everything else obeys `Frame`. -/
def OpenContract (E : Env) (l : ImageLoader) : Prop :=
  ∀ (sys : Sys) (fd : Int) (p : Addr) (d : ImageData),
    sys.heap.getD p none = some d → d.data = none →
      (∃ d1, (E.img_open l sys fd p).2.heap.getD p none = some d1 ∧
        ((E.img_open l sys fd p).1 = 0 → d1.data.isSome = true) ∧
        ((E.img_open l sys fd p).1 ≠ 0 → d1.data = none) ∧
        d1.ref_count = d.ref_count ∧
        hasFlag d1.flags E.IMG_DATA_KEEP_OPEN = hasFlag d.flags E.IMG_DATA_KEEP_OPEN) ∧
      Frame E p sys.heap sys.context.flags (E.img_open l sys fd p).2.heap
        (E.img_open l sys fd p).2.context.flags

/-- Backend contract of the pipe backend's `img_open` (a container backend):
like `OpenContract`, but the entry it is given never receives a buffer. -/
def PipeContract (E : Env) : Prop :=
  ∀ (sys : Sys) (fd : Int) (p : Addr) (d : ImageData),
    sys.heap.getD p none = some d → d.data = none →
      (∃ d1, (E.img_open pipe_loader sys fd p).2.heap.getD p none = some d1 ∧
        d1.data = none ∧
        d1.ref_count = d.ref_count ∧
        hasFlag d1.flags E.IMG_DATA_KEEP_OPEN = hasFlag d.flags E.IMG_DATA_KEEP_OPEN) ∧
      Frame E p sys.heap sys.context.flags (E.img_open pipe_loader sys fd p).2.heap
        (E.img_open pipe_loader sys fd p).2.context.flags

/-- Backend contract of `img_close`: the entry stays allocated with the same
reference count and `KEEP_OPEN` bit; everything else obeys `Frame`. -/
def CloseContract (E : Env) (l : ImageLoader) : Prop :=
  ∀ (sys : Sys) (p : Addr) (d : ImageData), sys.heap.getD p none = some d →
    (∃ d1, (E.img_close l sys p).heap.getD p none = some d1 ∧
      d1.ref_count = d.ref_count ∧
      hasFlag d1.flags E.IMG_DATA_KEEP_OPEN = hasFlag d.flags E.IMG_DATA_KEEP_OPEN) ∧
    Frame E p sys.heap sys.context.flags (E.img_close l sys p).heap
      (E.img_close l sys p).context.flags

/-- A caller holds entry `c`: it is allocated and, unless `KEEP_OPEN` is set,
its reference count is positive. -/
def held (E : Env) (s : St) (c : Addr) : Prop :=
  ∃ d, deref s c = some d ∧
    (hasFlag d.flags E.IMG_DATA_KEEP_OPEN = false → 0 < d.ref_count)

/-- States reachable through the public operations when `PRE_EXPAND` is not
requested, releases are not forced and a caller releases (directly or as the
`currentImage` of `openImage`) only an entry it holds. -/
inductive Reach (E : Env) : St → Prop where
  | create (world : Nat) (names : Option (List (Option String))) (num : Int) (flags : Nat)
      (s : St) : hasFlag flags E.PRE_EXPAND = false →
      createContext E world names num flags = .ok s → Reach E s
  | addFile (s : St) (name : String) (p : Addr) (s1 : St) :
      Reach E s → addFile E s name = .ok (p, s1) → Reach E s1
  | addFromPipe (s : St) (fd : Int) (name : String) (r : Int) (s1 : St) :
      Reach E s → addFromPipe E s fd name = .ok (r, s1) → Reach E s1
  | loadImage (s : St) (p : Addr) (r : Option Addr) (s1 : St) :
      Reach E s → loadImage E s (some p) = .ok (r, s1) → Reach E s1
  | closeImage (s : St) (p : Addr) (s1 : St) :
      Reach E s → held E s p → closeImage E s p false = .ok s1 → Reach E s1
  | openImage (fuel : Nat) (s : St) (index : Int) (cur r : Option Addr) (s1 : St) :
      Reach E s → (∀ c, cur = some c → held E s c) →
      openImage E fuel s index cur = .ok (r, s1) → Reach E s1

/-! ## Vocabulary of the navigation statements -/

/-- Entry `p`, while its value is `d`, fails to yield a buffer: in every state
`loadImage` on it returns `NULL` or the entry without buffer, leaves the entry
without buffer and changes neither the context nor another entry. -/
def failsAt (E : Env) (p : Addr) (d : ImageData) : Prop :=
  ∀ s : St, deref s p = some d →
    ∃ r s1 d1, loadImage E s (some p) = .ok (r, s1) ∧ (r = none ∨ r = some p) ∧
      s1.sys.context = s.sys.context ∧ deref s1 p = some d1 ∧ d1.data = none ∧
      ∀ q : Nat, q ≠ p → deref s1 q = deref s q

/-- Entry `p`, while its value is `d`, decodes: in every state `loadImage` on
it returns the entry with a buffer present and changes neither the context
nor another entry. -/
def decodesAt (E : Env) (p : Addr) (d : ImageData) : Prop :=
  ∀ s : St, deref s p = some d →
    ∃ s1 d1, loadImage E s (some p) = .ok (some p, s1) ∧
      s1.sys.context = s.sys.context ∧ deref s1 p = some d1 ∧ d1.data.isSome = true ∧
      ∀ q : Nat, q ≠ p → deref s1 q = deref s q

/-- Entry `c`, while its value is `d`, can be released: in every state
`closeImage(c, 0)` is defined, lowers the reference count of `c` by one and
changes neither the context nor another entry. -/
def releasable (E : Env) (c : Addr) (d : ImageData) : Prop :=
  ∀ s : St, deref s c = some d →
    ∃ s1 d1, closeImage E s c false = .ok s1 ∧ s1.sys.context = s.sys.context ∧
      deref s1 c = some d1 ∧ d1.ref_count = d.ref_count - 1 ∧
      ∀ q : Nat, q ≠ c → deref s1 q = deref s q

/-! ## Vocabulary of the sorting statements -/

/-- The `id` of the entry a slot points to (0 for a `NULL` or dangling slot). -/
def slotId (s : St) (q : Option Addr) : Int :=
  ((q.bind (deref s)).map (fun d => d.id)).getD 0

/-- What `sortImages` relies on about the sort constants of the absent header:
`IMG_SORT_LOADED` and `IMG_SORT_NAME` do not need stat metadata (the test
`abs(type) > IMG_SORT_NAME`), `IMG_SORT_MOD` and `IMG_SORT_SIZE` do, and the
four designated initialisers of `sort_func` name four different indices. -/
def sortKeysOrdered (E : Env) : Prop :=
  E.IMG_SORT_LOADED < E.IMG_SORT_NAME ∧ E.IMG_SORT_NAME < E.IMG_SORT_MOD ∧
    E.IMG_SORT_MOD < E.IMG_SORT_SIZE

/-! ## A concrete environment for evaluating the model -/

/-- The ids found in the logical range of the slot array (`none` for a
`NULL` slot or a dangling pointer). -/
def slotIds (s : St) : List (Option Int) :=
  (slots s.sys.context).map (fun q => (q.bind (deref s)).map (fun d => d.id))

/-- A backend behaviour for examples: a single-image backend decodes exactly
the source whose name is the backend's name, into a one-pixel buffer; a
container backend accepts exactly the source of its name and sets no buffer. -/
def demo_open (l : ImageLoader) (sys : Sys) (_fd : Int) (p : Addr) : Int × Sys :=
  match sys.heap.getD p none with
  | none => (-1, sys)
  | some d =>
    if d.name = l.name then
      if hasFlag l.flags MULTI_LOADER then (0, sys)
      else
        let d1 : ImageData :=
          { d with data := some [1, 2, 3, 4], image_width := 1, image_height := 1 }
        (0, { sys with heap := sys.heap.set p (some d1) })
    else (-1, sys)

/-- A backend close for examples: it clears the buffer pointer. -/
def demo_close (_l : ImageLoader) (sys : Sys) (p : Addr) : Sys :=
  match sys.heap.getD p none with
  | none => sys
  | some d => { sys with heap := sys.heap.set p (some { d with data := none }) }

/-- An environment for examples: the full registry, every name except
`"nofile"` opens as descriptor 3, `fstat` reports size 10 and time 20; the flag
bits are numbered from bit 0 and the sort constants from 0, in the order the
code names them. -/
def demoEnv : Env :=
  { img_loaders := img_loaders
    img_open := demo_open
    img_close := demo_close
    sys_open := fun w name => (if name = "nofile" then -1 else 3, w)
    sys_fstat := fun _ fd => if fd = -1 then none else some (10, 20)
    sys_lseek := fun w _ => w
    sys_close := fun w _ => w
    LOAD_STATS := 1
    PRE_EXPAND := 2
    REMOVE_INVALID := 4
    IMG_DATA_KEEP_OPEN := 1
    IMG_DATA_FREE_NAME := 2
    IMG_DATA_FLIP_RED_BLUE := 4
    IMG_SORT_LOADED := 0
    IMG_SORT_NAME := 1
    IMG_SORT_MOD := 2
    IMG_SORT_SIZE := 3 }

/-- Run an operation on the state of a previous result. -/
def andThen {α : Type} (r : Except Err St) (f : St → Except Err α) : Except Err α :=
  match r with
  | .error e => .error e
  | .ok s => f s

/-- Five entries `a .. e` (ids 0 .. 4) created by `createContext`, then the
entries at positions 1 and 3 destroyed by `freeImageData`. -/
def fiveWithTwoNulls : Except Err St :=
  andThen (andThen
    (createContext demoEnv 0 (some [some "a", some "b", some "c", some "d", some "e", none]) 5 0)
    (fun s => freeImageData demoEnv s (slot s.sys.context 1)))
    (fun s => freeImageData demoEnv s (slot s.sys.context 3))

/-- A backend behaviour that depends on the backend only: `stb_image`
decodes every source into a one-pixel buffer, every other backend fails. -/
def fixed_open (l : ImageLoader) (sys : Sys) (_fd : Int) (p : Addr) : Int × Sys :=
  if l.name = "stb_image" then
    match sys.heap.getD p none with
    | none => (0, sys)
    | some d =>
      let d1 : ImageData :=
        { d with data := some [1, 2, 3, 4], image_width := 1, image_height := 1 }
      (0, { sys with heap := sys.heap.set p (some d1) })
  else (-1, sys)

/-- The example environment with the backend behaviour `fixed_open`. -/
def fixedEnv : Env := { demoEnv with img_open := fixed_open }

/-- A collection with the single fresh entry `x.jpg` at address 0. -/
def oneEntry : St :=
  { sys := { context := { data := [some 0], num := 1, size := 1, counter := 1, flags := 0 }
             heap := [some { zeroImageData with fd := -1, name := "x.jpg" }]
             world := 0 }
    trace := [] }

/-- A collection with the single fresh entry `spng` at address 0; the `spng`
backend of `demoEnv` decodes it. -/
def spngEntry : St :=
  { sys := { context := { data := [some 0], num := 1, size := 1, counter := 1, flags := 0 }
             heap := [some { zeroImageData with fd := -1, name := "spng" }]
             world := 0 }
    trace := [] }

/-- The state after the dispatch `_loadImage(context, entry, 0)` on `spngEntry`. -/
def spngDispatched : St :=
  match _loadImage demoEnv spngEntry 0 false with
  | .ok (_, s) => s
  | .error _ => spngEntry

/-- The entry of `spngEntry` as the `spng` backend of `demoEnv` leaves it. -/
def spngDecoded : ImageData :=
  { zeroImageData with
    fd := -1, name := "spng", data := some [1, 2, 3, 4], image_width := 1, image_height := 1,
    loader := some (CREATE_LOADER "spng") }

/-- The collection `createContext(["a"], 1, 0)` in the environment `fixedEnv`. -/
def ctxA : St :=
  match createContext fixedEnv 0 (some [some "a", none]) 1 0 with
  | .ok s => s
  | .error _ => oneEntry

/-- The state after `loadImage` on the entry of `ctxA`. -/
def ctxA_loaded : St :=
  match loadImage fixedEnv ctxA (some 0) with
  | .ok (_, s) => s
  | .error _ => oneEntry

/-- The entry of `ctxA_loaded`. -/
def ctxA_entry : ImageData :=
  (deref ctxA_loaded 0).getD zeroImageData

/-- A backend behaviour that depends on the entry's address only: the entry
at address 1 is never decoded, every other entry is decoded into a one-pixel
buffer. -/
def addr_open (_l : ImageLoader) (sys : Sys) (_fd : Int) (p : Addr) : Int × Sys :=
  if p = 1 then (-1, sys)
  else
    match sys.heap.getD p none with
    | none => (-1, sys)
    | some d =>
      let d1 : ImageData :=
        { d with data := some [1, 2, 3, 4], image_width := 1, image_height := 1 }
      (0, { sys with heap := sys.heap.set p (some d1) })

/-- The example environment with the single registry backend `stb_image`
behaving as `addr_open`. -/
def addrEnv : Env :=
  { demoEnv with img_loaders := [CREATE_LOADER "stb_image"], img_open := addr_open }

/-- Three sources `a`, `b`, `c` created with `REMOVE_INVALID`; the middle one
(address 1) fails every backend. -/
def threeSources : St :=
  match createContext addrEnv 0 (some [some "a", some "b", some "c", none]) 3
      addrEnv.REMOVE_INVALID with
  | .ok s => s
  | .error _ => oneEntry

/-- The state after `openImage(context, 0, NULL)` on `threeSources`. -/
def threeSources_at0 : St :=
  match openImage addrEnv 1 threeSources 0 none with
  | .ok (_, s) => s
  | .error _ => oneEntry

/-- An entry as `addFile` creates it. -/
def freshEntry (id : Int) (name : String) : ImageData :=
  { zeroImageData with fd := -1, id := id, name := name }

/-- An entry as `addFile` creates it, after the backend `stb_image` of
`addrEnv` decoded it and `loadImage` counted the reference. -/
def heldEntry (id : Int) (name : String) : ImageData :=
  { zeroImageData with
    fd := -1, id := id, name := name, data := some [1, 2, 3, 4], image_width := 1,
    image_height := 1, ref_count := 1, loader := some (CREATE_LOADER "stb_image") }

/-- The example environment with the sort constants numbered from 1. -/
def sortEnv : Env :=
  { demoEnv with IMG_SORT_LOADED := 1, IMG_SORT_NAME := 2, IMG_SORT_MOD := 3, IMG_SORT_SIZE := 4 }

/-- Three entries with ids 0, 1, 2 whose slots are in the order 2, 0, 1. -/
def shuffled : St :=
  { sys := { context := { data := [some 2, some 0, some 1], num := 3, size := 3, counter := 3,
                          flags := 0 }
             heap := [some (freshEntry 0 "a"), some (freshEntry 1 "b"), some (freshEntry 2 "c")]
             world := 0 }
    trace := [] }

/-! ## Entries with stat metadata -/

/-- An entry as `addFile` creates it with `LOAD_STATS`, for a file of `size`
bytes last modified at `mod_time`. -/
def statEntry (id : Int) (name : String) (size mod_time : Int) : ImageData :=
  { zeroImageData with
    fd := -1, id := id, name := name, size := size, mod_time := mod_time, stats_loaded := true }

/-- Two entries with loaded stats: a file of 2 GiB modified at time `2 ^ 31`
(January 2038), then an empty file modified at time 0, in that slot order. -/
def bigFiles : St :=
  { sys := { context := { data := [some 0, some 1], num := 2, size := 2, counter := 2,
                          flags := 0 }
             heap := [some (statEntry 0 "big" 2147483648 2147483648),
                      some (statEntry 1 "empty" 0 0)]
             world := 0 }
    trace := [] }

/-- The byte sizes found in the logical range of the slot array. -/
def slotSizes (s : St) : List (Option Int) :=
  (slots s.sys.context).map (fun q => (q.bind (deref s)).map (fun d => d.size))

/-- The modification times found in the logical range of the slot array. -/
def slotTimes (s : St) : List (Option Int) :=
  (slots s.sys.context).map (fun q => (q.bind (deref s)).map (fun d => d.mod_time))

/-! ## Vocabulary of the registry and release statements -/

/-- No container backend (`MULTI_LOADER` set) stands before a single-image
backend in the table: every single-image backend precedes every container
backend. -/
def singleFirst (t : List ImageLoader) : Prop :=
  t.Pairwise (fun a b => hasFlag a.flags MULTI_LOADER = true → hasFlag b.flags MULTI_LOADER = true)

/-- Position of the backend called `name` in a table (the length of the table
when there is none). -/
def loaderIndex (t : List ImageLoader) (name : String) : Nat :=
  t.findIdx (fun l => l.name = name)

/-- A run stopped on undefined behaviour. -/
def isUB {α : Type} (r : Except Err α) : Bool :=
  match r with
  | .error .ub => true
  | _ => false

/-- The state of a completed run (`none` when the run stopped with an error). -/
def finalSt {α : Type} (r : Except Err (α × St)) : Option St :=
  match r with
  | .ok (_, s) => some s
  | .error _ => none

/-- The collection `createContext(["dir"], 1, 0)` in `demoEnv`, whose `dir`
backend accepts the source `dir`, after `openImage(context, 0, NULL)`. -/
def dirOpened : Except Err (Option Addr × St) :=
  andThen (createContext demoEnv 0 (some [some "dir", none]) 1 0)
    (fun s => openImage demoEnv 1 s 0 none)

/-- The run `dirOpened` followed by `openImage(context, 1, entry)`, which
steps away from the entry `openImage` returned. -/
def dirLeft : Except Err (Option Addr × St) :=
  match dirOpened with
  | .error e => .error e
  | .ok (cur, s) => openImage demoEnv 1 s 1 cur

/-- A context whose logical range `[0, NULL, 2]` holds one `NULL` slot. -/
def gapContext : ImageContext :=
  { data := [some 0, none, some 2, none], num := 3, size := 4, counter := 3, flags := 0 }

/-- A context whose logical range `[0, 2]` holds no `NULL` slot. -/
def denseContext : ImageContext :=
  { data := [some 0, some 2], num := 2, size := 2, counter := 3, flags := 0 }

/-! ## Vocabulary of the stat statements -/

/-- The stat queries recorded in a trace: the descriptor of every `fstat`. -/
def fstats (t : List Event) : List Int :=
  t.filterMap (fun e => match e with
    | .fstat fd => some fd
    | _ => none)

/-- The descriptor `getFD` yields for entry `d` in state `s`, and the
operating-system state after it. -/
def fdOf (E : Env) (s : St) (d : ImageData) : Int × Nat :=
  if d.fd = -1 then E.sys_open s.sys.world d.name else (d.fd, s.sys.world)

/-- The entry `d` after a stat query with result `r`: size and modification
time are stored on success, `stats_loaded` is set in both cases. -/
def withStats (d : ImageData) (r : Option (Int × Int)) : ImageData :=
  match r with
  | some (sz, mt) => { d with size := sz, mod_time := mt, stats_loaded := true }
  | none => { d with stats_loaded := true }

/-! ## Vocabulary of the channel-swap statement -/

/-- Byte `j` of the buffer `raw` of `n` pixels after the red/blue swap: bytes 0
and 2 of each of the first `n` pixels are exchanged, every other byte is kept. -/
def swappedByte (raw : List Nat) (n j : Nat) : Option Nat :=
  if j < 4 * n then
    if j % 4 = 0 then raw[j + 2]? else if j % 4 = 2 then raw[j - 2]? else raw[j]?
  else raw[j]?

/-- A collection with the single entry `spng` at address 0 on which the
channel swap is requested (`IMG_DATA_FLIP_RED_BLUE` of `demoEnv` set). -/
def flipEntry : St :=
  { sys := { context := { data := [some 0], num := 1, size := 1, counter := 1, flags := 0 }
             heap := [some { zeroImageData with fd := -1, name := "spng", flags := 4 }]
             world := 0 }
    trace := [] }

/-- The decoded buffer of the entry at `p` after a completed dispatch. -/
def bufferAt (p : Addr) (r : Except Err (Int × St)) : Option (List Nat) :=
  match r with
  | .ok (_, s) => (deref s p).bind (fun d => d.data)
  | .error _ => none

/-- Entry `p` is allocated and its stat metadata is not loaded. -/
def needsStats (s : St) (p : Addr) : Bool :=
  match deref s p with
  | some d => !d.stats_loaded
  | none => false

/-- Two sources created without `LOAD_STATS`; the stat metadata of the first
has been loaded by `loadStats`, that of the second has not. -/
def halfLoaded : St :=
  match andThen (createContext demoEnv 0 (some [some "b", some "a", none]) 2 0)
      (fun s => loadStats demoEnv s 0) with
  | .ok s => s
  | .error _ => oneEntry

/-- Two sources created with `LOAD_STATS`. -/
def eagerLoaded : St :=
  match createContext demoEnv 0 (some [some "b", some "a", none]) 2 demoEnv.LOAD_STATS with
  | .ok s => s
  | .error _ => oneEntry

/-- A buffer of `2 ^ 30` pixels of 4 bytes whose first pixel is `[1, 2, 3, 4]`. -/
def hugeRaw : List Nat := 1 :: 2 :: 3 :: 4 :: List.replicate 4294967292 0

/-- A backend behaviour that decodes every entry into an image `2 ^ 30` pixels
wide and 1 pixel high with the buffer `hugeRaw`. -/
def huge_open (_l : ImageLoader) (sys : Sys) (_fd : Int) (p : Addr) : Int × Sys :=
  match sys.heap.getD p none with
  | none => (-1, sys)
  | some d =>
    let d1 : ImageData :=
      { d with data := some hugeRaw, image_width := 1073741824, image_height := 1 }
    (0, { sys with heap := sys.heap.set p (some d1) })

/-- The example environment with the backend behaviour `huge_open`. -/
def hugeEnv : Env := { demoEnv with img_open := huge_open }

/-! ## Vocabulary of the id statements -/

/-- The id invariant of a state: the counter is not negative, every allocated
entry has an id from 0 up to the counter (exclusive), and an entry at a higher
address (allocated later) has a strictly larger id. -/
def IdInv (sys : Sys) : Prop :=
  0 ≤ sys.context.counter ∧
  (∀ (q : Nat) (d : ImageData), sys.heap.getD q none = some d →
    0 ≤ d.id ∧ d.id < sys.context.counter) ∧
  (∀ (q q1 : Nat) (d d1 : ImageData), q < q1 → sys.heap.getD q none = some d →
    sys.heap.getD q1 none = some d1 → d.id < d1.id)

/-- How the ids of state `b` extend those of an earlier state `a`: the counter
did not go down, no address was given up, an entry at an address of `a` is the
entry of `a` with its id (or was destroyed), and the entries at new addresses
carry ids from the counter of `a` up to the counter of `b`, increasing with the
address. -/
def IdExt (a b : Sys) : Prop :=
  a.context.counter ≤ b.context.counter ∧ a.heap.length ≤ b.heap.length ∧
  (∀ (q : Nat) (d1 : ImageData), q < a.heap.length → b.heap.getD q none = some d1 →
    ∃ d, a.heap.getD q none = some d ∧ d.id = d1.id) ∧
  (∀ (q : Nat) (d1 : ImageData), a.heap.length ≤ q → b.heap.getD q none = some d1 →
    a.context.counter ≤ d1.id ∧ d1.id < b.context.counter) ∧
  (∀ (q q1 : Nat) (d d1 : ImageData), a.heap.length ≤ q → q < q1 →
    b.heap.getD q none = some d → b.heap.getD q1 none = some d1 → d.id < d1.id)

/-- Backend contract for the id statements: a backend's `img_open` and
`img_close` extend the ids in the sense of `IdExt` (they create entries only
the way `addFile` does and leave the ids of existing entries alone). -/
def IdContract (E : Env) : Prop :=
  (∀ (l : ImageLoader) (sys : Sys) (fd : Int) (p : Addr), IdExt sys (E.img_open l sys fd p).2) ∧
  (∀ (l : ImageLoader) (sys : Sys) (p : Addr), IdExt sys (E.img_close l sys p))

/-- States reached from `s0` by the operations `addFile`, `addFromPipe`,
`freeImageData`, `removeInvalid`, `sortImages` and `openImage`. -/
inductive Run (E : Env) (s0 : St) : St → Prop where
  | start : Run E s0 s0
  | addFile (s : St) (name : String) (p : Addr) (s1 : St) :
      Run E s0 s → addFile E s name = .ok (p, s1) → Run E s0 s1
  | addFromPipe (s : St) (fd : Int) (name : String) (r : Int) (s1 : St) :
      Run E s0 s → addFromPipe E s fd name = .ok (r, s1) → Run E s0 s1
  | freeImageData (s : St) (q : Option Addr) (s1 : St) :
      Run E s0 s → freeImageData E s q = .ok s1 → Run E s0 s1
  | removeInvalid (s : St) :
      Run E s0 s → Run E s0 (s.setContext (removeInvalid s.sys.context))
  | sortImages (s : St) (type : Int) (s1 : St) :
      Run E s0 s → sortImages E s type = .ok s1 → Run E s0 s1
  | openImage (fuel : Nat) (s : St) (index : Int) (cur r : Option Addr) (s1 : St) :
      Run E s0 s → openImage E fuel s index cur = .ok (r, s1) → Run E s0 s1

/-- Two sources `a`, `b` created in `demoEnv`. -/
def twoNames : St :=
  match createContext demoEnv 0 (some [some "a", some "b", none]) 2 0 with
  | .ok s => s
  | .error _ => oneEntry

/-- The collection `twoNames` after `freeImageData` on its first entry and
`removeInvalid`. -/
def twoNames_freed : St :=
  match freeImageData demoEnv twoNames (some 0) with
  | .ok s => s.setContext (removeInvalid s.sys.context)
  | .error _ => oneEntry

/-- The collection `twoNames_freed` after `addFile(context, "c")`. -/
def twoNames_added : St :=
  match addFile demoEnv twoNames_freed "c" with
  | .ok (_, s) => s
  | .error _ => oneEntry

/-! ## Vocabulary of the construction statement -/

/-- The id and name of every heap cell (`none` for a free cell). -/
def keys (h : List (Option ImageData)) : List (Option (Int × String)) :=
  h.map (fun x => x.map (fun d => (d.id, d.name)))

/-- Backend contract "no backend inserts entries": `img_open` on an allocated
entry leaves the context as it is, allocates and frees nothing and keeps the id
and the name of every entry; when it reports success the buffer it leaves is
large enough for the channel swap, if that is requested. -/
def Quiet (E : Env) : Prop :=
  ∀ (l : ImageLoader) (sys : Sys) (fd : Int) (p : Addr),
    (sys.heap.getD p none).isSome = true →
      (E.img_open l sys fd p).2.context = sys.context ∧
      keys (E.img_open l sys fd p).2.heap = keys sys.heap ∧
      ((E.img_open l sys fd p).1 = 0 →
        ∀ d1, (E.img_open l sys fd p).2.heap.getD p none = some d1 → flipFits E d1)

/-- The backend opens recorded in a trace, each with the descriptor and the
entry it was given. -/
def imgOpens (t : List Event) : List (ImageLoader × Int × Addr) :=
  t.filterMap (fun e => match e with
    | .img_open l fd p _ => some (l, fd, p)
    | _ => none)

/-- The names passed to `open` in a trace. -/
def sysOpens (t : List Event) : List String :=
  t.filterMap (fun e => match e with
    | .sys_open name => some name
    | _ => none)

/-- What `addFile` needs of the slot array: a positive capacity field, and
either no array yet (and no entry) or an array of `size` slots of which at most
all are in use. -/
def Cap (c : ImageContext) : Prop :=
  0 < c.size ∧
    ((c.data = [] ∧ c.num = 0) ∨ ((c.data.length : Int) = c.size ∧ c.num ≤ c.data.length))

/-- A collection as `createContext` builds it while no backend inserts: the
slot array has room as `Cap` says, and the number of heap cells, the number of
slots in use and the id counter agree. -/
def Built (s : St) : Prop :=
  Cap s.sys.context ∧ s.sys.heap.length = s.sys.context.num ∧
    s.sys.context.counter = (s.sys.context.num : Int)

/-- The name of the entry made for a listed name: `stdin` for the single dash,
the name itself otherwise. -/
def entryName (nm : String) : String := if nm = "-" then "stdin" else nm

/-- The names the loop of `createContext` handles when it stands at index `i`
of the array with `arr` still ahead: the names before the first `NULL`, and
with a count hint other than 0 no more than the hint leaves. -/
def listedFrom (num : Int) (i : Nat) (arr : List (Option String)) : List String :=
  if num = 0 then (arr.takeWhile (fun x => x.isSome)).filterMap id
  else ((arr.takeWhile (fun x => x.isSome)).filterMap id).take (num.toNat - i)

/-- The names `createContext(arr, num, flags)` handles. -/
def listedNames (num : Int) (arr : List (Option String)) : List String :=
  listedFrom num 0 arr

/-- Ids and names of the entries made for a list of names, ids counting up
from `i`. -/
def expectedKeys : Nat → List String → List (Option (Int × String))
  | _, [] => []
  | i, nm :: rest => some ((i : Int), entryName nm) :: expectedKeys (i + 1) rest

/-- The backend opens made for a list of names whose first entry gets address
`i`: one for each single dash, to the pipe backend with the descriptor of
standard input. -/
def expectedPipeOpens : Nat → List String → List (ImageLoader × Int × Addr)
  | _, [] => []
  | i, nm :: rest =>
    (if nm = "-" then [(pipe_loader, STDIN_FILENO, i)] else []) ++ expectedPipeOpens (i + 1) rest

/-- The state `createContext` starts its loop in: the zeroed context with its
flags and the capacity field set, no entry, nothing traced. -/
def initialSt (world : Nat) (num : Int) (flags : Nat) : St :=
  { sys := { context := { data := [], num := 0, size := if num ≠ 0 then num else 16,
                          counter := 0, flags := flags }
             heap := []
             world := world }
    trace := [] }

/-- Heap `b` extends heap `a` and agrees with it at every address of `a` other
than `p`. -/
def Away (p : Nat) (a b : List (Option ImageData)) : Prop :=
  a.length ≤ b.length ∧ ∀ q : Nat, q ≠ p → q < a.length → b.getD q none = a.getD q none

/-- What the release statement relies on about backends: a call of `img_open`
or `img_close` for entry `p` leaves every other allocated entry as it is (it
may change entry `p` and the context, and it may insert new entries), and
`img_close` keeps the reference count of its entry. -/
def Apart (E : Env) : Prop :=
  (∀ (l : ImageLoader) (sys : Sys) (fd : Int) (p : Addr),
    Away p sys.heap (E.img_open l sys fd p).2.heap) ∧
  (∀ (l : ImageLoader) (sys : Sys) (p : Addr), Away p sys.heap (E.img_close l sys p).heap) ∧
  ∀ (l : ImageLoader) (p : Addr), closeKeeps E l p

/-! ## Theorems -/

/-- C1: on the collection with ids `[0,1,2,3,4]` whose entries at positions 1
and 3 were destroyed, `removeInvalid` removes only the first `NULL` slot: the
logical range afterwards is `[0, 2, NULL, 4]` and `num` is 4, where compaction
of every null slot would give `[0, 2, 4]` with `num` 3. -/
theorem removeInvalid_two_nulls_leaves_null :
    fiveWithTwoNulls.toOption.map slotIds = some [some 0, none, some 2, none, some 4] ∧
    fiveWithTwoNulls.toOption.map
        (fun s => (slotIds (s.setContext (removeInvalid s.sys.context)),
                   (removeInvalid s.sys.context).num))
      = some ([some 0, some 2, none, some 4], 4) := by
  decide

/-! ### Heap, trace and dispatch lemmas -/

theorem deref_lt {s : St} {p : Addr} {d : ImageData} (h : deref s p = some d) :
    p < s.sys.heap.length := by
  by_contra hc
  simp [deref, List.getD_eq_getElem?_getD, List.getElem?_eq_none (not_lt.mp hc)] at h

theorem deref_store_same {s : St} {p : Addr} {d0 : ImageData} (d : ImageData)
    (h : deref s p = some d0) : deref (store s p d) p = some d := by
  have hl := deref_lt h
  simp [deref, store, List.getD_eq_getElem?_getD, hl]

theorem deref_store_ne (s : St) {p q : Addr} (d : ImageData) (h : q ≠ p) :
    deref (store s p d) q = deref s q := by
  simp [deref, store, List.getD_eq_getElem?_getD, List.getElem?_set_ne (Ne.symm h)]

@[simp] theorem store_trace (s : St) (p : Addr) (d : ImageData) : (store s p d).trace = s.trace := rfl
@[simp] theorem store_context (s : St) (p : Addr) (d : ImageData) :
    (store s p d).sys.context = s.sys.context := rfl
@[simp] theorem store_world (s : St) (p : Addr) (d : ImageData) :
    (store s p d).sys.world = s.sys.world := rfl

theorem flipLimit_dvd (d : ImageData) : 4 ∣ flipLimit d := by
  unfold flipLimit
  omega

theorem flipRedBlue_loop_ok (limit : Nat) (h4 : 4 ∣ limit) (hlim : limit < 2 ^ 31) :
    ∀ (fuel i : Nat) (raw : List Nat), 4 ∣ i → limit ≤ raw.length →
      ∃ r, flipRedBlue_loop limit fuel i raw = .ok r ∧ r.length = raw.length := by
  intro fuel
  induction fuel with
  | zero => intro i raw _ _; exact ⟨raw, rfl, rfl⟩
  | succ n ih =>
    intro i raw hi hl
    unfold flipRedBlue_loop
    by_cases hlt : i < limit
    · have h2 : i + 4 ≤ limit := by omega
      have ha : i < raw.length := by omega
      have hb : i + 2 < raw.length := by omega
      have hc : i + 4 < 2 ^ 31 := by omega
      simp only [hlt, if_true, List.get?_eq_getElem?, List.getElem?_eq_getElem ha,
        List.getElem?_eq_getElem hb, hc]
      obtain ⟨r, hr, hlen⟩ := ih (i + 4) ((raw.set i raw[i + 2]).set (i + 2) raw[i])
        (by omega) (by simpa using hl)
      exact ⟨r, hr, by simpa using hlen⟩
    · simp only [hlt, if_false]
      exact ⟨raw, rfl, rfl⟩

theorem flipRedBlue_ok {s : St} {p : Addr} {d : ImageData} (hd : deref s p = some d)
    (hf : flipLimit d ≠ 0 →
      flipLimit d < 2 ^ 31 ∧ ∃ raw, d.data = some raw ∧ flipLimit d ≤ raw.length) :
    ∃ s1 d1, flipRedBlue s p = .ok s1 ∧ s1.trace = s.trace ∧ s1.sys.context = s.sys.context ∧
      s1.sys.world = s.sys.world ∧ deref s1 p = some d1 ∧ d1 = { d with data := d1.data } ∧
      d1.data.isSome = d.data.isSome ∧ s1.sys.heap.length = s.sys.heap.length ∧
      ∀ q, q ≠ p → deref s1 q = deref s q := by
  unfold flipRedBlue
  simp only [hd]
  by_cases h0 : flipLimit d = 0
  · simp only [h0, if_true]
    exact ⟨s, d, rfl, rfl, rfl, rfl, hd, rfl, rfl, rfl, fun _ _ => rfl⟩
  · obtain ⟨hlim, raw, hraw, hlen⟩ := hf h0
    obtain ⟨r, hr, _⟩ := flipRedBlue_loop_ok (flipLimit d)
      (flipLimit_dvd d) hlim (flipLimit d) 0 raw (dvd_zero 4) hlen
    simp only [h0, if_false, hraw, hr]
    refine ⟨_, { d with data := some r }, rfl, rfl, rfl, rfl, deref_store_same _ hd, rfl, ?_, ?_,
      fun q hq => deref_store_ne s _ hq⟩
    · simp [hraw]
    · simp [store]

/-- State right after the backend call inside `loadImageWithLoader`. -/
theorem loadImageWithLoader_fail (E : Env) (s : St) (fd : Int) (p : Addr) (l : ImageLoader)
    (h : (E.img_open l s.sys fd p).1 ≠ 0) :
    loadImageWithLoader E s fd p l = .ok ((E.img_open l s.sys fd p).1,
      { sys := (E.img_open l s.sys fd p).2,
        trace := s.trace ++ [.img_open l fd p (E.img_open l s.sys fd p).1] }) := by
  unfold loadImageWithLoader
  simp [h]

theorem loadImageWithLoader_success (E : Env) (s : St) (fd : Int) (p : Addr) (l : ImageLoader)
    (h : (E.img_open l s.sys fd p).1 = 0) {d : ImageData}
    (hd : (E.img_open l s.sys fd p).2.heap.getD p none = some d) (hf : flipFits E d) :
    ∃ s1 d1, loadImageWithLoader E s fd p l = .ok (0, s1) ∧
      s1.trace = s.trace ++ [.img_open l fd p 0] ∧
      s1.sys.context = (E.img_open l s.sys fd p).2.context ∧
      s1.sys.world = (E.img_open l s.sys fd p).2.world ∧
      s1.sys.heap.length = (E.img_open l s.sys fd p).2.heap.length ∧
      deref s1 p = some d1 ∧ d1 = { d with loader := some l, data := d1.data } ∧
      d1.data.isSome = d.data.isSome ∧
      ∀ q, q ≠ p → deref s1 q = (E.img_open l s.sys fd p).2.heap.getD q none := by
  unfold loadImageWithLoader
  dsimp only
  generalize hs0 : St.mk (E.img_open l s.sys fd p).2
      (s.trace ++ [Event.img_open l fd p (E.img_open l s.sys fd p).1]) = s0
  have hd0 : deref s0 p = some d := by rw [← hs0]; exact hd
  have ht0 : s0.trace = s.trace ++ [Event.img_open l fd p 0] := by rw [← hs0, h]
  have hy0 : s0.sys = (E.img_open l s.sys fd p).2 := by rw [← hs0]
  simp only [h, if_true, hd0]
  by_cases hflag : hasFlag d.flags E.IMG_DATA_FLIP_RED_BLUE = true
  · have hd1 : deref (store s0 p { d with loader := some l }) p = some { d with loader := some l } :=
      deref_store_same _ hd0
    obtain ⟨s1, d1, h1, ht, hc, hw, hdd, heq, hsome, hlen, hoth⟩ :=
      flipRedBlue_ok hd1 (hf hflag)
    simp only [hflag, if_true, h1]
    refine ⟨s1, d1, rfl, ?_, ?_, ?_, ?_, hdd, ?_, ?_, ?_⟩
    · rw [ht]; simpa using ht0
    · rw [hc, ← hy0]; rfl
    · rw [hw, ← hy0]; rfl
    · rw [hlen, ← hy0]; simp [store]
    · rw [heq]
    · rw [hsome]
    · intro q hq; rw [hoth q hq, deref_store_ne _ _ hq, ← hy0]; rfl
  · simp only [hflag]
    refine ⟨_, { d with loader := some l }, rfl, ?_, ?_, ?_, ?_, deref_store_same _ hd0, rfl, rfl, ?_⟩
    · simpa using ht0
    · rw [← hy0]; rfl
    · rw [← hy0]; rfl
    · rw [← hy0]; simp [store]
    · intro q hq; rw [deref_store_ne _ _ hq, ← hy0]; rfl

@[simp] theorem opens_append (t u : List Event) : opens (t ++ u) = opens t ++ opens u := by
  simp [opens]

@[simp] theorem opens_img_open (l : ImageLoader) (fd : Int) (p : Addr) (r : Int) :
    opens [Event.img_open l fd p r] = [(l, r)] := rfl
@[simp] theorem opens_lseek (fd : Int) : opens [Event.lseek fd] = [] := rfl
@[simp] theorem opens_close (fd : Int) : opens [Event.close fd] = [] := rfl
@[simp] theorem opens_sys_open (n : String) : opens [Event.sys_open n] = [] := rfl
@[simp] theorem opens_fstat (fd : Int) : opens [Event.fstat fd] = [] := rfl
@[simp] theorem opens_free (p : Addr) : opens [Event.free p] = [] := rfl
@[simp] theorem opens_img_close (l : ImageLoader) (p : Addr) : opens [Event.img_close l p] = [] := rfl

/-- The state in which the scan continues after a failed attempt of `l`. -/
theorem _loadImage_loop_skip (E : Env) (fd : Int) (p : Addr) (multi : Bool) (l : ImageLoader)
    (rest : List ImageLoader) (s : St) (h : skipped multi fd l = true) :
    _loadImage_loop E fd p multi (l :: rest) s = _loadImage_loop E fd p multi rest s := by
  rw [_loadImage_loop]
  simp only [skipped, Bool.or_eq_true, Bool.and_eq_true, decide_eq_true_eq,
    Bool.not_eq_true'] at h
  rcases h with h | h
  · simp [h.1, h.2]
  · by_cases hm : (multi && hasFlag l.flags MULTI_LOADER) = true
    · simp [hm]
    · simp [hm, h.1, h.2]

theorem _loadImage_loop_try (E : Env) (fd : Int) (p : Addr) (multi : Bool) (l : ImageLoader)
    (rest : List ImageLoader) (s : St) (h : skipped multi fd l = false) :
    _loadImage_loop E fd p multi (l :: rest) s =
      match loadImageWithLoader E s fd p l with
      | .error e => .error e
      | .ok (ret, s1) =>
        if ret = 0 then .ok (some p, s1)
        else
          _loadImage_loop E fd p multi rest
            (if hasFlag l.flags NO_SEEK = false then
              (s1.setWorld (E.sys_lseek s1.sys.world fd)).log (.lseek fd)
            else s1) := by
  rw [_loadImage_loop]
  simp only [skipped, Bool.or_eq_false_iff, Bool.and_eq_false_iff] at h
  have h1 : (multi && hasFlag l.flags MULTI_LOADER) = false := by
    rcases h.1 with h1 | h1 <;> simp [h1]
  have h2 : ¬ (fd = -1 ∧ hasFlag l.flags NO_FD = false) := by
    rcases h.2 with h2 | h2
    · simp at h2; simp [h2]
    · simp at h2; simp [h2]
  simp only [h1, h2, if_false, Bool.false_eq_true]
  try rfl


/-- The scan over a prefix of the table whose attempted backends all fail
continues with the rest of the table, having attempted exactly the backends of
the prefix that the filters let through. -/
theorem _loadImage_loop_prefix (E : Env) (fd : Int) (p : Addr) (multi : Bool) :
    ∀ (pre : List ImageLoader) (s : St), (deref s p).isSome = true →
      (∀ l ∈ pre, skipped multi fd l = false → ∀ sys, (E.img_open l sys fd p).1 ≠ 0) →
      (∀ l ∈ pre, openKeeps E l fd p) →
      ∃ s2 new, (∀ rest, _loadImage_loop E fd p multi (pre ++ rest) s =
            _loadImage_loop E fd p multi rest s2) ∧
        (deref s2 p).isSome = true ∧
        opens s2.trace = opens s.trace ++ new ∧
        new.map Prod.fst = pre.filter (fun l => !skipped multi fd l) ∧
        ∀ e ∈ new, e.2 ≠ 0 := by
  intro pre
  induction pre with
  | nil =>
    intro s hs _ _
    exact ⟨s, [], fun _ => rfl, hs, by simp, rfl, by simp⟩
  | cons l pre ih =>
    intro s hs hfail hkeep
    have hfail1 : ∀ l1 ∈ pre, skipped multi fd l1 = false → ∀ sys, (E.img_open l1 sys fd p).1 ≠ 0 :=
      fun l1 h1 => hfail l1 (List.mem_cons_of_mem _ h1)
    have hkeep1 : ∀ l1 ∈ pre, openKeeps E l1 fd p := fun l1 h1 => hkeep l1 (List.mem_cons_of_mem _ h1)
    by_cases hsk : skipped multi fd l = true
    · obtain ⟨s2, new, hrun, halloc, hop, hmap, hne⟩ := ih s hs hfail1 hkeep1
      refine ⟨s2, new, ?_, halloc, hop, ?_, hne⟩
      · intro rest
        rw [List.cons_append, _loadImage_loop_skip E fd p multi l _ s hsk]
        exact hrun rest
      · rw [hmap]; simp [List.filter_cons, hsk]
    · have hsk : skipped multi fd l = false := by simpa using hsk
      have hret := hfail l (List.mem_cons_self _ _) hsk s.sys
      obtain ⟨d, hd, _⟩ := hkeep l (List.mem_cons_self _ _) s.sys hs
      have hstep := loadImageWithLoader_fail E s fd p l hret
      generalize hs1 : St.mk (E.img_open l s.sys fd p).2
        (s.trace ++ [Event.img_open l fd p (E.img_open l s.sys fd p).1]) = s1 at hstep
      have hd1 : deref s1 p = some d := by rw [← hs1]; exact hd
      have ht1 : s1.trace = s.trace ++ [Event.img_open l fd p (E.img_open l s.sys fd p).1] := by
        rw [← hs1]
      generalize hs1b : (if hasFlag l.flags NO_SEEK = false then
              (s1.setWorld (E.sys_lseek s1.sys.world fd)).log (.lseek fd)
            else s1) = s1b
      have hd1b : (deref s1b p).isSome = true := by
        rw [← hs1b]; split
        · show (deref s1 p).isSome = true
          rw [hd1]; rfl
        · rw [hd1]; rfl
      have ht1b : opens s1b.trace = opens s.trace ++ [(l, (E.img_open l s.sys fd p).1)] := by
        rw [← hs1b]; split
        · show opens (s1.trace ++ [Event.lseek fd]) = _
          rw [ht1]; simp [opens]
        · rw [ht1]; simp [opens]
      obtain ⟨s2, new, hrun, halloc, hop, hmap, hne⟩ := ih s1b hd1b hfail1 hkeep1
      refine ⟨s2, (l, (E.img_open l s.sys fd p).1) :: new, ?_, halloc, ?_, ?_, ?_⟩
      · intro rest
        rw [List.cons_append, _loadImage_loop_try E fd p multi l _ s hsk, hstep]
        simp only [hret, if_false, hs1b]
        exact hrun rest
      · rw [hop, ht1b]; simp
      · simp [hmap, List.filter_cons, hsk]
      · intro e he
        rcases List.mem_cons.mp he with rfl | he
        · exact hret
        · exact hne e he


theorem getFD_ok (E : Env) {s : St} {p : Addr} {d : ImageData} (hd : deref s p = some d) :
    ∃ fd s1, getFD E s p = .ok (fd, s1) ∧ s1.sys.heap = s.sys.heap ∧
      s1.sys.context = s.sys.context ∧ opens s1.trace = opens s.trace ∧
      closes s1.trace = closes s.trace := by
  unfold getFD
  simp only [hd]
  by_cases h : d.fd = -1
  · simp only [h, if_true]
    exact ⟨_, _, rfl, rfl, rfl, by simp [St.log, St.setWorld, opens], by simp [St.log, St.setWorld, closes]⟩
  · simp only [h, if_false]
    exact ⟨_, _, rfl, rfl, rfl, rfl, rfl⟩

theorem getFD_inv (E : Env) {s s1 : St} {p : Addr} {fd : Int} (h : getFD E s p = .ok (fd, s1)) :
    s1.sys.heap = s.sys.heap ∧ s1.sys.context = s.sys.context ∧ opens s1.trace = opens s.trace ∧
      closes s1.trace = closes s.trace ∧ ∃ d, deref s p = some d := by
  unfold getFD at h
  cases hd : deref s p with
  | none => simp [hd] at h
  | some d =>
    simp only [hd] at h
    by_cases h1 : d.fd = -1
    · simp only [h1, if_true, Except.ok.injEq, Prod.mk.injEq] at h
      obtain ⟨_, rfl⟩ := h
      exact ⟨rfl, rfl, by simp [St.log, St.setWorld, opens], by simp [St.log, St.setWorld, closes], d, rfl⟩
    · simp only [h1, if_false, Except.ok.injEq, Prod.mk.injEq] at h
      obtain ⟨_, rfl⟩ := h
      exact ⟨rfl, rfl, rfl, rfl, d, rfl⟩

/-- C2: when the registry is `pre ++ B2 :: post`, `B1` is in `pre`, the filters
skip neither `B1` nor `B2`, every backend of `pre` that is not skipped fails and
`B2` succeeds, `_loadImage` returns the entry; the opens it adds to the trace
are those of the non-skipped backends of `pre` in registry order (each
returning non-zero, `B1` among them) followed by the open of `B2` returning 0
and nothing after it, and the entry's `loader` is `B2`. -/
theorem loadImage_fallback_order (E : Env) (s : St) (p : Addr) (multi : Bool)
    (pre post : List ImageLoader) (B1 B2 : ImageLoader) (fd : Int) (s1 : St)
    (hreg : E.img_loaders = pre ++ B2 :: post) (hB1 : B1 ∈ pre)
    (hfd : getFD E s p = .ok (fd, s1))
    (hs1 : skipped multi fd B1 = false) (hs2 : skipped multi fd B2 = false)
    (hfail : ∀ l ∈ pre, skipped multi fd l = false → ∀ sys, (E.img_open l sys fd p).1 ≠ 0)
    (hok : ∀ sys, (E.img_open B2 sys fd p).1 = 0)
    (hkeep : ∀ l ∈ pre ++ [B2], openKeeps E l fd p) :
    ∃ s2 new, _loadImage E s p multi = .ok (some p, s2) ∧
      opens s2.trace = opens s.trace ++ new ++ [(B2, 0)] ∧
      new.map Prod.fst = pre.filter (fun l => !skipped multi fd l) ∧
      (∀ e ∈ new, e.2 ≠ 0) ∧ B1 ∈ new.map Prod.fst ∧
      (deref s2 p).bind (fun d => d.loader) = some B2 := by
  obtain ⟨hheap, _, hop1, _, d, hd⟩ := getFD_inv E hfd
  have hd1 : (deref s1 p).isSome = true := by
    have : deref s1 p = deref s p := by simp [deref, hheap]
    rw [this, hd]; rfl
  obtain ⟨s2, new, hrun, halloc, hop, hmap, hne⟩ :=
    _loadImage_loop_prefix E fd p multi pre s1 hd1 hfail
      (fun l hl => hkeep l (List.mem_append_left _ hl))
  obtain ⟨d2, hd2, hfit⟩ := hkeep B2 (by simp) s2.sys halloc
  obtain ⟨s3, d3, hload, ht3, _, _, _, hd3, heq3, _, _⟩ :=
    loadImageWithLoader_success E s2 fd p B2 (hok _) hd2 (hfit (hok _))
  refine ⟨s3, new, ?_, ?_, hmap, hne, ?_, ?_⟩
  · unfold _loadImage
    simp only [hfd, hreg, hrun, _loadImage_loop_try E fd p multi B2 post s2 hs2, hload, if_true]
  · rw [ht3, opens_append, hop, hop1]; simp
  · rw [hmap]; simp [List.mem_filter, hB1, hs1]
  · rw [hd3, heq3]; rfl

theorem fixed_open_keeps (l : ImageLoader) (fd : Int) (p : Addr) : openKeeps fixedEnv l fd p := by
  intro sys hs
  show ∃ d, (fixed_open l sys fd p).2.heap.getD p none = some d ∧
      ((fixed_open l sys fd p).1 = 0 → flipFits fixedEnv d)
  unfold fixed_open
  cases hd : sys.heap.getD p none with
  | none => rw [hd] at hs; exact absurd hs (by decide)
  | some d =>
    have hl : p < sys.heap.length := by
      by_contra hc
      rw [List.getD_eq_getElem?_getD, List.getElem?_eq_none (not_lt.mp hc)] at hd
      exact absurd hd (by simp)
    by_cases hn : l.name = "stb_image"
    · simp only [hn, if_true]
      refine ⟨{ d with data := some [1, 2, 3, 4], image_width := 1, image_height := 1 },
        by simp [List.getD_eq_getElem?_getD, hl], ?_⟩
      intro _ _ _
      exact ⟨(show (1 * 1 * 4) % 2 ^ 32 < 2 ^ 31 by decide), [1, 2, 3, 4], rfl,
        (show (1 * 1 * 4) % 2 ^ 32 ≤ 4 by decide)⟩
    · simp only [hn, if_false]
      exact ⟨d, hd, fun h => absurd h (by decide)⟩

/-- Witness of C2: the registry scan of the full table on a fresh entry, where
`dir` and `spng` fail and `stb_image` succeeds. -/
theorem loadImage_fallback_order_witness :
    ∃ s2 new, _loadImage fixedEnv oneEntry 0 false = .ok (some 0, s2) ∧
      opens s2.trace = opens oneEntry.trace ++ new ++ [(CREATE_LOADER "stb_image", 0)] ∧
      new.map Prod.fst = [CREATE_PARENT_LOADER "dir" (MULTI_LOADER ||| NO_SEEK), CREATE_LOADER "spng"].filter
        (fun l => !skipped false 3 l) ∧
      (∀ e ∈ new, e.2 ≠ 0) ∧ CREATE_LOADER "spng" ∈ new.map Prod.fst ∧
      (deref s2 0).bind (fun d => d.loader) = some (CREATE_LOADER "stb_image") :=
  loadImage_fallback_order fixedEnv oneEntry 0 false
    [CREATE_PARENT_LOADER "dir" (MULTI_LOADER ||| NO_SEEK), CREATE_LOADER "spng"]
    [CREATE_PARENT_LOADER "zip" MULTI_LOADER, CREATE_LOADER "imlib2",
      CREATE_PARENT_LOADER "curl" (MULTI_LOADER ||| NO_FD ||| NO_SEEK)]
    (CREATE_LOADER "spng") (CREATE_LOADER "stb_image") 3
    ((oneEntry.setWorld 0).log (.sys_open "x.jpg"))
    rfl (by simp) rfl (by decide) (by decide)
    (by
      intro l hl _ sys
      simp only [List.mem_cons, List.mem_singleton, List.not_mem_nil, or_false] at hl
      rcases hl with rfl | rfl <;> exact (by decide : (-1 : Int) ≠ 0))
    (fun sys => by
      show (fixed_open (CREATE_LOADER "stb_image") sys 3 0).1 = 0
      unfold fixed_open
      cases sys.heap.getD 0 none <;> rfl)
    (fun l _ => fixed_open_keeps l 3 0)

theorem _loadImage_loop_spec (E : Env) (fd : Int) (p : Addr) (multi : Bool) :
    ∀ (tbl : List ImageLoader) (s : St), (deref s p).isSome = true →
      (∀ l ∈ tbl, openKeeps E l fd p) →
      ∃ r s2 done rest new, _loadImage_loop E fd p multi tbl s = .ok (r, s2) ∧
        tbl = done ++ rest ∧
        opens s2.trace = opens s.trace ++ new ∧
        new.map Prod.fst = done.filter (fun l => !skipped multi fd l) ∧
        (r = none → rest = [] ∧ ∀ e ∈ new, e.2 ≠ 0) ∧
        (r ≠ none → r = some p ∧ ∃ init pre l, new = init ++ [(l, 0)] ∧
          (∀ e ∈ init, e.2 ≠ 0) ∧ done = pre ++ [l]) := by
  intro tbl
  induction tbl with
  | nil =>
    intro s _ _
    exact ⟨none, s, [], [], [], rfl, rfl, by simp, rfl, fun _ => ⟨rfl, by simp⟩,
      fun h => absurd rfl h⟩
  | cons l tbl ih =>
    intro s hs hkeep
    have hkeep1 : ∀ l1 ∈ tbl, openKeeps E l1 fd p := fun l1 h1 => hkeep l1 (List.mem_cons_of_mem _ h1)
    by_cases hsk : skipped multi fd l = true
    · obtain ⟨r, s2, done, rest, new, hrun, htbl, hop, hmap, hnone, hsome⟩ := ih s hs hkeep1
      refine ⟨r, s2, l :: done, rest, new, ?_, by rw [htbl]; rfl, hop, ?_, hnone, ?_⟩
      · rw [_loadImage_loop_skip E fd p multi l _ s hsk]; exact hrun
      · rw [hmap]; simp [List.filter_cons, hsk]
      · intro hr
        obtain ⟨hrp, init, pre, l0, hnew, hinit, hdone⟩ := hsome hr
        exact ⟨hrp, init, l :: pre, l0, hnew, hinit, by rw [hdone]; rfl⟩
    · have hsk : skipped multi fd l = false := by simpa using hsk
      obtain ⟨d, hd, hfit⟩ := hkeep l (List.mem_cons_self _ _) s.sys hs
      by_cases hret : (E.img_open l s.sys fd p).1 = 0
      · obtain ⟨s3, d3, hload, ht3, _, _, _, _, _, _, _⟩ :=
          loadImageWithLoader_success E s fd p l hret hd (hfit hret)
        refine ⟨some p, s3, [l], tbl, [(l, 0)], ?_, rfl, ?_, ?_, fun h => absurd h (by simp), ?_⟩
        · rw [_loadImage_loop_try E fd p multi l _ s hsk, hload]; simp
        · rw [ht3]; simp [opens]
        · simp [List.filter_cons, hsk]
        · intro _
          exact ⟨rfl, [], [], l, rfl, by simp, rfl⟩
      · have hstep := loadImageWithLoader_fail E s fd p l hret
        generalize hs1 : St.mk (E.img_open l s.sys fd p).2
          (s.trace ++ [Event.img_open l fd p (E.img_open l s.sys fd p).1]) = s1 at hstep
        have hd1 : deref s1 p = some d := by rw [← hs1]; exact hd
        have ht1 : s1.trace = s.trace ++ [Event.img_open l fd p (E.img_open l s.sys fd p).1] := by
          rw [← hs1]
        generalize hs1b : (if hasFlag l.flags NO_SEEK = false then
                (s1.setWorld (E.sys_lseek s1.sys.world fd)).log (.lseek fd)
              else s1) = s1b
        have hd1b : (deref s1b p).isSome = true := by
          rw [← hs1b]; split
          · show (deref s1 p).isSome = true
            rw [hd1]; rfl
          · rw [hd1]; rfl
        have ht1b : opens s1b.trace = opens s.trace ++ [(l, (E.img_open l s.sys fd p).1)] := by
          rw [← hs1b]; split
          · show opens (s1.trace ++ [Event.lseek fd]) = _
            rw [ht1]; simp [opens]
          · rw [ht1]; simp [opens]
        obtain ⟨r, s2, done, rest, new, hrun, htbl, hop, hmap, hnone, hsome⟩ :=
          ih s1b hd1b hkeep1
        refine ⟨r, s2, l :: done, rest, (l, (E.img_open l s.sys fd p).1) :: new, ?_,
          by rw [htbl]; rfl, ?_, ?_, ?_, ?_⟩
        · rw [_loadImage_loop_try E fd p multi l _ s hsk, hstep]
          simp only [hret, if_false, hs1b]
          exact hrun
        · rw [hop, ht1b]; simp
        · simp [hmap, List.filter_cons, hsk]
        · intro hr
          obtain ⟨h1, h2⟩ := hnone hr
          refine ⟨h1, ?_⟩
          intro e he
          rcases List.mem_cons.mp he with rfl | he
          · exact hret
          · exact h2 e he
        · intro hr
          obtain ⟨hrp, init, pre, l0, hnew, hinit, hdone⟩ := hsome hr
          refine ⟨hrp, (l, (E.img_open l s.sys fd p).1) :: init, l :: pre, l0, by rw [hnew]; rfl,
            ?_, by rw [hdone]; rfl⟩
          intro e he
          rcases List.mem_cons.mp he with rfl | he
          · exact hret
          · exact hinit e he

/-- C3: `_loadImage` returns, and the opens it adds to the trace are exactly
the backends of a prefix `done` of the registry that pass both filters, in
order: none of them has `MULTI` while the restriction is on, none lacks
`NO_FD` while the descriptor is `-1`.  The prefix is the whole registry when no
backend succeeds, and otherwise ends at the first backend that returns 0, all
earlier attempts having returned non-zero. -/
theorem loadImage_filters (E : Env) (s : St) (p : Addr) (multi : Bool) (d : ImageData)
    (hd : deref s p = some d) (hkeep : ∀ l ∈ E.img_loaders, ∀ fd, openKeeps E l fd p) :
    ∃ fd s1 r s2 done rest new, getFD E s p = .ok (fd, s1) ∧
      _loadImage E s p multi = .ok (r, s2) ∧
      E.img_loaders = done ++ rest ∧
      opens s2.trace = opens s.trace ++ new ∧
      new.map Prod.fst = done.filter (fun l => !skipped multi fd l) ∧
      (∀ e ∈ new, ¬ (multi = true ∧ hasFlag e.1.flags MULTI_LOADER = true) ∧
        ¬ (fd = -1 ∧ hasFlag e.1.flags NO_FD = false)) ∧
      (r = none → rest = [] ∧ ∀ e ∈ new, e.2 ≠ 0) ∧
      (r ≠ none → r = some p ∧ ∃ init pre l, new = init ++ [(l, 0)] ∧
        (∀ e ∈ init, e.2 ≠ 0) ∧ done = pre ++ [l]) := by
  obtain ⟨fd, s1, hfd, hheap, _, hop1, _⟩ := getFD_ok E hd
  have hd1 : (deref s1 p).isSome = true := by
    have : deref s1 p = deref s p := by simp [deref, hheap]
    rw [this, hd]; rfl
  obtain ⟨r, s2, done, rest, new, hrun, htbl, hop, hmap, hnone, hsome⟩ :=
    _loadImage_loop_spec E fd p multi E.img_loaders s1 hd1 (fun l hl => hkeep l hl fd)
  have hfilt : ∀ e ∈ new, ¬ (multi = true ∧ hasFlag e.1.flags MULTI_LOADER = true) ∧
      ¬ (fd = -1 ∧ hasFlag e.1.flags NO_FD = false) := by
    intro e he
    have hmem : e.1 ∈ new.map Prod.fst := List.mem_map_of_mem _ he
    rw [hmap, List.mem_filter] at hmem
    have hsk : skipped multi fd e.1 = false := by simpa using hmem.2
    simp only [skipped, Bool.or_eq_false_iff, Bool.and_eq_false_iff] at hsk
    constructor
    · rintro ⟨h1, h2⟩
      rcases hsk.1 with h | h
      · rw [h1] at h; exact absurd h (by decide)
      · rw [h2] at h; exact absurd h (by decide)
    · rintro ⟨h1, h2⟩
      rcases hsk.2 with h | h
      · simp [h1] at h
      · simp [h2] at h
  cases r with
  | none =>
    by_cases h : fd = -1
    · refine ⟨fd, s1, none, s2, done, rest, new, hfd, ?_, htbl, ?_, hmap, hfilt, hnone, hsome⟩
      · unfold _loadImage
        simp only [hfd, hrun]
        simp [h]
      · rw [hop, hop1]
    · refine ⟨fd, s1, none, (s2.setWorld (E.sys_close s2.sys.world fd)).log (.close fd), done,
        rest, new, hfd, ?_, htbl, ?_, hmap, hfilt, hnone, hsome⟩
      · unfold _loadImage
        simp only [hfd, hrun]
        simp [h]
      · show opens (s2.trace ++ [Event.close fd]) = _
        rw [opens_append, hop, hop1]; simp
  | some q =>
    refine ⟨fd, s1, some q, s2, done, rest, new, hfd, ?_, htbl, ?_, hmap, hfilt, hnone, hsome⟩
    · unfold _loadImage
      simp only [hfd, hrun]
    · rw [hop, hop1]

/-- Witness of C3: the restricted scan of the full table on a fresh entry. -/
theorem loadImage_filters_witness :
    ∃ fd s1 r s2 done rest new, getFD fixedEnv oneEntry 0 = .ok (fd, s1) ∧
      _loadImage fixedEnv oneEntry 0 true = .ok (r, s2) ∧
      fixedEnv.img_loaders = done ++ rest ∧
      opens s2.trace = opens oneEntry.trace ++ new ∧
      new.map Prod.fst = done.filter (fun l => !skipped true fd l) ∧
      (∀ e ∈ new, ¬ (true = true ∧ hasFlag e.1.flags MULTI_LOADER = true) ∧
        ¬ (fd = -1 ∧ hasFlag e.1.flags NO_FD = false)) ∧
      (r = none → rest = [] ∧ ∀ e ∈ new, e.2 ≠ 0) ∧
      (r ≠ none → r = some 0 ∧ ∃ init pre l, new = init ++ [(l, 0)] ∧
        (∀ e ∈ init, e.2 ≠ 0) ∧ done = pre ++ [l]) :=
  loadImage_filters fixedEnv oneEntry 0 true _ rfl (fun l _ fd => fixed_open_keeps l fd 0)

/-! ### Reference counting -/

@[simp] theorem closes_append (t u : List Event) : closes (t ++ u) = closes t ++ closes u := by
  simp [closes]

theorem flipRedBlue_trace {s s1 : St} {p : Addr} (h : flipRedBlue s p = .ok s1) :
    s1.trace = s.trace := by
  unfold flipRedBlue at h
  split at h
  · exact absurd h (by simp)
  · dsimp only at h
    split at h
    · cases h; rfl
    · split at h
      · exact absurd h (by simp)
      · split at h
        · exact absurd h (by simp)
        · cases h; rfl

theorem loadImageWithLoader_trace {E : Env} {s s1 : St} {fd : Int} {p : Addr} {l : ImageLoader}
    {r : Int} (h : loadImageWithLoader E s fd p l = .ok (r, s1)) :
    s1.trace = s.trace ++ [.img_open l fd p (E.img_open l s.sys fd p).1] := by
  unfold loadImageWithLoader at h
  dsimp only at h
  split at h
  · split at h
    · exact absurd h (by simp)
    · split at h
      · split at h
        · exact absurd h (by simp)
        · rename_i s3 h3
          cases h
          rw [flipRedBlue_trace h3]; rfl
      · cases h; rfl
  · cases h; rfl

theorem _loadImage_loop_closes (E : Env) (fd : Int) (p : Addr) (multi : Bool) :
    ∀ (tbl : List ImageLoader) (s s2 : St) (r : Option Addr),
      _loadImage_loop E fd p multi tbl s = .ok (r, s2) → closes s2.trace = closes s.trace := by
  intro tbl
  induction tbl with
  | nil => intro s s2 r h; cases h; rfl
  | cons l tbl ih =>
    intro s s2 r h
    by_cases hsk : skipped multi fd l = true
    · rw [_loadImage_loop_skip E fd p multi l _ s hsk] at h
      exact ih s s2 r h
    · have hsk : skipped multi fd l = false := by simpa using hsk
      rw [_loadImage_loop_try E fd p multi l _ s hsk] at h
      cases hl : loadImageWithLoader E s fd p l with
      | error e => rw [hl] at h; exact absurd h (by simp)
      | ok v =>
        obtain ⟨ret, s1⟩ := v
        have ht := loadImageWithLoader_trace hl
        rw [hl] at h
        dsimp only at h
        by_cases hret : ret = 0
        · simp only [hret, if_true, Except.ok.injEq, Prod.mk.injEq] at h
          rw [← h.2, ht]; simp [closes]
        · simp only [hret, if_false] at h
          rw [ih _ s2 r h]
          split
          · show closes (s1.trace ++ [Event.lseek fd]) = _
            rw [ht]; simp [closes]
          · rw [ht]; simp [closes]

theorem _loadImage_closes {E : Env} {s s2 : St} {p : Addr} {multi : Bool} {r : Option Addr}
    (h : _loadImage E s p multi = .ok (r, s2)) : closes s2.trace = closes s.trace := by
  unfold _loadImage at h
  cases hfd : getFD E s p with
  | error e => rw [hfd] at h; exact absurd h (by simp)
  | ok v =>
    obtain ⟨fd, s1⟩ := v
    obtain ⟨_, _, _, hc1, _⟩ := getFD_inv E hfd
    rw [hfd] at h
    dsimp only at h
    cases hl : _loadImage_loop E fd p multi E.img_loaders s1 with
    | error e => rw [hl] at h; exact absurd h (by simp)
    | ok w =>
      obtain ⟨r1, s3⟩ := w
      have hc3 := _loadImage_loop_closes E fd p multi _ _ _ _ hl
      rw [hl] at h
      cases r1 with
      | some q =>
        simp only [Except.ok.injEq, Prod.mk.injEq] at h
        rw [← h.2, hc3, hc1]
      | none =>
        dsimp only at h
        split at h
        · simp only [Except.ok.injEq, Prod.mk.injEq] at h
          rw [← h.2]
          show closes (s3.trace ++ [Event.close fd]) = _
          rw [closes_append, hc3, hc1]; simp [closes]
        · simp only [Except.ok.injEq, Prod.mk.injEq] at h
          rw [← h.2, hc3, hc1]

theorem acquire_eq {s : St} {p : Addr} {d : ImageData} (hd : deref s p = some d) :
    acquire s p = .ok (some p, store s p { d with ref_count := d.ref_count + 1 }) := by
  unfold acquire; simp only [hd]

theorem loadImage_present (E : Env) {s : St} {p : Addr} {d : ImageData} (hd : deref s p = some d)
    (hbuf : d.data.isSome = true) :
    loadImage E s (some p) = .ok (some p, store s p { d with ref_count := d.ref_count + 1 }) := by
  unfold loadImage
  simp only [hd, hbuf, if_true, acquire_eq hd]

theorem loadImage_times_present (E : Env) (p : Addr) :
    ∀ (n : Nat) (s : St) (d : ImageData), deref s p = some d → d.data.isSome = true →
      ∃ sN dN, loadImage_times E p n s = .ok sN ∧ sN.trace = s.trace ∧ deref sN p = some dN ∧
        dN = { d with ref_count := d.ref_count + n } := by
  intro n
  induction n with
  | zero =>
    intro s d hd _
    exact ⟨s, d, rfl, rfl, hd, by simp⟩
  | succ n ih =>
    intro s d hd hbuf
    obtain ⟨sN, dN, hrun, ht, hdN, heq⟩ :=
      ih (store s p { d with ref_count := d.ref_count + 1 }) { d with ref_count := d.ref_count + 1 }
        (deref_store_same _ hd) hbuf
    refine ⟨sN, dN, ?_, ?_, hdN, ?_⟩
    · rw [loadImage_times, loadImage_present E hd hbuf]; exact hrun
    · rw [ht]; rfl
    · rw [heq]; simp only [Nat.cast_add, Nat.cast_one]; congr 1; ring

theorem closeImage_keep (E : Env) {s : St} {p : Addr} {d : ImageData} (hd : deref s p = some d)
    (h : d.ref_count ≠ 1) :
    closeImage E s p false = .ok (store s p { d with ref_count := d.ref_count - 1 }) := by
  unfold closeImage
  have h0 : ¬ (d.ref_count - 1 = 0) := by omega
  simp [hd, h0]

theorem closeImage_release (E : Env) {s : St} {p : Addr} {d : ImageData} {B : ImageLoader}
    (hd : deref s p = some d) (h : d.ref_count = 1)
    (hk : hasFlag d.flags E.IMG_DATA_KEEP_OPEN = false) (hB : d.loader = some B)
    (hc : B.has_close = true) (hcon : closeKeeps E B p) :
    ∃ s1 d1, closeImage E s p false = .ok s1 ∧ s1.trace = s.trace ++ [.img_close B p] ∧
      deref s1 p = some d1 ∧ d1.ref_count = 0 ∧ d1.data = none := by
  unfold closeImage
  have h0 : d.ref_count - 1 = 0 := by omega
  simp only [hd, h0, hk, hc, hB, and_self, true_or, if_true]
  have hd' : deref (store s p { d with ref_count := 0, loader := some B }) p
      = some { d with ref_count := 0, loader := some B } := deref_store_same _ hd
  obtain ⟨d2, hd2, hrc2⟩ := hcon _ _ hd'
  generalize hs2 : St.mk (E.img_close B (store s p { d with ref_count := 0, loader := some B }).sys p)
    ((store s p { d with ref_count := 0, loader := some B }).trace ++ [Event.img_close B p]) = s2
  have hd2' : deref s2 p = some d2 := by rw [← hs2]; exact hd2
  have ht2 : s2.trace = s.trace ++ [Event.img_close B p] := by rw [← hs2]; rfl
  simp only [hd2']
  exact ⟨_, _, rfl, by simpa using ht2, deref_store_same _ hd2', hrc2, rfl⟩

theorem closeImage_times_keep (E : Env) (p : Addr) :
    ∀ (k : Nat) (s : St) (d : ImageData), deref s p = some d → (k : Int) < d.ref_count →
      ∃ sk dk, closeImage_times E p k s = .ok sk ∧ sk.trace = s.trace ∧ deref sk p = some dk ∧
        dk = { d with ref_count := d.ref_count - k } := by
  intro k
  induction k with
  | zero =>
    intro s d hd _
    exact ⟨s, d, rfl, rfl, hd, by simp⟩
  | succ k ih =>
    intro s d hd hlt
    have hlt1 : ((k : Int) + 1) < d.ref_count := by exact_mod_cast hlt
    obtain ⟨sk, dk, hrun, ht, hdk, heq⟩ :=
      ih (store s p { d with ref_count := d.ref_count - 1 }) { d with ref_count := d.ref_count - 1 }
        (deref_store_same _ hd) (by show (k : Int) < d.ref_count - 1; omega)
    refine ⟨sk, dk, ?_, ?_, hdk, ?_⟩
    · rw [closeImage_times, closeImage_keep E hd (by omega)]; exact hrun
    · rw [ht]; rfl
    · rw [heq]; simp only [Nat.cast_add, Nat.cast_one]; congr 1; ring

theorem closeImage_times_succ (E : Env) (p : Addr) :
    ∀ (k : Nat) (s : St), closeImage_times E p (k + 1) s =
      match closeImage_times E p k s with
      | .error e => .error e
      | .ok sk => closeImage E sk p false := by
  intro k
  induction k with
  | zero =>
    intro s
    simp only [closeImage_times]
    cases closeImage E s p false <;> rfl
  | succ k ih =>
    intro s
    rw [closeImage_times]
    cases h : closeImage E s p false with
    | error e => simp [closeImage_times, h]
    | ok s1 =>
      dsimp only
      rw [ih s1]
      conv_rhs => rw [closeImage_times, h]

/-- C4: for an entry without buffer on which the dispatch succeeds through a
backend `B` that has a close entry point, leaving a buffer, reference count 0
and `KEEP_OPEN` unset: `N >= 1` calls of `loadImage` all return, only the
first one adds backend opens to the trace; after `k < N` calls of
`closeImage(entry, 0)` the buffer is still present and the count is `N - k`
with no backend close made; after the `N`-th the count is 0, the buffer is
absent and the close of `B` on the entry is the one close added to the trace. -/
theorem loadImage_closeImage_refcount (E : Env) (s s1 : St) (p : Addr) (d d1 : ImageData) (B : ImageLoader) (N : Nat)
    (hN : 1 ≤ N)
    (hd : deref s p = some d) (hbuf : d.data = none)
    (hdisp : _loadImage E s p false = .ok (some p, s1))
    (hd1 : deref s1 p = some d1) (hrc1 : d1.ref_count = 0) (hbuf1 : d1.data.isSome = true)
    (hkeep : hasFlag d1.flags E.IMG_DATA_KEEP_OPEN = false)
    (hB : d1.loader = some B) (hclose : B.has_close = true) (hcon : closeKeeps E B p) :
    ∃ sN, loadImage_times E p N s = .ok sN ∧ opens sN.trace = opens s1.trace ∧
      closes sN.trace = closes s.trace ∧
      (∀ k, k < N → ∃ sk dk, closeImage_times E p k sN = .ok sk ∧ deref sk p = some dk ∧
        dk.data.isSome = true ∧ dk.ref_count = (N : Int) - k ∧ closes sk.trace = closes s.trace) ∧
      ∃ sf df, closeImage_times E p N sN = .ok sf ∧ deref sf p = some df ∧
        df.ref_count = 0 ∧ df.data = none ∧ closes sf.trace = closes s.trace ++ [(B, p)] := by
  obtain ⟨n, rfl⟩ : ∃ n, N = n + 1 := ⟨N - 1, by omega⟩
  have hc1 : closes s1.trace = closes s.trace := _loadImage_closes hdisp
  have hfirst : loadImage E s (some p)
      = .ok (some p, store s1 p { d1 with ref_count := d1.ref_count + 1 }) := by
    unfold loadImage
    simp only [hd, hbuf, hdisp, acquire_eq hd1]
    rfl
  obtain ⟨sN, dN, hrunN, htN, hdN, heqN⟩ :=
    loadImage_times_present E p n (store s1 p { d1 with ref_count := d1.ref_count + 1 })
      { d1 with ref_count := d1.ref_count + 1 } (deref_store_same _ hd1) hbuf1
  have htN' : sN.trace = s1.trace := by rw [htN]; rfl
  have hrcN : dN.ref_count = (n : Int) + 1 := by rw [heqN]; show d1.ref_count + 1 + n = _; omega
  have hdataN : dN.data = d1.data := by rw [heqN]
  have hflagsN : dN.flags = d1.flags := by rw [heqN]
  have hloaderN : dN.loader = d1.loader := by rw [heqN]
  have hkeepk : ∀ k, k < n + 1 → ∃ sk dk, closeImage_times E p k sN = .ok sk ∧
      sk.trace = sN.trace ∧ deref sk p = some dk ∧ dk = { dN with ref_count := dN.ref_count - k } :=
    fun k hk => closeImage_times_keep E p k sN dN hdN (by rw [hrcN]; exact_mod_cast hk)
  refine ⟨sN, ?_, by rw [htN'], by rw [htN', hc1], ?_, ?_⟩
  · rw [loadImage_times, hfirst]; exact hrunN
  · intro k hk
    obtain ⟨sk, dk, hrun, ht, hdk, heq⟩ := hkeepk k hk
    refine ⟨sk, dk, hrun, hdk, ?_, ?_, by rw [ht, htN', hc1]⟩
    · rw [heq]; show dN.data.isSome = true; rw [hdataN]; exact hbuf1
    · rw [heq]; show dN.ref_count - k = _; rw [hrcN]; push_cast; ring
  · obtain ⟨sk, dk, hrun, ht, hdk, heq⟩ := hkeepk n (by omega)
    have hrck : dk.ref_count = 1 := by rw [heq]; show dN.ref_count - n = 1; rw [hrcN]; ring
    have hfk : hasFlag dk.flags E.IMG_DATA_KEEP_OPEN = false := by
      rw [heq]; show hasFlag dN.flags _ = false; rw [hflagsN]; exact hkeep
    have hlk : dk.loader = some B := by rw [heq]; show dN.loader = _; rw [hloaderN]; exact hB
    obtain ⟨sf, df, hrel, htf, hdf, hrcf, hdataf⟩ :=
      closeImage_release E hdk hrck hfk hlk hclose hcon
    refine ⟨sf, df, ?_, hdf, hrcf, hdataf, ?_⟩
    · rw [closeImage_times_succ, hrun]; exact hrel
    · rw [htf, closes_append, ht, htN', hc1]; rfl

theorem demo_close_keeps (l : ImageLoader) (p : Addr) : closeKeeps demoEnv l p := by
  intro sys d hd
  have hl : p < sys.heap.length := by
    by_contra hc
    rw [List.getD_eq_getElem?_getD, List.getElem?_eq_none (not_lt.mp hc)] at hd
    exact absurd hd (by simp)
  show ∃ d1, (demo_close l sys p).heap.getD p none = some d1 ∧ d1.ref_count = d.ref_count
  unfold demo_close
  simp only [hd]
  exact ⟨{ d with data := none }, by simp [List.getD_eq_getElem?_getD, hl], rfl⟩

/-- Witness of C4: three acquisitions and three releases of the entry `spng`. -/
theorem loadImage_closeImage_refcount_witness :
    ∃ sN, loadImage_times demoEnv 0 3 spngEntry = .ok sN ∧
      opens sN.trace = opens spngDispatched.trace ∧
      closes sN.trace = closes spngEntry.trace ∧
      (∀ k, k < 3 → ∃ sk dk, closeImage_times demoEnv 0 k sN = .ok sk ∧ deref sk 0 = some dk ∧
        dk.data.isSome = true ∧ dk.ref_count = ((3 : Nat) : Int) - k ∧
        closes sk.trace = closes spngEntry.trace) ∧
      ∃ sf df, closeImage_times demoEnv 0 3 sN = .ok sf ∧ deref sf 0 = some df ∧
        df.ref_count = 0 ∧ df.data = none ∧
        closes sf.trace = closes spngEntry.trace ++ [(CREATE_LOADER "spng", 0)] :=
  loadImage_closeImage_refcount demoEnv spngEntry spngDispatched 0 _ _ (CREATE_LOADER "spng") 3 (by decide)
    (rfl : deref spngEntry 0 = some { zeroImageData with fd := -1, name := "spng" }) rfl rfl
    (rfl : deref spngDispatched 0 = some spngDecoded)
    rfl rfl rfl rfl rfl (demo_close_keeps _ 0)

/-! ### The buffer / reference-count invariant -/

theorem getD_lt {h : List (Option ImageData)} {p : Nat} {d : ImageData}
    (hd : h.getD p none = some d) : p < h.length := by
  by_contra hc
  rw [List.getD_eq_getElem?_getD, List.getElem?_eq_none (not_lt.mp hc)] at hd
  exact absurd hd (by simp)

theorem getD_set_same {h : List (Option ImageData)} {p : Nat} (x : Option ImageData)
    (hl : p < h.length) : (h.set p x).getD p none = x := by
  cases x <;> simp [List.getD_eq_getElem?_getD, hl]

theorem getD_set_ne (h : List (Option ImageData)) {p q : Nat} (x : Option ImageData)
    (hq : q ≠ p) : (h.set p x).getD q none = h.getD q none := by
  simp [List.getD_eq_getElem?_getD, List.getElem?_set_ne (Ne.symm hq)]

theorem Frame.refl (E : Env) (p : Addr) (h : List (Option ImageData)) (f : Nat) :
    Frame E p h f h f := by
  refine ⟨le_refl _, rfl, fun _ _ _ => rfl, ?_⟩
  intro q d1 _ hq hd
  exact absurd (getD_lt hd) (by omega)

theorem Frame.trans {E : Env} {p : Addr} {h h1 h2 : List (Option ImageData)} {f f1 f2 : Nat}
    (a : Frame E p h f h1 f1) (b : Frame E p h1 f1 h2 f2) : Frame E p h f h2 f2 := by
  obtain ⟨a1, a2, a3, a4⟩ := a
  obtain ⟨b1, b2, b3, b4⟩ := b
  refine ⟨le_trans a1 b1, by rw [b2, a2], ?_, ?_⟩
  · intro q hq hl
    rw [b3 q hq (by omega), a3 q hq hl]
  · intro q d1 hq hl hd
    by_cases hlt : q < h1.length
    · rw [b3 q hq hlt] at hd
      exact a4 q d1 hq hl hd
    · exact b4 q d1 hq (by omega) hd

/-- A frame around `p` that changes entry `p` by `List.set`. -/
theorem Frame.set (E : Env) (p : Addr) (h : List (Option ImageData)) (f : Nat)
    (x : Option ImageData) : Frame E p h f (h.set p x) f := by
  refine ⟨by simp, rfl, fun q hq _ => getD_set_ne h x hq, ?_⟩
  intro q d1 hq hl hd
  rw [getD_set_ne h x hq] at hd
  exact absurd (getD_lt hd) (by omega)

theorem heapOk_of_frame {E : Env} {p : Addr} {h h1 : List (Option ImageData)} {f f1 : Nat}
    (hok : ∀ q d, h.getD q none = some d → entryOk E d) (fr : Frame E p h f h1 f1)
    (hp : ∀ d, h1.getD p none = some d → entryOk E d) :
    ∀ q d, h1.getD q none = some d → entryOk E d := by
  intro q d hd
  by_cases hq : q = p
  · subst hq; exact hp d hd
  · by_cases hl : q < h.length
    · rw [fr.2.2.1 q hq hl] at hd; exact hok q d hd
    · exact fr.2.2.2 q d hq (by omega) hd

theorem held_of_frame {E : Env} {p c : Addr} {s s1 : St}
    (hc : held E s c) (fr : Frame E p s.sys.heap s.sys.context.flags s1.sys.heap
      s1.sys.context.flags) (hne : c ≠ p) : held E s1 c := by
  obtain ⟨d, hd, hrc⟩ := hc
  refine ⟨d, ?_, hrc⟩
  show s1.sys.heap.getD c none = some d
  rw [fr.2.2.1 c hne (getD_lt hd)]; exact hd

theorem flipRedBlue_inv {s s1 : St} {p : Addr} (h : flipRedBlue s p = .ok s1) :
    ∃ d, deref s p = some d ∧ s1.sys.context = s.sys.context ∧ s1.sys.world = s.sys.world ∧
      ∃ x, s1.sys.heap = s.sys.heap.set p (some { d with data := x }) ∧
        x.isSome = d.data.isSome := by
  unfold flipRedBlue at h
  split at h
  · exact absurd h (by simp)
  · rename_i d hd
    refine ⟨d, hd, ?_⟩
    dsimp only at h
    split at h
    · cases h
      refine ⟨rfl, rfl, d.data, ?_, rfl⟩
      have hl := deref_lt hd
      apply List.ext_getElem? 
      intro i
      by_cases hi : i = p
      · subst hi
        have : s.sys.heap[i]? = some (some d) := by
          have := hd; unfold deref at this
          rw [List.getD_eq_getElem?_getD] at this
          rw [List.getElem?_eq_getElem hl] at this ⊢
          simpa using this
        simp [hl, this]
      · rw [List.getElem?_set_ne (Ne.symm hi)]
    · split at h
      · exact absurd h (by simp)
      · rename_i raw hraw
        split at h
        · exact absurd h (by simp)
        · cases h
          exact ⟨rfl, rfl, _, rfl, by simp [hraw]⟩

theorem loadImageWithLoader_inv (E : Env) {l : ImageLoader} (hc : OpenContract E l)
    {s s1 : St} {fd : Int} {p : Addr} {r : Int} {d : ImageData}
    (hd : deref s p = some d) (hnb : d.data = none)
    (h : loadImageWithLoader E s fd p l = .ok (r, s1)) :
    Frame E p s.sys.heap s.sys.context.flags s1.sys.heap s1.sys.context.flags ∧
    ∃ d1, deref s1 p = some d1 ∧ (r = 0 → d1.data.isSome = true) ∧ (r ≠ 0 → d1.data = none) ∧
      d1.ref_count = d.ref_count ∧
      hasFlag d1.flags E.IMG_DATA_KEEP_OPEN = hasFlag d.flags E.IMG_DATA_KEEP_OPEN := by
  obtain ⟨⟨d0, hd0, hsucc, hfail, hrc, hk⟩, fr⟩ := hc s.sys fd p d hd hnb
  have hl0 := getD_lt hd0
  unfold loadImageWithLoader at h
  dsimp only at h
  by_cases hret : (E.img_open l s.sys fd p).1 = 0
  · have hd0' : deref (St.mk (E.img_open l s.sys fd p).2
        (s.trace ++ [Event.img_open l fd p (E.img_open l s.sys fd p).1])) p = some d0 := hd0
    simp only [hret, if_true] at h
    rw [hret] at hd0'
    simp only [hd0'] at h
    by_cases hflag : hasFlag d0.flags E.IMG_DATA_FLIP_RED_BLUE = true
    · simp only [hflag, if_true] at h
      split at h
      · exact absurd h (by simp)
      · rename_i s3 h3
        simp only [Except.ok.injEq, Prod.mk.injEq] at h
        obtain ⟨hr, hs⟩ := h
        subst hs
        obtain ⟨d2, hd2, hctx, _, x, hheap, hx⟩ := flipRedBlue_inv h3
        have hd2' : d2 = { d0 with loader := some l } := by
          have := deref_store_same { d0 with loader := some l } hd0'
          rw [this] at hd2; exact (Option.some.inj hd2).symm
        subst hd2'
        refine ⟨?_, { d0 with loader := some l, data := x }, ?_, ?_, ?_, hrc, hk⟩
        · rw [hheap, hctx]
          exact fr.trans ((Frame.set E p _ _ _).trans (Frame.set E p _ _ _))
        · show s3.sys.heap.getD p none = _
          rw [hheap]
          have hl1 : p < (store (St.mk (E.img_open l s.sys fd p).2
              (s.trace ++ [Event.img_open l fd p 0])) p { d0 with loader := some l }).sys.heap.length := by
            simp only [store, List.length_set]; exact hl0
          exact getD_set_same _ hl1
        · intro _; show x.isSome = true; rw [hx]; exact hsucc hret
        · intro hne; exact absurd hr.symm hne
    · simp only [hflag] at h
      simp only [Bool.false_eq_true, if_false, Except.ok.injEq, Prod.mk.injEq] at h
      obtain ⟨hr, hs⟩ := h
      subst hs
      refine ⟨fr.trans (Frame.set E p _ _ _), _, deref_store_same _ hd0', ?_, ?_, hrc, hk⟩
      · intro _; exact hsucc hret
      · intro hne; exact absurd hr.symm hne
  · simp only [hret, if_false, Except.ok.injEq, Prod.mk.injEq] at h
    obtain ⟨hr, hs⟩ := h
    subst hs
    refine ⟨fr, d0, hd0, ?_, ?_, hrc, hk⟩
    · intro h0; rw [← hr] at h0; exact absurd h0 hret
    · intro _; exact hfail hret

theorem _loadImage_loop_inv (E : Env) (fd : Int) (p : Addr) (multi : Bool) :
    ∀ (tbl : List ImageLoader) (s s2 : St) (r : Option Addr) (d : ImageData),
      (∀ l ∈ tbl, OpenContract E l) → deref s p = some d → d.data = none →
      _loadImage_loop E fd p multi tbl s = .ok (r, s2) →
      Frame E p s.sys.heap s.sys.context.flags s2.sys.heap s2.sys.context.flags ∧
      ∃ d2, deref s2 p = some d2 ∧ (r ≠ none → d2.data.isSome = true) ∧
        (r = none → d2.data = none) ∧ d2.ref_count = d.ref_count ∧
        hasFlag d2.flags E.IMG_DATA_KEEP_OPEN = hasFlag d.flags E.IMG_DATA_KEEP_OPEN := by
  intro tbl
  induction tbl with
  | nil =>
    intro s s2 r d _ hd hnb h
    simp only [_loadImage_loop, Except.ok.injEq, Prod.mk.injEq] at h
    obtain ⟨hr, hs⟩ := h
    subst hr; subst hs
    exact ⟨Frame.refl _ _ _ _, d, hd, fun h => absurd rfl h, fun _ => hnb, rfl, rfl⟩
  | cons l tbl ih =>
    intro s s2 r d hc hd hnb h
    have hc1 : ∀ l1 ∈ tbl, OpenContract E l1 := fun l1 h1 => hc l1 (List.mem_cons_of_mem _ h1)
    by_cases hsk : skipped multi fd l = true
    · rw [_loadImage_loop_skip E fd p multi l _ s hsk] at h
      exact ih s s2 r d hc1 hd hnb h
    · have hsk : skipped multi fd l = false := by simpa using hsk
      rw [_loadImage_loop_try E fd p multi l _ s hsk] at h
      cases hl : loadImageWithLoader E s fd p l with
      | error e => rw [hl] at h; exact absurd h (by simp)
      | ok v =>
        obtain ⟨ret, s1⟩ := v
        obtain ⟨fr, d1, hd1, hsucc, hfail, hrc, hk⟩ :=
          loadImageWithLoader_inv E (hc l (List.mem_cons_self _ _)) hd hnb hl
        rw [hl] at h
        dsimp only at h
        by_cases hret : ret = 0
        · simp only [hret, if_true, Except.ok.injEq, Prod.mk.injEq] at h
          obtain ⟨hr, hs⟩ := h
          subst hr; subst hs
          exact ⟨fr, d1, hd1, fun _ => hsucc hret, fun h => absurd h (by simp), hrc, hk⟩
        · simp only [hret, if_false] at h
          generalize hs1b : (if hasFlag l.flags NO_SEEK = false then
              (s1.setWorld (E.sys_lseek s1.sys.world fd)).log (.lseek fd)
            else s1) = s1b at h
          have hheap : s1b.sys.heap = s1.sys.heap ∧ s1b.sys.context = s1.sys.context := by
            rw [← hs1b]; split <;> exact ⟨rfl, rfl⟩
          have hd1b : deref s1b p = some d1 := by
            show s1b.sys.heap.getD p none = _
            rw [hheap.1]; exact hd1
          obtain ⟨fr2, d2, hd2, hs2, hf2, hrc2, hk2⟩ := ih s1b s2 r d1 hc1 hd1b (hfail hret) h
          rw [hheap.1, hheap.2] at fr2
          exact ⟨fr.trans fr2, d2, hd2, hs2, hf2, by rw [hrc2, hrc], by rw [hk2, hk]⟩

theorem _loadImage_inv (E : Env) {s s2 : St} {p : Addr} {multi : Bool} {r : Option Addr}
    {d : ImageData} (hc : ∀ l ∈ E.img_loaders, OpenContract E l)
    (hd : deref s p = some d) (hnb : d.data = none)
    (h : _loadImage E s p multi = .ok (r, s2)) :
    Frame E p s.sys.heap s.sys.context.flags s2.sys.heap s2.sys.context.flags ∧
    ∃ d2, deref s2 p = some d2 ∧ (r ≠ none → d2.data.isSome = true) ∧
      (r = none → d2.data = none) ∧ d2.ref_count = d.ref_count ∧
      hasFlag d2.flags E.IMG_DATA_KEEP_OPEN = hasFlag d.flags E.IMG_DATA_KEEP_OPEN := by
  unfold _loadImage at h
  cases hfd : getFD E s p with
  | error e => rw [hfd] at h; exact absurd h (by simp)
  | ok v =>
    obtain ⟨fd, s1⟩ := v
    obtain ⟨hheap, hctx, _, _, _⟩ := getFD_inv E hfd
    rw [hfd] at h
    dsimp only at h
    have hd1 : deref s1 p = some d := by
      show s1.sys.heap.getD p none = _
      rw [hheap]; exact hd
    cases hl : _loadImage_loop E fd p multi E.img_loaders s1 with
    | error e => rw [hl] at h; exact absurd h (by simp)
    | ok w =>
      obtain ⟨r1, s3⟩ := w
      obtain ⟨fr, d2, hd2, hs2, hf2, hrc2, hk2⟩ :=
        _loadImage_loop_inv E fd p multi _ _ _ _ _ hc hd1 hnb hl
      rw [hheap, hctx] at fr
      rw [hl] at h
      cases r1 with
      | some q =>
        simp only [Except.ok.injEq, Prod.mk.injEq] at h
        obtain ⟨hr, hs⟩ := h
        subst hr; subst hs
        exact ⟨fr, d2, hd2, fun _ => hs2 (by simp), fun h => absurd h (by simp), hrc2, hk2⟩
      | none =>
        dsimp only at h
        split at h
        · simp only [Except.ok.injEq, Prod.mk.injEq] at h
          obtain ⟨hr, hs⟩ := h
          subst hr; subst hs
          exact ⟨fr, d2, hd2, fun h => absurd rfl h, fun _ => hf2 rfl, hrc2, hk2⟩
        · simp only [Except.ok.injEq, Prod.mk.injEq] at h
          obtain ⟨hr, hs⟩ := h
          subst hr; subst hs
          exact ⟨fr, d2, hd2, fun h => absurd rfl h, fun _ => hf2 rfl, hrc2, hk2⟩

theorem Inv_of_frame {E : Env} {p : Addr} {s s1 : St} (hinv : Inv E s)
    (fr : Frame E p s.sys.heap s.sys.context.flags s1.sys.heap s1.sys.context.flags)
    (hp : ∀ d, deref s1 p = some d → entryOk E d) : Inv E s1 :=
  ⟨heapOk_of_frame hinv.1 fr hp, by rw [fr.2.1]; exact hinv.2⟩

theorem entryOk_acquire_present {E : Env} {d : ImageData} (hok : entryOk E d)
    (hbuf : d.data.isSome = true) : entryOk E { d with ref_count := d.ref_count + 1 } := by
  intro hk
  obtain ⟨h1, h2⟩ := hok hk
  have : 0 < d.ref_count := h1.mp hbuf
  exact ⟨⟨fun _ => by show 0 < d.ref_count + 1; omega, fun _ => hbuf⟩,
    by show 0 ≤ d.ref_count + 1; omega⟩

theorem loadImage_inv (E : Env) (hc : ∀ l ∈ E.img_loaders, OpenContract E l)
    {s s1 : St} {p : Addr} {r : Option Addr} (hinv : Inv E s)
    (h : loadImage E s (some p) = .ok (r, s1)) :
    Inv E s1 ∧ Frame E p s.sys.heap s.sys.context.flags s1.sys.heap s1.sys.context.flags ∧
      (r = none ∨ r = some p) := by
  unfold loadImage at h
  dsimp only at h
  cases hd : deref s p with
  | none => rw [hd] at h; exact absurd h (by simp)
  | some d =>
    rw [hd] at h
    dsimp only at h
    have hok := hinv.1 p d hd
    by_cases hbuf : d.data.isSome = true
    · simp only [hbuf, if_true, acquire_eq hd, Except.ok.injEq, Prod.mk.injEq] at h
      obtain ⟨hr, hs⟩ := h
      subst hr; subst hs
      have fr : Frame E p s.sys.heap s.sys.context.flags
          (store s p { d with ref_count := d.ref_count + 1 }).sys.heap
          (store s p { d with ref_count := d.ref_count + 1 }).sys.context.flags :=
        Frame.set E p _ _ _
      refine ⟨Inv_of_frame hinv fr ?_, fr, Or.inr rfl⟩
      intro d' hd'
      rw [deref_store_same _ hd] at hd'
      cases hd'
      exact entryOk_acquire_present hok hbuf
    · have hnb : d.data = none := by
        cases hx : d.data with
        | none => rfl
        | some x => rw [hx] at hbuf; exact absurd rfl hbuf
      simp only [hbuf, Bool.false_eq_true, if_false] at h
      cases hl : _loadImage E s p false with
      | error e => rw [hl] at h; exact absurd h (by simp)
      | ok v =>
        obtain ⟨r2, s2⟩ := v
        obtain ⟨fr, d2, hd2, hs2, hf2, hrc2, hk2⟩ := _loadImage_inv E hc hd hnb hl
        rw [hl] at h
        have hzero : hasFlag d2.flags E.IMG_DATA_KEEP_OPEN = false → d2.ref_count = 0 := by
          intro hk
          rw [hk2] at hk
          obtain ⟨h1, h2⟩ := hok hk
          rw [hrc2]
          have : ¬ 0 < d.ref_count := fun hpos => by
            have := h1.mpr hpos; rw [hnb] at this; exact absurd this (by simp)
          omega
        cases r2 with
        | some q =>
          simp only [acquire_eq hd2, Except.ok.injEq, Prod.mk.injEq] at h
          obtain ⟨hr, hs⟩ := h
          subst hr; subst hs
          have fr2 : Frame E p s.sys.heap s.sys.context.flags
              (store s2 p { d2 with ref_count := d2.ref_count + 1 }).sys.heap
              (store s2 p { d2 with ref_count := d2.ref_count + 1 }).sys.context.flags :=
            fr.trans (Frame.set E p _ _ _)
          refine ⟨Inv_of_frame hinv fr2 ?_, fr2, Or.inr rfl⟩
          intro d' hd'
          rw [deref_store_same _ hd2] at hd'
          cases hd'
          intro hk
          have hz := hzero hk
          have hb := hs2 (by simp)
          exact ⟨⟨fun _ => by show 0 < d2.ref_count + 1; omega, fun _ => hb⟩,
            by show 0 ≤ d2.ref_count + 1; omega⟩
        | none =>
          simp only [Except.ok.injEq, Prod.mk.injEq] at h
          obtain ⟨hr, hs⟩ := h
          subst hr; subst hs
          refine ⟨Inv_of_frame hinv fr ?_, fr, Or.inl rfl⟩
          intro d' hd'
          rw [hd2] at hd'
          cases hd'
          intro hk
          have hz := hzero hk
          have hb := hf2 rfl
          refine ⟨⟨fun hx => ?_, fun hx => ?_⟩, by omega⟩
          · rw [hb] at hx; exact absurd hx (by simp)
          · omega

theorem closeImage_cases (E : Env) {s s1 : St} {p : Addr} {force : Bool}
    (h : closeImage E s p force = .ok s1) :
    ∃ d, deref s p = some d ∧
      ((((d.ref_count - 1 = 0 ∧ hasFlag d.flags E.IMG_DATA_KEEP_OPEN = false) ∨ force = true) ∧
        ∃ l d2, d.loader = some l ∧ l.has_close = true ∧
          (E.img_close l (store s p { d with ref_count := d.ref_count - 1 }).sys p).heap.getD p none
            = some d2 ∧
          s1 = store (St.mk (E.img_close l (store s p { d with ref_count := d.ref_count - 1 }).sys p)
              (s.trace ++ [Event.img_close l p])) p { d2 with image_data := none, data := none }) ∨
       (¬ ((d.ref_count - 1 = 0 ∧ hasFlag d.flags E.IMG_DATA_KEEP_OPEN = false) ∨ force = true) ∧
        s1 = store s p { d with ref_count := d.ref_count - 1 })) := by
  unfold closeImage at h
  cases hd : deref s p with
  | none => rw [hd] at h; exact absurd h (by simp)
  | some d =>
    rw [hd] at h
    dsimp only at h
    refine ⟨d, rfl, ?_⟩
    by_cases hcond : (d.ref_count - 1 = 0 ∧ hasFlag d.flags E.IMG_DATA_KEEP_OPEN = false) ∨
        force = true
    · rw [if_pos hcond] at h
      left
      refine ⟨hcond, ?_⟩
      cases hl : d.loader with
      | none => rw [hl] at h; exact absurd h (by simp)
      | some l =>
        rw [hl] at h
        dsimp only at h
        by_cases hcl : l.has_close = true
        · rw [if_pos hcl] at h
          split at h
          · exact absurd h (by simp)
          · rename_i d2 hd2
            simp only [Except.ok.injEq] at h
            exact ⟨l, d2, rfl, hcl, hd2, h.symm⟩
        · rw [if_neg hcl] at h; exact absurd h (by simp)
    · rw [if_neg hcond] at h
      right
      simp only [Except.ok.injEq] at h
      exact ⟨hcond, h.symm⟩

theorem closeImage_frame (E : Env) (hcc : ∀ l, CloseContract E l) {s s1 : St} {p : Addr}
    {force : Bool} (h : closeImage E s p force = .ok s1) :
    Frame E p s.sys.heap s.sys.context.flags s1.sys.heap s1.sys.context.flags := by
  obtain ⟨d, hd, hcase⟩ := closeImage_cases E h
  rcases hcase with ⟨_, l, d2, _, _, hd2, hs1⟩ | ⟨_, hs1⟩
  · have hd' := deref_store_same { d with ref_count := d.ref_count - 1 } hd
    obtain ⟨_, fr⟩ := hcc l _ p _ hd'
    rw [hs1]
    exact (Frame.set E p _ _ _).trans (fr.trans (Frame.set E p _ _ _))
  · rw [hs1]; exact Frame.set E p _ _ _

theorem closeImage_inv (E : Env) (hcc : ∀ l, CloseContract E l) {s s1 : St} {p : Addr}
    (hinv : Inv E s) (hheld : held E s p) (h : closeImage E s p false = .ok s1) :
    Inv E s1 := by
  have fr := closeImage_frame E hcc h
  refine Inv_of_frame hinv fr ?_
  obtain ⟨d, hd, hcase⟩ := closeImage_cases E h
  obtain ⟨d0, hd0, hpos⟩ := hheld
  rw [hd] at hd0; cases hd0
  have hok := hinv.1 p d hd
  rcases hcase with ⟨hcond, l, d2, _, _, hd2, hs1⟩ | ⟨hcond, hs1⟩
  · have hd' := deref_store_same { d with ref_count := d.ref_count - 1 } hd
    obtain ⟨⟨d3, hd3, hrc3, hk3⟩, _⟩ := hcc l _ p _ hd'
    rw [hd2] at hd3; cases hd3
    intro d' hd'
    rw [hs1, deref_store_same _ (show deref (St.mk _ _) p = some d2 from hd2)] at hd'
    cases hd'
    intro hk
    have hrc : d.ref_count - 1 = 0 := by
      rcases hcond with h1 | h1
      · exact h1.1
      · exact absurd h1 (by simp)
    have : d2.ref_count = 0 := by rw [hrc3]; exact hrc
    refine ⟨⟨fun hx => absurd hx (by simp), fun hx => ?_⟩, ?_⟩
    · have : (0 : Int) < d2.ref_count := hx
      omega
    · show 0 ≤ d2.ref_count; omega
  · intro d' hd'
    rw [hs1, deref_store_same _ hd] at hd'
    cases hd'
    intro hk
    have hk' : hasFlag d.flags E.IMG_DATA_KEEP_OPEN = false := hk
    obtain ⟨h1, h2⟩ := hok hk'
    have hp := hpos hk'
    have hne : d.ref_count - 1 ≠ 0 := fun h0 => hcond (Or.inl ⟨h0, hk'⟩)
    refine ⟨⟨fun _ => ?_, fun _ => h1.mpr hp⟩, ?_⟩
    · show 0 < d.ref_count - 1; omega
    · show 0 ≤ d.ref_count - 1; omega

theorem getD_set_none (h : List (Option ImageData)) (p : Nat) :
    (h.set p none).getD p none = none := by
  by_cases hl : p < h.length
  · exact getD_set_same none hl
  · rw [List.getD_eq_getElem?_getD, List.getElem?_eq_none (by simpa using hl)]; rfl

theorem freeImageData_inv (E : Env) (hcc : ∀ l, CloseContract E l) {s s1 : St}
    {q : Option Addr} (hinv : Inv E s) (h : freeImageData E s q = .ok s1) :
    ∃ p, q = some p ∧ Inv E s1 ∧
      Frame E p s.sys.heap s.sys.context.flags s1.sys.heap s1.sys.context.flags ∧
      deref s1 p = none := by
  unfold freeImageData at h
  cases q with
  | none => exact absurd h (by simp)
  | some p =>
    dsimp only at h
    cases hd : deref s p with
    | none => rw [hd] at h; exact absurd h (by simp)
    | some d =>
      rw [hd] at h
      dsimp only at h
      have key : ∀ s0 : St,
          Frame E p s.sys.heap s.sys.context.flags s0.sys.heap s0.sys.context.flags →
          s1 = (St.mk { s0.sys with heap := s0.sys.heap.set p none }
              (s0.trace ++ [Event.free p])).setContext (clearSlots s0.sys.context p) →
          ∃ p1, some p = some p1 ∧ Inv E s1 ∧
            Frame E p1 s.sys.heap s.sys.context.flags s1.sys.heap s1.sys.context.flags ∧
            deref s1 p1 = none := by
        intro s0 fr0 hs1
        have fr : Frame E p s.sys.heap s.sys.context.flags s1.sys.heap s1.sys.context.flags := by
          rw [hs1]
          exact fr0.trans (Frame.set E p _ _ _)
        have hnone : deref s1 p = none := by
          rw [hs1]; exact getD_set_none _ _
        refine ⟨p, rfl, Inv_of_frame hinv fr ?_, fr, hnone⟩
        intro d' hd'; rw [hnone] at hd'; exact absurd hd' (by simp)
      by_cases hbuf : d.data.isSome = true
      · simp only [hbuf, if_true] at h
        cases hc : closeImage E s p true with
        | error e => rw [hc] at h; exact absurd h (by simp)
        | ok s0 =>
          rw [hc] at h
          simp only [Except.ok.injEq] at h
          exact key s0 (closeImage_frame E hcc hc) h.symm
      · simp only [hbuf, Bool.false_eq_true, if_false, Except.ok.injEq] at h
        exact key s (Frame.refl _ _ _ _) h.symm

/-- The caller's claim on `currentImage` as it evolves inside `openImage`:
the pointer lies inside the heap and, if still allocated, is held. -/
theorem guard_of_held {E : Env} {s : St} {cur : Option Addr}
    (h : ∀ c, cur = some c → held E s c) :
    ∀ c : Nat, cur = some c → c < s.sys.heap.length ∧
      ∀ d, deref s c = some d → hasFlag d.flags E.IMG_DATA_KEEP_OPEN = false → 0 < d.ref_count := by
  intro c hc
  obtain ⟨d, hd, hpos⟩ := h c hc
  refine ⟨deref_lt hd, ?_⟩
  intro d' hd'
  rw [hd] at hd'; cases hd'
  exact hpos

theorem guard_frame {E : Env} {s s1 : St} {p : Addr} {cur : Option Addr}
    (g : ∀ c : Nat, cur = some c → c < s.sys.heap.length ∧
      ∀ d, deref s c = some d → hasFlag d.flags E.IMG_DATA_KEEP_OPEN = false → 0 < d.ref_count)
    (fr : Frame E p s.sys.heap s.sys.context.flags s1.sys.heap s1.sys.context.flags)
    (hp : cur = some p → deref s1 p = none) :
    ∀ c : Nat, cur = some c → c < s1.sys.heap.length ∧
      ∀ d, deref s1 c = some d → hasFlag d.flags E.IMG_DATA_KEEP_OPEN = false →
        0 < d.ref_count := by
  intro c hc
  obtain ⟨hl, hd⟩ := g c hc
  refine ⟨lt_of_lt_of_le hl fr.1, ?_⟩
  intro d hd1
  by_cases hcp : c = p
  · subst hcp
    rw [hp hc] at hd1; exact absurd hd1 (by simp)
  · have : deref s1 c = deref s c := fr.2.2.1 c hcp hl
    rw [this] at hd1
    exact hd d hd1

theorem openImage_tail_inv (E : Env) (hcc : ∀ l, CloseContract E l) {s s1 : St}
    {cur data r : Option Addr} (hinv : Inv E s)
    (g : ∀ c : Nat, cur = some c → c < s.sys.heap.length ∧
      ∀ d, deref s c = some d → hasFlag d.flags E.IMG_DATA_KEEP_OPEN = false → 0 < d.ref_count)
    (h : openImage_tail E s cur data = .ok (r, s1)) : Inv E s1 := by
  unfold openImage_tail at h
  cases cur with
  | none =>
    simp only [Except.ok.injEq, Prod.mk.injEq] at h
    rw [← h.2]; exact hinv
  | some c =>
    dsimp only at h
    cases hc : closeImage E s c false with
    | error e => rw [hc] at h; exact absurd h (by simp)
    | ok s2 =>
      rw [hc] at h
      simp only [Except.ok.injEq, Prod.mk.injEq] at h
      rw [← h.2]
      obtain ⟨d, hd, _⟩ := closeImage_cases E hc
      exact closeImage_inv E hcc hinv ⟨d, hd, (g c rfl).2 d hd⟩ hc

theorem openImage_inv (E : Env) (hc : ∀ l ∈ E.img_loaders, OpenContract E l)
    (hcc : ∀ l, CloseContract E l) :
    ∀ (fuel : Nat) (s s1 : St) (index : Int) (cur r : Option Addr), Inv E s →
      (∀ c : Nat, cur = some c → c < s.sys.heap.length ∧
        ∀ d, deref s c = some d → hasFlag d.flags E.IMG_DATA_KEEP_OPEN = false →
          0 < d.ref_count) →
      openImage E fuel s index cur = .ok (r, s1) → Inv E s1 := by
  intro fuel
  induction fuel with
  | zero => intro s s1 index cur r _ _ h; exact absurd h (by simp [openImage])
  | succ fuel ih =>
    intro s s1 index cur r hinv g h
    rw [openImage] at h
    by_cases hrange : 0 ≤ index ∧ index < (s.sys.context.num : Int)
    · rw [if_pos hrange] at h
      by_cases hcur : cur = slot s.sys.context index.toNat
      · rw [if_pos hcur] at h
        simp only [Except.ok.injEq, Prod.mk.injEq] at h
        rw [← h.2]; exact hinv
      · rw [if_neg hcur] at h
        cases hsl : slot s.sys.context index.toNat with
        | none => rw [hsl] at h; exact absurd h (by simp [loadImage])
        | some p =>
          rw [hsl] at h hcur
          cases hl : loadImage E s (some p) with
          | error e => rw [hl] at h; exact absurd h (by simp)
          | ok v =>
            obtain ⟨data, s2⟩ := v
            obtain ⟨hinv2, fr2, _⟩ := loadImage_inv E hc hinv hl
            have g2 := guard_frame g fr2 (fun hcp => absurd hcp hcur)
            rw [hl] at h
            dsimp only at h
            cases hnb : noBuffer s2 data with
            | error e => rw [hnb] at h; exact absurd h (by simp)
            | ok nb =>
              rw [hnb] at h
              dsimp only at h
              by_cases hrem : (nb && hasFlag s2.sys.context.flags E.REMOVE_INVALID) = true
              · rw [if_pos hrem] at h
                cases hf : freeImageData E s2 (slot s2.sys.context index.toNat) with
                | error e => rw [hf] at h; exact absurd h (by simp)
                | ok s3 =>
                  rw [hf] at h
                  dsimp only at h
                  obtain ⟨p3, _, hinv3, fr3, hnone3⟩ := freeImageData_inv E hcc hinv2 hf
                  have g3 := guard_frame g2 fr3 (fun _ => hnone3)
                  refine ih _ s1 index cur r ?_ ?_ h
                  · exact ⟨hinv3.1, hinv3.2⟩
                  · exact g3
              · rw [if_neg hrem] at h
                exact openImage_tail_inv E hcc hinv2 g2 h
    · rw [if_neg hrange] at h
      exact openImage_tail_inv E hcc hinv g h

theorem loadImageWithLoader_raw (E : Env) {l : ImageLoader} {s s1 : St} {fd : Int} {p : Addr}
    {r : Int} {d0 : ImageData} (hd0 : (E.img_open l s.sys fd p).2.heap.getD p none = some d0)
    (h : loadImageWithLoader E s fd p l = .ok (r, s1)) :
    r = (E.img_open l s.sys fd p).1 ∧
    s1.sys.context = (E.img_open l s.sys fd p).2.context ∧
    Frame E p (E.img_open l s.sys fd p).2.heap (E.img_open l s.sys fd p).2.context.flags
      s1.sys.heap s1.sys.context.flags ∧
    ∃ d1, deref s1 p = some d1 ∧ d1.data.isSome = d0.data.isSome ∧
      d1.ref_count = d0.ref_count ∧ d1.flags = d0.flags := by
  have hl0 := getD_lt hd0
  unfold loadImageWithLoader at h
  dsimp only at h
  by_cases hret : (E.img_open l s.sys fd p).1 = 0
  · have hd0' : deref (St.mk (E.img_open l s.sys fd p).2
        (s.trace ++ [Event.img_open l fd p (E.img_open l s.sys fd p).1])) p = some d0 := hd0
    simp only [hret, if_true] at h
    rw [hret] at hd0'
    simp only [hd0'] at h
    by_cases hflag : hasFlag d0.flags E.IMG_DATA_FLIP_RED_BLUE = true
    · simp only [hflag, if_true] at h
      split at h
      · exact absurd h (by simp)
      · rename_i s3 h3
        simp only [Except.ok.injEq, Prod.mk.injEq] at h
        obtain ⟨hr, hs⟩ := h
        subst hs
        obtain ⟨d2, hd2, hctx, _, x, hheap, hx⟩ := flipRedBlue_inv h3
        have hd2' : d2 = { d0 with loader := some l } := by
          have := deref_store_same { d0 with loader := some l } hd0'
          rw [this] at hd2; exact (Option.some.inj hd2).symm
        subst hd2'
        refine ⟨by rw [hret]; exact hr.symm, by rw [hctx]; rfl, ?_,
          { d0 with loader := some l, data := x }, ?_, hx, rfl, rfl⟩
        · rw [hheap, hctx]
          exact (Frame.set E p _ _ _).trans (Frame.set E p _ _ _)
        · show s3.sys.heap.getD p none = _
          rw [hheap]
          have hl1 : p < (store (St.mk (E.img_open l s.sys fd p).2
              (s.trace ++ [Event.img_open l fd p 0])) p { d0 with loader := some l }).sys.heap.length := by
            simp only [store, List.length_set]; exact hl0
          exact getD_set_same _ hl1
    · simp only [hflag] at h
      simp only [Bool.false_eq_true, if_false, Except.ok.injEq, Prod.mk.injEq] at h
      obtain ⟨hr, hs⟩ := h
      subst hs
      exact ⟨by rw [hret]; exact hr.symm, rfl, Frame.set E p _ _ _, _,
        deref_store_same _ hd0', rfl, rfl, rfl⟩
  · simp only [hret, if_false, Except.ok.injEq, Prod.mk.injEq] at h
    obtain ⟨hr, hs⟩ := h
    subst hs
    exact ⟨hr.symm, rfl, Frame.refl _ _ _ _, d0, hd0, rfl, rfl, rfl⟩

theorem loadImageWithLoader_pipe_inv (E : Env) (hc : PipeContract E)
    {s s1 : St} {fd : Int} {p : Addr} {r : Int} {d : ImageData}
    (hd : deref s p = some d) (hnb : d.data = none)
    (h : loadImageWithLoader E s fd p pipe_loader = .ok (r, s1)) :
    Frame E p s.sys.heap s.sys.context.flags s1.sys.heap s1.sys.context.flags ∧
    ∃ d1, deref s1 p = some d1 ∧ d1.data = none ∧ d1.ref_count = d.ref_count ∧
      hasFlag d1.flags E.IMG_DATA_KEEP_OPEN = hasFlag d.flags E.IMG_DATA_KEEP_OPEN := by
  obtain ⟨⟨d0, hd0, hdata, hrc, hk⟩, fr⟩ := hc s.sys fd p d hd hnb
  obtain ⟨_, _, fr1, d1, hd1, hsome, hrc1, hf1⟩ := loadImageWithLoader_raw E hd0 h
  refine ⟨fr.trans fr1, d1, hd1, ?_, by rw [hrc1, hrc], by rw [hf1, hk]⟩
  rw [hdata] at hsome
  cases hx : d1.data with
  | none => rfl
  | some x => rw [hx] at hsome; exact absurd hsome (by simp)

theorem loadStats_inv (E : Env) {s s1 : St} {p : Addr} (h : loadStats E s p = .ok s1) :
    ∃ d d1, deref s p = some d ∧ deref s1 p = some d1 ∧ d1.data = d.data ∧
      d1.ref_count = d.ref_count ∧ d1.flags = d.flags ∧ s1.sys.context = s.sys.context ∧
      Frame E p s.sys.heap s.sys.context.flags s1.sys.heap s1.sys.context.flags := by
  unfold loadStats at h
  cases hd : deref s p with
  | none => rw [hd] at h; exact absurd h (by simp)
  | some d =>
    rw [hd] at h
    dsimp only at h
    by_cases hst : d.stats_loaded = true
    · simp only [hst, if_true, Except.ok.injEq] at h
      subst h
      exact ⟨d, d, rfl, hd, rfl, rfl, rfl, rfl, Frame.refl _ _ _ _⟩
    · simp only [hst, Bool.false_eq_true, if_false] at h
      cases hfd : getFD E s p with
      | error e => rw [hfd] at h; exact absurd h (by simp)
      | ok v =>
        obtain ⟨fd, s2⟩ := v
        obtain ⟨hheap, hctx, _, _, _⟩ := getFD_inv E hfd
        rw [hfd] at h
        dsimp only at h
        have hd2 : deref (s2.log (Event.fstat fd)) p = some d := by
          show s2.sys.heap.getD p none = _
          rw [hheap]; exact hd
        have key : ∀ (s3 : St) (d3 : ImageData), deref s3 p = some d3 → d3.data = d.data →
            d3.ref_count = d.ref_count → d3.flags = d.flags → s3.sys.context = s.sys.context →
            Frame E p s.sys.heap s.sys.context.flags s3.sys.heap s3.sys.context.flags →
            s1 = store s3 p { d3 with stats_loaded := true } →
            ∃ d0 d1, some d = some d0 ∧ deref s1 p = some d1 ∧ d1.data = d0.data ∧
              d1.ref_count = d0.ref_count ∧ d1.flags = d0.flags ∧
              s1.sys.context = s.sys.context ∧
              Frame E p s.sys.heap s.sys.context.flags s1.sys.heap s1.sys.context.flags := by
          intro s3 d3 hd3 h1 h2 h3 h4 fr hs1
          subst hs1
          exact ⟨d, _, rfl, deref_store_same _ hd3, h1, h2, h3, h4,
            fr.trans (Frame.set E p _ _ _)⟩
        have fr2 : Frame E p s.sys.heap s.sys.context.flags (s2.log (Event.fstat fd)).sys.heap
            (s2.log (Event.fstat fd)).sys.context.flags := by
          show Frame E p s.sys.heap s.sys.context.flags s2.sys.heap s2.sys.context.flags
          rw [hheap, hctx]; exact Frame.refl _ _ _ _
        cases hfs : E.sys_fstat (s2.log (Event.fstat fd)).sys.world fd with
        | none =>
          rw [hfs] at h
          dsimp only at h
          rw [hd2] at h
          simp only [Except.ok.injEq] at h
          exact key _ d hd2 rfl rfl rfl hctx fr2 h.symm
        | some v =>
          obtain ⟨sz, mt⟩ := v
          rw [hfs] at h
          dsimp only at h
          have hset : setStats (s2.log (Event.fstat fd)) p sz mt
              = .ok (store (s2.log (Event.fstat fd)) p
                  { d with size := sz, mod_time := mt, stats_loaded := true }) := by
            unfold setStats; rw [hd2]
          rw [hset] at h
          dsimp only at h
          rw [deref_store_same _ hd2] at h
          simp only [Except.ok.injEq] at h
          exact key _ { d with size := sz, mod_time := mt, stats_loaded := true }
            (deref_store_same _ hd2) rfl rfl rfl hctx
            (fr2.trans (Frame.set E p _ _ _)) h.symm

theorem loadStats_fresh (E : Env) {s s1 : St} {p q : Addr} (hinv : Inv E s)
    (h : loadStats E s q = .ok s1) {d : ImageData} (hd : deref s p = some d) :
    Inv E s1 ∧ s1.sys.context = s.sys.context ∧
      ∃ d1, deref s1 p = some d1 ∧ d1.data = d.data ∧ d1.ref_count = d.ref_count ∧
        d1.flags = d.flags := by
  obtain ⟨d0, d1, hd0, hd1, h1, h2, h3, hctx, fr⟩ := loadStats_inv E h
  have hinv1 : Inv E s1 := by
    refine Inv_of_frame hinv fr ?_
    intro d' hd'
    rw [hd1] at hd'; cases hd'
    have hok := hinv.1 q d0 hd0
    intro hk
    rw [h3] at hk
    rw [h1, h2]
    exact hok hk
  refine ⟨hinv1, hctx, ?_⟩
  by_cases hpq : p = q
  · subst hpq
    rw [hd] at hd0; cases hd0
    exact ⟨d1, hd1, h1, h2, h3⟩
  · refine ⟨d, ?_, rfl, rfl, rfl⟩
    show s1.sys.heap.getD p none = some d
    rw [fr.2.2.1 p hpq (deref_lt hd)]; exact hd

theorem getD_append_length (h : List (Option ImageData)) (x : Option ImageData) :
    (h ++ [x]).getD h.length none = x := by
  cases x <;> simp [List.getD_eq_getElem?_getD]

theorem getD_append_lt (h : List (Option ImageData)) (x : Option ImageData) {q : Nat}
    (hq : q < h.length) : (h ++ [x]).getD q none = h.getD q none := by
  simp [List.getD_eq_getElem?_getD, List.getElem?_append_left hq]

theorem addFile_grow_flags (c : ImageContext) : (addFile_grow c).flags = c.flags := by
  unfold addFile_grow; split <;> rfl

theorem addFile_alloc_inv (E : Env) {s s1 : St} {name : String} {p : Addr} (hinv : Inv E s)
    (h : addFile_alloc s name = .ok (p, s1)) :
    Inv E s1 ∧ ∃ d1, deref s1 p = some d1 ∧ d1.data = none ∧ d1.ref_count = 0 := by
  unfold addFile_alloc at h
  dsimp only at h
  by_cases hg : (addFile_grow s.sys.context).num < (addFile_grow s.sys.context).data.length
  · rw [if_pos hg] at h
    simp only [Except.ok.injEq, Prod.mk.injEq] at h
    obtain ⟨hp, hs⟩ := h
    subst hp; subst hs
    refine ⟨⟨?_, ?_⟩, _, getD_append_length _ _, rfl, rfl⟩
    · intro q dq hq
      by_cases hlt : q < s.sys.heap.length
      · have : (s.sys.heap ++ [some { zeroImageData with
            fd := -1, id := (addFile_grow s.sys.context).counter, name := name }]).getD q none
            = some dq := hq
        rw [getD_append_lt _ _ hlt] at this
        exact hinv.1 q dq this
      · by_cases heq : q = s.sys.heap.length
        · subst heq
          have : (s.sys.heap ++ [some { zeroImageData with
              fd := -1, id := (addFile_grow s.sys.context).counter, name := name }]).getD
                s.sys.heap.length none = some dq := hq
          rw [getD_append_length] at this
          cases this
          intro _
          exact ⟨⟨fun hx => absurd hx Bool.false_ne_true, fun hx => absurd hx (lt_irrefl 0)⟩,
            le_refl _⟩
        · have hl : q < (s.sys.heap ++ [some { zeroImageData with
              fd := -1, id := (addFile_grow s.sys.context).counter, name := name }]).length :=
            getD_lt hq
          rw [List.length_append, List.length_singleton] at hl
          omega
    · show hasFlag (addFile_grow s.sys.context).flags E.PRE_EXPAND = false
      rw [addFile_grow_flags]; exact hinv.2
  · rw [if_neg hg] at h; exact absurd h (by simp)

theorem addFile_stats_inv (E : Env) {s s1 : St} {p : Addr} {d : ImageData} (hinv : Inv E s)
    (hd : deref s p = some d) (h : addFile_stats E s = .ok s1) :
    Inv E s1 ∧ ∃ d1, deref s1 p = some d1 ∧ d1.data = d.data ∧ d1.ref_count = d.ref_count := by
  unfold addFile_stats at h
  by_cases hf : hasFlag s.sys.context.flags E.LOAD_STATS = true
  · rw [if_pos hf] at h
    cases hsl : slot s.sys.context s.sys.context.num with
    | none => rw [hsl] at h; exact absurd h (by simp)
    | some q =>
      rw [hsl] at h
      obtain ⟨h1, _, d1, h2, h3, h4, _⟩ := loadStats_fresh E hinv h hd
      exact ⟨h1, d1, h2, h3, h4⟩
  · rw [if_neg hf] at h
    simp only [Except.ok.injEq] at h
    subst h
    exact ⟨hinv, d, hd, rfl, rfl⟩

theorem addFile_inv (E : Env) {s s1 : St} {name : String} {p : Addr} (hinv : Inv E s)
    (h : addFile E s name = .ok (p, s1)) :
    Inv E s1 ∧ ∃ d1, deref s1 p = some d1 ∧ d1.data = none ∧ d1.ref_count = 0 := by
  unfold addFile at h
  cases ha : addFile_alloc s name with
  | error e => rw [ha] at h; exact absurd h (by simp)
  | ok v =>
    obtain ⟨p1, s2⟩ := v
    obtain ⟨hinv2, d2, hd2, hdata2, hrc2⟩ := addFile_alloc_inv E hinv ha
    rw [ha] at h
    dsimp only at h
    cases hs : addFile_stats E s2 with
    | error e => rw [hs] at h; exact absurd h (by simp)
    | ok s3 =>
      obtain ⟨hinv3, d3, hd3, hdata3, hrc3⟩ := addFile_stats_inv E hinv2 hd2 hs
      rw [hs] at h
      dsimp only at h
      have hexp : addFile_expand E s3 = .ok s3 := by
        unfold addFile_expand
        rw [hinv3.2]; rfl
      rw [hexp] at h
      simp only [Except.ok.injEq, Prod.mk.injEq] at h
      obtain ⟨hp, hs1⟩ := h
      subst hp; subst hs1
      exact ⟨⟨hinv3.1, hinv3.2⟩, d3, hd3, by rw [hdata3, hdata2], by rw [hrc3, hrc2]⟩

theorem addFromPipe_inv (E : Env) (hpc : PipeContract E) {s s1 : St} {fd : Int}
    {name : String} {r : Int} (hinv : Inv E s) (h : addFromPipe E s fd name = .ok (r, s1)) :
    Inv E s1 := by
  unfold addFromPipe at h
  cases ha : addFile E s name with
  | error e => rw [ha] at h; exact absurd h (by simp)
  | ok v =>
    obtain ⟨p, s2⟩ := v
    obtain ⟨hinv2, d2, hd2, hdata2, hrc2⟩ := addFile_inv E hinv ha
    rw [ha] at h
    dsimp only at h
    obtain ⟨fr, d3, hd3, hdata3, hrc3, hk3⟩ := loadImageWithLoader_pipe_inv E hpc hd2 hdata2 h
    refine Inv_of_frame hinv2 fr ?_
    intro d' hd'
    rw [hd3] at hd'; cases hd'
    intro hk
    rw [hk3] at hk
    obtain ⟨h1, h2⟩ := hinv2.1 p d2 hd2 hk
    rw [hdata3, hrc3, hrc2]
    exact ⟨⟨fun hx => absurd hx (by simp), fun hx => absurd hx (by decide)⟩, le_refl _⟩

theorem createContext_loop_inv (E : Env) (hpc : PipeContract E) (num : Int) :
    ∀ (names : List (Option String)) (i : Nat) (s s1 : St), Inv E s →
      createContext_loop E num names i s = .ok s1 → Inv E s1 := by
  intro names
  induction names with
  | nil =>
    intro i s s1 hinv h
    unfold createContext_loop at h
    split at h
    · exact absurd h (by simp)
    · simp only [Except.ok.injEq] at h; rw [← h]; exact hinv
  | cons x rest ih =>
    intro i s s1 hinv h
    unfold createContext_loop at h
    split at h
    · cases x with
      | none => simp only [Except.ok.injEq] at h; rw [← h]; exact hinv
      | some nm =>
        dsimp only at h
        split at h
        · cases hp : addFromPipe E s STDIN_FILENO "stdin" with
          | error e => rw [hp] at h; exact absurd h (by simp)
          | ok v =>
            obtain ⟨r, s2⟩ := v
            rw [hp] at h
            exact ih _ _ _ (addFromPipe_inv E hpc hinv hp) h
        · cases hp : addFile E s nm with
          | error e => rw [hp] at h; exact absurd h (by simp)
          | ok v =>
            obtain ⟨r, s2⟩ := v
            rw [hp] at h
            exact ih _ _ _ (addFile_inv E hinv hp).1 h
    · simp only [Except.ok.injEq] at h; rw [← h]; exact hinv

theorem createContext_inv (E : Env) (hpc : PipeContract E) {world : Nat}
    {names : Option (List (Option String))} {num : Int} {flags : Nat} {s : St}
    (hf : hasFlag flags E.PRE_EXPAND = false)
    (h : createContext E world names num flags = .ok s) : Inv E s := by
  unfold createContext at h
  dsimp only at h
  have h0 : Inv E (St.mk (Sys.mk (ImageContext.mk [] 0 (if num ≠ 0 then num else 16) 0 flags)
      [] world) []) := by
    refine ⟨?_, hf⟩
    intro q d hq
    exact absurd hq (by simp [deref])
  cases names with
  | none =>
    simp only [Except.ok.injEq] at h
    rw [← h]; exact h0
  | some l => exact createContext_loop_inv E hpc num l 0 _ _ h0 h

theorem Reach_inv (E : Env) (hc : ∀ l ∈ E.img_loaders, OpenContract E l)
    (hpc : PipeContract E) (hcc : ∀ l, CloseContract E l) {s : St} (hr : Reach E s) :
    Inv E s := by
  induction hr with
  | create world names num flags s hf h => exact createContext_inv E hpc hf h
  | addFile s name p s1 _ h ih => exact (addFile_inv E ih h).1
  | addFromPipe s fd name r s1 _ h ih => exact addFromPipe_inv E hpc ih h
  | loadImage s p r s1 _ h ih => exact (loadImage_inv E hc ih h).1
  | closeImage s p s1 _ hheld h ih => exact closeImage_inv E hcc ih hheld h
  | openImage fuel s index cur r s1 _ hg h ih =>
    exact openImage_inv E hc hcc fuel s s1 index cur r ih (guard_of_held hg) h

/-- C5 (as stated) fails: with `PRE_EXPAND`, `createContext` on the source
`spng` leaves an entry without `KEEP_OPEN` whose buffer is present while its
reference count is 0; and `loadImage` on the source `dir`, which the container
backend `dir` accepts without setting a buffer, leaves the reference count 1
with no buffer. -/
theorem buffer_iff_refcount_fails :
    (∃ s d, createContext demoEnv 0 (some [some "spng", none]) 1 demoEnv.PRE_EXPAND = .ok s ∧
      deref s 0 = some d ∧ hasFlag d.flags demoEnv.IMG_DATA_KEEP_OPEN = false ∧
      ¬ (d.data.isSome = true ↔ 0 < d.ref_count)) ∧
    (∃ s0 s r d, createContext demoEnv 0 (some [some "dir", none]) 1 0 = .ok s0 ∧
      loadImage demoEnv s0 (some 0) = .ok (r, s) ∧
      deref s 0 = some d ∧ hasFlag d.flags demoEnv.IMG_DATA_KEEP_OPEN = false ∧
      ¬ (d.data.isSome = true ↔ 0 < d.ref_count)) := by
  refine ⟨⟨_, _, rfl, rfl, rfl, by decide⟩, ⟨_, _, _, _, rfl, rfl, rfl, rfl, by decide⟩⟩

/-- C5 (amended): in every state reachable through `createContext`, `addFile`,
`addFromPipe`, `loadImage`, `closeImage(entry, 0)` and `openImage` when
`PRE_EXPAND` is not requested, a caller releases only an entry it holds, every
registry backend either fails or leaves a buffer, the pipe backend leaves no
buffer, and backends respect the frame, an entry without `KEEP_OPEN` has a
buffer if and only if its reference count is positive. -/
theorem reach_buffer_iff_refcount (E : Env) (hc : ∀ l ∈ E.img_loaders, OpenContract E l)
    (hpc : PipeContract E) (hcc : ∀ l, CloseContract E l) (s : St) (hr : Reach E s)
    (q : Addr) (d : ImageData) (hd : deref s q = some d)
    (hk : hasFlag d.flags E.IMG_DATA_KEEP_OPEN = false) :
    d.data.isSome = true ↔ 0 < d.ref_count :=
  ((Reach_inv E hc hpc hcc hr).1 q d hd hk).1

theorem fixed_open_frame (l : ImageLoader) (sys : Sys) (fd : Int) (p : Addr) (d : ImageData)
    (hd : sys.heap.getD p none = some d) :
    (∃ d1, (fixed_open l sys fd p).2.heap.getD p none = some d1 ∧
      ((fixed_open l sys fd p).1 = 0 → d1.data.isSome = true) ∧
      ((fixed_open l sys fd p).1 ≠ 0 → d1.data = d.data) ∧
      d1.ref_count = d.ref_count ∧ d1.flags = d.flags) ∧
    Frame fixedEnv p sys.heap sys.context.flags (fixed_open l sys fd p).2.heap
      (fixed_open l sys fd p).2.context.flags := by
  have hl := getD_lt hd
  unfold fixed_open
  by_cases hn : l.name = "stb_image"
  · simp only [hn, if_true, hd]
    exact ⟨⟨_, getD_set_same _ hl, fun _ => rfl, fun h => absurd rfl h, rfl, rfl⟩,
      Frame.set _ _ _ _ _⟩
  · simp only [hn, if_false]
    exact ⟨⟨d, hd, fun h => absurd h (by decide), fun _ => rfl, rfl, rfl⟩, Frame.refl _ _ _ _⟩

theorem fixedEnv_open (l : ImageLoader) : OpenContract fixedEnv l := by
  intro sys fd p d hd hnb
  obtain ⟨⟨d1, h1, h2, h3, h4, h5⟩, fr⟩ := fixed_open_frame l sys fd p d hd
  exact ⟨⟨d1, h1, h2, fun h => by rw [h3 h, hnb], h4, by rw [h5]⟩, fr⟩

theorem fixedEnv_pipe : PipeContract fixedEnv := by
  intro sys fd p d hd hnb
  obtain ⟨⟨d1, h1, _, h3, h4, h5⟩, fr⟩ := fixed_open_frame pipe_loader sys fd p d hd
  have hne : (fixed_open pipe_loader sys fd p).1 ≠ 0 := by
    unfold fixed_open
    rw [if_neg (by decide)]
    exact (by decide : (-1 : Int) ≠ 0)
  exact ⟨⟨d1, h1, by rw [h3 hne, hnb], h4, by rw [h5]⟩, fr⟩

theorem fixedEnv_close (l : ImageLoader) : CloseContract fixedEnv l := by
  intro sys p d hd
  have hl := getD_lt hd
  show (∃ d1, (demo_close l sys p).heap.getD p none = some d1 ∧ _) ∧
    Frame fixedEnv p sys.heap sys.context.flags (demo_close l sys p).heap
      (demo_close l sys p).context.flags
  unfold demo_close
  simp only [hd]
  exact ⟨⟨_, getD_set_same _ hl, rfl, rfl⟩, Frame.set _ _ _ _ _⟩

/-- Witness of C5 (amended): the entry of the collection created from the
name `a`, after one `loadImage`. -/
theorem reach_buffer_iff_refcount_witness :
    deref ctxA_loaded 0 = some ctxA_entry ∧
    hasFlag ctxA_entry.flags fixedEnv.IMG_DATA_KEEP_OPEN = false ∧
    (ctxA_entry.data.isSome = true ↔ 0 < ctxA_entry.ref_count) :=
  ⟨rfl, rfl,
    reach_buffer_iff_refcount fixedEnv (fun l _ => fixedEnv_open l) fixedEnv_pipe fixedEnv_close
      ctxA_loaded
      (Reach.loadImage ctxA 0 (some 0) ctxA_loaded
        (Reach.create 0 (some [some "a", none]) 1 0 ctxA rfl rfl) rfl)
      0 ctxA_entry rfl rfl⟩

/-! ### Compaction and navigation -/

theorem slot_getD_append_cons (W : List (Option Addr)) (a : Option Addr)
    (R : List (Option Addr)) : (W ++ a :: R).getD W.length none = a := by
  rw [List.getD_eq_getElem?_getD, List.getElem?_append_right (le_refl _)]
  simp

theorem removeInvalid_scan_spec (R : List (Option Addr)) :
    ∀ (X W : List (Option Addr)) (num fuel : Nat), (∀ x ∈ X, x.isSome = true) →
      X.length < num → X.length < fuel →
      removeInvalid_scan (W ++ (X ++ none :: R)) (W.length + num) fuel W.length
        = W.length + X.length := by
  intro X
  induction X with
  | nil =>
    intro W num fuel _ _ hf
    obtain ⟨f, rfl⟩ : ∃ f, fuel = f + 1 := ⟨fuel - 1, by simp at hf; omega⟩
    unfold removeInvalid_scan
    rw [List.nil_append, slot_getD_append_cons]
    simp
  | cons x X ih =>
    intro W num fuel hX hnum hf
    simp only [List.length_cons] at hnum hf
    obtain ⟨f, rfl⟩ : ∃ f, fuel = f + 1 := ⟨fuel - 1, by omega⟩
    unfold removeInvalid_scan
    have hx : x.isSome = true := hX x (List.mem_cons_self _ _)
    have hlt : W.length < W.length + num := by omega
    rw [List.cons_append, slot_getD_append_cons]
    simp only [hx, hlt, and_self, if_true]
    have := ih (W ++ [x]) (num - 1) f (fun y hy => hX y (List.mem_cons_of_mem _ hy))
      (by omega) (by omega)
    simp only [List.length_append, List.length_singleton, List.append_assoc,
      List.singleton_append] at this
    have e : W.length + 1 + (num - 1) = W.length + num := by omega
    rw [e] at this
    rw [this, List.length_cons]; omega

theorem removeInvalid_shift_spec (T : List (Option Addr)) :
    ∀ (Y X : List (Option Addr)) (a : Option Addr) (fuel : Nat), Y.length ≤ fuel →
      removeInvalid_shift (X.length + 1 + Y.length) fuel (X ++ a :: (Y ++ T)) X.length
        = (X ++ (Y ++ (a :: Y).getLast (List.cons_ne_nil _ _) :: T), X.length + Y.length) := by
  intro Y
  induction Y with
  | nil =>
    intro X a fuel _
    cases fuel with
    | zero => simp [removeInvalid_shift]
    | succ f => simp [removeInvalid_shift]
  | cons y Y ih =>
    intro X a fuel hf
    simp only [List.length_cons] at hf
    obtain ⟨f, rfl⟩ : ∃ f, fuel = f + 1 := ⟨fuel - 1, by omega⟩
    unfold removeInvalid_shift
    have hlt : X.length + 1 < X.length + 1 + (y :: Y).length := by simp
    rw [if_pos hlt]
    have hget : (X ++ a :: (y :: Y ++ T)).getD (X.length + 1) none = y := by
      have := slot_getD_append_cons (X ++ [a]) y (Y ++ T)
      simpa using this
    have hset : (X ++ a :: (y :: Y ++ T)).set X.length y = (X ++ [y]) ++ y :: (Y ++ T) := by
      simp [List.set_append_right]
    rw [hget, hset]
    have := ih (X ++ [y]) y f (by omega)
    simp only [List.length_append, List.length_singleton] at this
    have e : X.length + 1 + 1 + Y.length = X.length + 1 + (y :: Y).length := by
      simp only [List.length_cons]; omega
    rw [e] at this
    rw [this]
    simp [List.getLast_cons]
    omega

theorem removeInvalid_one_null (c : ImageContext) (X Y T : List (Option Addr))
    (hdata : c.data = X ++ none :: (Y ++ T)) (hnum : c.num = X.length + 1 + Y.length)
    (hX : ∀ x ∈ X, x.isSome = true) :
    slots (removeInvalid c) = X ++ Y ∧ (removeInvalid c).num = X.length + Y.length ∧
      (removeInvalid c).flags = c.flags ∧
      (removeInvalid c).data.length = c.data.length ∧
      (removeInvalid c).data.drop c.num = T := by
  have hscan := removeInvalid_scan_spec (Y ++ T) X [] c.num c.num hX (by omega) (by omega)
  simp only [List.nil_append, List.length_nil, Nat.zero_add] at hscan
  have hshift := removeInvalid_shift_spec T Y X none c.num (by omega)
  rw [← hnum, ← hdata] at hshift
  rw [← hdata] at hscan
  unfold removeInvalid
  dsimp only
  rw [hscan, hshift]
  dsimp only
  refine ⟨?_, rfl, rfl, ?_, ?_⟩
  · simp [slots, List.take_append_eq_append_take]
  · rw [hdata]; simp; omega
  · rw [hnum]
    have e : X.length + 1 + Y.length = X.length + (Y.length + 1) := by omega
    rw [e, List.drop_append]
    have e2 : Y ++ (none :: Y).getLast (List.cons_ne_nil _ _) :: T
        = (Y ++ [(none :: Y).getLast (List.cons_ne_nil _ _)]) ++ T := by simp
    rw [e2]
    have e3 : Y.length + 1 = (Y ++ [(none :: Y).getLast (List.cons_ne_nil _ _)]).length := by simp
    rw [e3, List.drop_left]

theorem removeInvalid_one_null_data (c : ImageContext) (X Y T : List (Option Addr))
    (hdata : c.data = X ++ none :: (Y ++ T)) (hnum : c.num = X.length + 1 + Y.length)
    (hX : ∀ x ∈ X, x.isSome = true) :
    ∃ l, (removeInvalid c).data = X ++ Y ++ l :: T := by
  have hscan := removeInvalid_scan_spec (Y ++ T) X [] c.num c.num hX (by omega) (by omega)
  simp only [List.nil_append, List.length_nil, Nat.zero_add] at hscan
  have hshift := removeInvalid_shift_spec T Y X none c.num (by omega)
  rw [← hnum, ← hdata] at hshift
  rw [← hdata] at hscan
  unfold removeInvalid
  dsimp only
  rw [hscan, hshift]
  exact ⟨(none :: Y).getLast (List.cons_ne_nil _ _), by simp⟩

theorem clear_map_not_mem (f : Addr) (L : List Addr) (h : f ∉ L) :
    (L.map some).map (fun x => if x = some f then none else x) = L.map some := by
  induction L with
  | nil => rfl
  | cons a L ih =>
    have ha : a ≠ f := fun e => h (by rw [e]; exact List.mem_cons_self _ _)
    have hL : f ∉ L := fun m => h (List.mem_cons_of_mem _ m)
    simp only [List.map_cons, Option.some.injEq, ha, if_false]
    rw [ih hL]

theorem clearSlots_spec (c : ImageContext) (A R : List Addr) (f : Addr)
    (T : List (Option Addr)) (hdata : c.data = (A ++ f :: R).map some ++ T)
    (hnum : c.num = (A ++ f :: R).length) (hnd : (A ++ f :: R).Nodup) :
    (clearSlots c f).data = A.map some ++ none :: (R.map some ++ T) ∧
      (clearSlots c f).num = c.num ∧ (clearSlots c f).flags = c.flags := by
  refine ⟨?_, rfl, rfl⟩
  have hA : f ∉ A := by
    intro m
    have := List.nodup_append.mp hnd
    exact this.2.2 m (List.mem_cons_self _ _) 
  have hR : f ∉ R := by
    have := (List.nodup_append.mp hnd).2.1
    exact (List.nodup_cons.mp this).1
  unfold clearSlots
  dsimp only
  have hlen : c.num = ((A ++ f :: R).map some).length := by rw [hnum]; simp
  rw [hdata, hlen, List.take_left, List.drop_left]
  rw [List.map_append, List.map_append, clear_map_not_mem f A hA]
  simp only [List.map_cons, if_true]
  rw [clear_map_not_mem f R hR]
  simp

theorem slot_at (c : ImageContext) (A R : List Addr) (f : Addr) (T : List (Option Addr))
    (hdata : c.data = (A ++ f :: R).map some ++ T) : slot c A.length = some f := by
  unfold slot
  rw [hdata, List.map_append, List.map_cons, List.append_assoc, List.cons_append]
  have := slot_getD_append_cons (A.map some) (some f) (R.map some ++ T)
  rwa [List.length_map] at this

theorem freeImageData_nobuf (E : Env) {s : St} {p : Addr} {d : ImageData}
    (hd : deref s p = some d) (hnb : d.data = none) :
    freeImageData E s (some p)
      = .ok ((St.mk { s.sys with heap := s.sys.heap.set p none }
          (s.trace ++ [Event.free p])).setContext (clearSlots s.sys.context p)) := by
  unfold freeImageData
  simp only [hd, hnb, Option.isSome_none, Bool.false_eq_true, if_false]

theorem openImage_step_fail (E : Env) (fuel : Nat) (s : St) (A R : List Addr) (f : Addr)
    (T : List (Option Addr)) (cur : Option Addr) (d : ImageData)
    (hdata : s.sys.context.data = (A ++ f :: R).map some ++ T)
    (hnum : s.sys.context.num = (A ++ f :: R).length)
    (hnd : (A ++ f :: R).Nodup)
    (hrem : hasFlag s.sys.context.flags E.REMOVE_INVALID = true)
    (hcur : cur ≠ some f) (hd : deref s f = some d) (hfail : failsAt E f d) :
    ∃ s1 l, openImage E (fuel + 1) s (A.length : Int) cur
        = openImage E fuel s1 (A.length : Int) cur ∧
      s1.sys.context.data = (A ++ R).map some ++ l :: T ∧
      s1.sys.context.num = (A ++ R).length ∧
      s1.sys.context.flags = s.sys.context.flags ∧
      deref s1 f = none ∧ ∀ q : Nat, q ≠ f → deref s1 q = deref s q := by
  obtain ⟨r, s2, d2, hload, hr, hctx2, hd2, hnb2, hoth2⟩ := hfail s hd
  have hslot : slot s.sys.context A.length = some f := slot_at _ A R f T hdata
  have hslot2 : slot s2.sys.context A.length = some f := by rw [hctx2]; exact hslot
  have hrange : 0 ≤ (A.length : Int) ∧ (A.length : Int) < (s.sys.context.num : Int) := by
    refine ⟨Int.natCast_nonneg _, ?_⟩
    rw [hnum]; simp
  have hnbuf : noBuffer s2 r = .ok true := by
    rcases hr with rfl | rfl
    · rfl
    · unfold noBuffer; simp only [hd2, hnb2]; rfl
  have hfree := freeImageData_nobuf E hd2 hnb2
  -- the context after destruction, slot clearing and compaction
  obtain ⟨hcl1, hcl2, hcl3⟩ := clearSlots_spec s2.sys.context A R f T (by rw [hctx2]; exact hdata)
    (by rw [hctx2]; exact hnum) hnd
  generalize hc3 : ({ clearSlots s2.sys.context f with
      data := (clearSlots s2.sys.context f).data.set A.length none } : ImageContext) = c3
  have hc3data : c3.data = A.map some ++ none :: (R.map some ++ T) := by
    rw [← hc3]
    show (clearSlots s2.sys.context f).data.set A.length none = _
    rw [hcl1]
    have : A.length = (A.map some).length := by simp
    rw [this, List.set_append_right _ _ (le_refl _)]
    simp
  have hc3num : c3.num = (A.map some).length + 1 + (R.map some).length := by
    rw [← hc3]
    show (clearSlots s2.sys.context f).num = _
    rw [hcl2, hctx2, hnum]; simp; omega
  have hc3flags : c3.flags = s.sys.context.flags := by
    rw [← hc3]
    show (clearSlots s2.sys.context f).flags = _
    rw [hcl3, hctx2]
  have hXsome : ∀ x ∈ A.map some, x.isSome = true := by
    intro x hx
    obtain ⟨a, _, rfl⟩ := List.mem_map.mp hx
    rfl
  obtain ⟨_, hrnum, hrflags, _, _⟩ :=
    removeInvalid_one_null c3 (A.map some) (R.map some) T hc3data hc3num hXsome
  obtain ⟨l, hrdata⟩ :=
    removeInvalid_one_null_data c3 (A.map some) (R.map some) T hc3data hc3num hXsome
  refine ⟨(St.mk { s2.sys with heap := s2.sys.heap.set f none }
      (s2.trace ++ [Event.free f])).setContext (removeInvalid c3), l, ?_, ?_, ?_, ?_, ?_, ?_⟩
  · rw [openImage, if_pos hrange]
    have hrem2 : hasFlag s2.sys.context.flags E.REMOVE_INVALID = true := by rw [hctx2]; exact hrem
    simp only [Int.toNat_ofNat, hslot, hcur, if_false, hload, hnbuf, hrem2,
      Bool.and_self, if_true, hslot2, hfree]
    simp only [St.setContext, hc3]
  · show (removeInvalid c3).data = _
    rw [hrdata]; simp
  · show (removeInvalid c3).num = _
    rw [hrnum]; simp
  · show (removeInvalid c3).flags = _
    rw [hrflags, hc3flags]
  · exact getD_set_none _ _
  · intro q hq
    show (s2.sys.heap.set f none).getD q none = _
    rw [getD_set_ne _ _ hq]
    exact hoth2 q hq

theorem openImage_step_ok (E : Env) (fuel : Nat) (s : St) (A B : List Addr) (g : Addr)
    (T : List (Option Addr)) (cur : Option Addr) (d : ImageData)
    (hdata : s.sys.context.data = (A ++ g :: B).map some ++ T)
    (hnum : s.sys.context.num = (A ++ g :: B).length)
    (hd : deref s g = some d) (hdec : decodesAt E g d)
    (hcur : ∀ c, cur = some c → ∃ dc, deref s c = some dc ∧
      (c = g → dc.data.isSome = true) ∧ (c ≠ g → releasable E c dc)) :
    ∃ s1, openImage E (fuel + 1) s (A.length : Int) cur = .ok (some g, s1) ∧
      s1.sys.context = s.sys.context ∧
      (∃ d1, deref s1 g = some d1 ∧ d1.data.isSome = true) ∧
      (∀ q : Nat, q ≠ g → cur ≠ some q → deref s1 q = deref s q) := by
  by_cases hcg : cur = some g
  · obtain ⟨dc, hdc, hbuf, _⟩ := hcur g hcg
    have hslot : slot s.sys.context A.length = some g := slot_at _ A B g T hdata
    have hrange : 0 ≤ (A.length : Int) ∧ (A.length : Int) < (s.sys.context.num : Int) := by
      refine ⟨Int.natCast_nonneg _, ?_⟩
      rw [hnum]; simp
    refine ⟨s, ?_, rfl, ⟨dc, hdc, hbuf rfl⟩, fun _ _ _ => rfl⟩
    rw [openImage, if_pos hrange]
    simp only [Int.toNat_ofNat, hslot, hcg, if_true]
  obtain ⟨s2, d2, hload, hctx2, hd2, hbuf2, hoth2⟩ := hdec s hd
  have hslot : slot s.sys.context A.length = some g := slot_at _ A B g T hdata
  have hrange : 0 ≤ (A.length : Int) ∧ (A.length : Int) < (s.sys.context.num : Int) := by
    refine ⟨Int.natCast_nonneg _, ?_⟩
    rw [hnum]; simp
  have hnbuf : noBuffer s2 (some g) = .ok false := by
    unfold noBuffer; simp only [hd2]
    cases hx : d2.data with
    | none => rw [hx] at hbuf2; exact absurd hbuf2 (by simp)
    | some x => rfl
  have hne : cur ≠ some g := hcg
  have hopen : openImage E (fuel + 1) s (A.length : Int) cur = openImage_tail E s2 cur (some g) := by
    rw [openImage, if_pos hrange]
    simp only [Int.toNat_ofNat, hslot, hne, if_false, hload, hnbuf, Bool.false_and,
      Bool.false_eq_true]
  cases cur with
  | none =>
    refine ⟨s2, ?_, hctx2, ⟨d2, hd2, hbuf2⟩, fun q hq _ => hoth2 q hq⟩
    rw [hopen]; rfl
  | some c =>
    have hcg1 : c ≠ g := fun e => hcg (by rw [e])
    obtain ⟨dc, hdc, _, hrel⟩ := hcur c rfl
    have hdc2 : deref s2 c = some dc := by rw [hoth2 c hcg1]; exact hdc
    obtain ⟨s3, dc3, hclose, hctx3, hdc3, hrc3, hoth3⟩ := hrel hcg1 s2 hdc2
    refine ⟨s3, ?_, by rw [hctx3, hctx2], ⟨d2, ?_, hbuf2⟩, ?_⟩
    · rw [hopen]; unfold openImage_tail; simp only [hclose]
    · rw [hoth3 g (Ne.symm hcg1)]; exact hd2
    · intro q hq hqc
      have hqc1 : q ≠ c := fun e => hqc (by rw [e])
      rw [hoth3 q hqc1, hoth2 q hq]

/-- A backend whose `img_open` on `p` always fails and changes neither heap
nor context. -/
theorem _loadImage_loop_all_fail (E : Env) (fd : Int) (p : Addr) (multi : Bool) :
    ∀ (tbl : List ImageLoader) (s : St),
      (∀ l ∈ tbl, ∀ sys, (E.img_open l sys fd p).1 ≠ 0 ∧
        (E.img_open l sys fd p).2.heap = sys.heap ∧
        (E.img_open l sys fd p).2.context = sys.context) →
      ∃ s2, _loadImage_loop E fd p multi tbl s = .ok (none, s2) ∧
        s2.sys.heap = s.sys.heap ∧ s2.sys.context = s.sys.context ∧
        closes s2.trace = closes s.trace := by
  intro tbl
  induction tbl with
  | nil => intro s _; exact ⟨s, rfl, rfl, rfl, rfl⟩
  | cons l tbl ih =>
    intro s h
    have h1 : ∀ l1 ∈ tbl, ∀ sys, (E.img_open l1 sys fd p).1 ≠ 0 ∧
        (E.img_open l1 sys fd p).2.heap = sys.heap ∧
        (E.img_open l1 sys fd p).2.context = sys.context :=
      fun l1 hl1 => h l1 (List.mem_cons_of_mem _ hl1)
    by_cases hsk : skipped multi fd l = true
    · rw [_loadImage_loop_skip E fd p multi l _ s hsk]
      exact ih s h1
    · have hsk : skipped multi fd l = false := by simpa using hsk
      obtain ⟨hret, hheap, hctx⟩ := h l (List.mem_cons_self _ _) s.sys
      rw [_loadImage_loop_try E fd p multi l _ s hsk, loadImageWithLoader_fail E s fd p l hret]
      simp only [hret, if_false]
      generalize hs1 : (if hasFlag l.flags NO_SEEK = false then
          ((St.mk (E.img_open l s.sys fd p).2
            (s.trace ++ [Event.img_open l fd p (E.img_open l s.sys fd p).1])).setWorld
              (E.sys_lseek (E.img_open l s.sys fd p).2.world fd)).log (.lseek fd)
        else St.mk (E.img_open l s.sys fd p).2
            (s.trace ++ [Event.img_open l fd p (E.img_open l s.sys fd p).1])) = s1
      have hs1f : s1.sys.heap = s.sys.heap ∧ s1.sys.context = s.sys.context ∧
          closes s1.trace = closes s.trace := by
        rw [← hs1]; split
        · exact ⟨hheap, hctx, by simp [St.log, St.setWorld, closes]⟩
        · exact ⟨hheap, hctx, by simp [closes]⟩
      obtain ⟨s2, hrun, hh2, hc2, ht2⟩ := ih s1 h1
      exact ⟨s2, hrun, by rw [hh2, hs1f.1], by rw [hc2, hs1f.2.1], by rw [ht2, hs1f.2.2]⟩

theorem loadImage_all_fail (E : Env) (p : Addr) (d : ImageData) (hnb : d.data = none)
    (h : ∀ l ∈ E.img_loaders, ∀ sys fd, (E.img_open l sys fd p).1 ≠ 0 ∧
      (E.img_open l sys fd p).2.heap = sys.heap ∧
      (E.img_open l sys fd p).2.context = sys.context)
    (s : St) (hd : deref s p = some d) :
    ∃ s1, loadImage E s (some p) = .ok (none, s1) ∧ s1.sys.heap = s.sys.heap ∧
      s1.sys.context = s.sys.context ∧ closes s1.trace = closes s.trace := by
  obtain ⟨fd, s0, hfd, hheap0, hctx0, _, hcl0⟩ := getFD_ok E hd
  obtain ⟨s2, hrun, hh2, hc2, ht2⟩ :=
    _loadImage_loop_all_fail E fd p false E.img_loaders s0 (fun l hl sys => h l hl sys fd)
  unfold loadImage
  simp only [hd, hnb, Option.isSome_none, Bool.false_eq_true, if_false, _loadImage, hfd, hrun]
  by_cases hfd1 : fd = -1
  · simp only [hfd1, ne_eq, not_true_eq_false, if_false]
    exact ⟨s2, rfl, by rw [hh2, hheap0], by rw [hc2, hctx0], by rw [ht2, hcl0]⟩
  · simp only [ne_eq, hfd1, not_false_eq_true, if_true]
    exact ⟨_, rfl, by rw [← hheap0, ← hh2]; rfl, by rw [← hctx0, ← hc2]; rfl,
      by rw [← hcl0, ← ht2]; simp [St.log, St.setWorld, closes]⟩

theorem failsAt_of_all_fail (E : Env) (p : Addr) (d : ImageData) (hnb : d.data = none)
    (h : ∀ l ∈ E.img_loaders, ∀ sys fd, (E.img_open l sys fd p).1 ≠ 0 ∧
      (E.img_open l sys fd p).2.heap = sys.heap ∧
      (E.img_open l sys fd p).2.context = sys.context) : failsAt E p d := by
  intro s hd
  obtain ⟨s1, hload, hheap, hctx, _⟩ := loadImage_all_fail E p d hnb h s hd
  refine ⟨none, s1, d, hload, Or.inl rfl, hctx, ?_, hnb, ?_⟩
  · show s1.sys.heap.getD p none = _
    rw [hheap]; exact hd
  · intro q _
    show s1.sys.heap.getD q none = _
    rw [hheap]; rfl

theorem addrEnv_fails (d : ImageData) (hnb : d.data = none) : failsAt addrEnv 1 d := by
  apply failsAt_of_all_fail addrEnv 1 d hnb
  intro l _ sys fd
  show (addr_open l sys fd 1).1 ≠ 0 ∧ (addr_open l sys fd 1).2.heap = sys.heap ∧
    (addr_open l sys fd 1).2.context = sys.context
  unfold addr_open
  rw [if_pos rfl]
  exact ⟨(by decide : (-1 : Int) ≠ 0), rfl, rfl⟩

theorem addrEnv_decodes (p : Addr) (id : Int) (name : String) (hp : p ≠ 1)
    (hname : name ≠ "nofile") : decodesAt addrEnv p (freshEntry id name) := by
  intro s hd
  have hl := deref_lt hd
  have hfd : getFD addrEnv s p
      = .ok (3, (s.setWorld s.sys.world).log (.sys_open name)) := by
    unfold getFD
    simp only [hd]
    show (if (-1 : Int) = -1 then _ else _) = _
    rw [if_pos rfl]
    show Except.ok ((if name = "nofile" then (-1 : Int) else 3), _) = _
    rw [if_neg hname]
    rfl
  generalize hs0 : (s.setWorld s.sys.world).log (Event.sys_open name) = s0 at hfd
  have hheap0 : s0.sys.heap = s.sys.heap := by rw [← hs0]; rfl
  have hctx0 : s0.sys.context = s.sys.context := by rw [← hs0]; rfl
  have hd0 : s0.sys.heap.getD p none = some (freshEntry id name) := by rw [hheap0]; exact hd
  have hopen : addr_open (CREATE_LOADER "stb_image") s0.sys 3 p
      = (0, { s0.sys with heap := s0.sys.heap.set p (some
          { freshEntry id name with data := some [1, 2, 3, 4], image_width := 1,
                                    image_height := 1 }) }) := by
    unfold addr_open
    rw [if_neg hp, hd0]
  obtain ⟨s1, d1, hload, _, hctx1, _, _, hd1, _, hsome1, hoth1⟩ :=
    loadImageWithLoader_success addrEnv s0 3 p (CREATE_LOADER "stb_image")
      (show (addr_open (CREATE_LOADER "stb_image") s0.sys 3 p).1 = 0 by rw [hopen])
      (show (addr_open (CREATE_LOADER "stb_image") s0.sys 3 p).2.heap.getD p none = some _ by
        rw [hopen]; exact getD_set_same _ (by rw [hheap0]; exact hl))
      (fun hf => absurd hf (show ¬ hasFlag 0 4 = true by decide))
  have hrun : _loadImage addrEnv s p false = .ok (some p, s1) := by
    unfold _loadImage
    rw [hfd]
    dsimp only
    rw [show addrEnv.img_loaders = [CREATE_LOADER "stb_image"] from rfl,
      _loadImage_loop_try addrEnv 3 p false _ _ s0 (by decide), hload]
    rfl
  refine ⟨store s1 p { d1 with ref_count := d1.ref_count + 1 }, _, ?_, ?_, deref_store_same _ hd1,
    ?_, ?_⟩
  · unfold loadImage
    simp only [hd, hrun, acquire_eq hd1]
    rfl
  · show s1.sys.context = _
    rw [hctx1]
    show (addr_open (CREATE_LOADER "stb_image") s0.sys 3 p).2.context = _
    rw [hopen]; exact hctx0
  · show d1.data.isSome = true
    rw [hsome1]; rfl
  · intro q hq
    rw [deref_store_ne _ _ hq, hoth1 q hq]
    show (addr_open (CREATE_LOADER "stb_image") s0.sys 3 p).2.heap.getD q none = _
    rw [hopen]
    show (s0.sys.heap.set p _).getD q none = _
    rw [getD_set_ne _ _ hq, hheap0]; rfl

theorem demo_close_spec (l : ImageLoader) (sys : Sys) (c : Addr) (d : ImageData)
    (hd : sys.heap.getD c none = some d) :
    demo_close l sys c = { sys with heap := sys.heap.set c (some { d with data := none }) } := by
  unfold demo_close; rw [hd]

theorem addrEnv_releasable (c : Addr) (id : Int) (name : String) :
    releasable addrEnv c (heldEntry id name) := by
  intro s hd
  have hl := deref_lt hd
  obtain ⟨s1, w, hclose, _, hdw, hrcw, _⟩ :=
    closeImage_release addrEnv hd rfl (show hasFlag 0 1 = false by decide) rfl rfl
      (demo_close_keeps (CREATE_LOADER "stb_image") c)
  obtain ⟨d0, hd0, hcase⟩ := closeImage_cases addrEnv hclose
  rw [hd] at hd0; cases hd0
  rcases hcase with ⟨_, l, d2, _, _, hd2, hs1⟩ | ⟨hcond, _⟩
  · have hst : (store s c { heldEntry id name with ref_count := (heldEntry id name).ref_count - 1 }).sys.heap.getD c none
        = some { heldEntry id name with ref_count := (heldEntry id name).ref_count - 1 } :=
      deref_store_same _ hd
    have hdc : addrEnv.img_close l = demo_close l := rfl
    rw [hdc, demo_close_spec l _ c _ hst] at hd2 hs1
    have hl2 : c < (store s c { heldEntry id name with
        ref_count := (heldEntry id name).ref_count - 1 }).sys.heap.length := by
      simp only [store, List.length_set]; exact hl
    rw [getD_set_same _ hl2] at hd2
    cases hd2
    refine ⟨s1, w, hclose, ?_, hdw, ?_, ?_⟩
    · rw [hs1]; rfl
    · rw [hrcw]; rfl
    · intro q hq
      rw [hs1, deref_store_ne _ _ hq]
      show ((store s c _).sys.heap.set c _).getD q none = _
      rw [getD_set_ne _ _ hq]
      exact deref_store_ne s _ hq
  · exact absurd (Or.inl ⟨rfl, (show hasFlag 0 1 = false by decide)⟩) hcond

theorem sortImages_swap_length (n : Nat) :
    ∀ (fuel i : Nat) (data : List (Option Addr)),
      (sortImages_swap n fuel i data).length = data.length := by
  intro fuel
  induction fuel with
  | zero => intro i data; rfl
  | succ fuel ih =>
    intro i data
    unfold sortImages_swap
    split
    · rw [ih]; simp
    · rfl

theorem getD_eq_of_lt (data : List (Option Addr)) (k : Nat) (h : k < data.length) :
    some (data.getD k none) = data[k]? := by
  rw [List.getD_eq_getElem?_getD, List.getElem?_eq_getElem h]; rfl

theorem sortImages_swap_get (n : Nat) :
    ∀ (fuel i : Nat) (data : List (Option Addr)), n ≤ data.length → n / 2 ≤ i + fuel →
      ∀ j : Nat, (sortImages_swap n fuel i data)[j]? =
        if (i ≤ j ∧ j < n / 2) ∨ (i ≤ n - 1 - j ∧ n - 1 - j < n / 2 ∧ j < n) then
          data[n - 1 - j]?
        else data[j]? := by
  intro fuel
  induction fuel with
  | zero =>
    intro i data _ hf j
    have : ¬ ((i ≤ j ∧ j < n / 2) ∨ (i ≤ n - 1 - j ∧ n - 1 - j < n / 2 ∧ j < n)) := by omega
    rw [if_neg this]; rfl
  | succ fuel ih =>
    intro i data hlen hf j
    unfold sortImages_swap
    by_cases hi : i < n / 2
    · rw [if_pos hi]
      have hlen1 : n ≤ ((data.set i (data.getD (n - 1 - i) none)).set (n - 1 - i)
          (data.getD i none)).length := by simpa using hlen
      rw [ih (i + 1) _ hlen1 (by omega) j]
      have hi1 : i < data.length := by omega
      have hi2 : n - 1 - i < data.length := by omega
      have hne : n - 1 - i ≠ i := by omega
      by_cases hj1 : j = i
      · subst hj1
        have c1 : ¬ ((j + 1 ≤ j ∧ j < n / 2) ∨ (j + 1 ≤ n - 1 - j ∧ n - 1 - j < n / 2 ∧ j < n)) := by
          omega
        have c2 : (j ≤ j ∧ j < n / 2) ∨ (j ≤ n - 1 - j ∧ n - 1 - j < n / 2 ∧ j < n) :=
          Or.inl ⟨le_refl _, hi⟩
        rw [if_neg c1, if_pos c2, List.getElem?_set_ne hne, List.getElem?_set, if_pos rfl,
          if_pos hi1]
        exact getD_eq_of_lt data _ hi2
      · by_cases hj2 : j = n - 1 - i
        · subst hj2
          have e : n - 1 - (n - 1 - i) = i := by omega
          have c1 : ¬ ((i + 1 ≤ n - 1 - i ∧ n - 1 - i < n / 2) ∨
              (i + 1 ≤ n - 1 - (n - 1 - i) ∧ n - 1 - (n - 1 - i) < n / 2 ∧ n - 1 - i < n)) := by
            omega
          have c2 : (i ≤ n - 1 - i ∧ n - 1 - i < n / 2) ∨
              (i ≤ n - 1 - (n - 1 - i) ∧ n - 1 - (n - 1 - i) < n / 2 ∧ n - 1 - i < n) :=
            Or.inr ⟨by omega, by omega, by omega⟩
          have hi3 : n - 1 - i < (data.set i (data.getD (n - 1 - i) none)).length := by
            simpa using hi2
          rw [if_neg c1, if_pos c2, e, List.getElem?_set, if_pos rfl, if_pos hi3]
          exact getD_eq_of_lt data _ hi1
        · have hcond : ((i + 1 ≤ j ∧ j < n / 2) ∨ (i + 1 ≤ n - 1 - j ∧ n - 1 - j < n / 2 ∧ j < n)) ↔
              ((i ≤ j ∧ j < n / 2) ∨ (i ≤ n - 1 - j ∧ n - 1 - j < n / 2 ∧ j < n)) := by omega
          have hset : ∀ k, k ≠ i → k ≠ n - 1 - i →
              ((data.set i (data.getD (n - 1 - i) none)).set (n - 1 - i) (data.getD i none))[k]?
                = data[k]? := by
            intro k h1 h2
            rw [List.getElem?_set_ne (Ne.symm h2), List.getElem?_set_ne (Ne.symm h1)]
          by_cases hc : (i ≤ j ∧ j < n / 2) ∨ (i ≤ n - 1 - j ∧ n - 1 - j < n / 2 ∧ j < n)
          · rw [if_pos (hcond.mpr hc), if_pos hc, hset _ (by omega) (by omega)]
          · rw [if_neg (fun h => hc (hcond.mp h)), if_neg hc, hset _ hj1 hj2]
    · rw [if_neg hi]
      have : ¬ ((i ≤ j ∧ j < n / 2) ∨ (i ≤ n - 1 - j ∧ n - 1 - j < n / 2 ∧ j < n)) := by omega
      rw [if_neg this]

theorem sortImages_swap_reverse (L T : List (Option Addr)) :
    sortImages_swap L.length L.length 0 (L ++ T) = L.reverse ++ T := by
  apply List.ext_getElem?
  intro j
  rw [sortImages_swap_get L.length L.length 0 (L ++ T) (by simp) (by omega) j]
  by_cases hj : j < L.length
  · have hk : L.length - 1 - j < L.length := by omega
    have hrhs : (L.reverse ++ T)[j]? = L[L.length - 1 - j]? := by
      rw [List.getElem?_append_left (by simpa using hj), List.getElem?_reverse hj]
    rw [hrhs]
    split
    · rw [List.getElem?_append_left hk]
    · rename_i hc
      have : j = L.length - 1 - j := by omega
      rw [List.getElem?_append_left hj]
      congr 1
  · have hc : ¬ ((0 ≤ j ∧ j < L.length / 2) ∨
        (0 ≤ L.length - 1 - j ∧ L.length - 1 - j < L.length / 2 ∧ j < L.length)) := by omega
    rw [if_neg hc]
    have hj1 : L.length ≤ j := by omega
    rw [List.getElem?_append_right hj1, List.getElem?_append_right (by simpa using hj1)]
    simp

theorem toInt32_small (x : Int) (h1 : -2147483648 ≤ x) (h2 : x < 2147483648) : toInt32 x = x := by
  unfold toInt32
  norm_num
  omega

theorem orderedInsert_congr {α : Type} (r r1 : α → α → Prop) [DecidableRel r] [DecidableRel r1]
    (a : α) : ∀ l : List α, (∀ b ∈ l, r a b ↔ r1 a b) →
      List.orderedInsert r a l = List.orderedInsert r1 a l := by
  intro l
  induction l with
  | nil => intro _; rfl
  | cons b l ih =>
    intro h
    have hb := h b (List.mem_cons_self _ _)
    have hl := ih (fun c hc => h c (List.mem_cons_of_mem _ hc))
    simp only [List.orderedInsert]
    by_cases hr : r a b
    · rw [if_pos hr, if_pos (hb.mp hr)]
    · rw [if_neg hr, if_neg (fun h1 => hr (hb.mpr h1)), hl]

theorem insertionSort_congr {α : Type} (r r1 : α → α → Prop) [DecidableRel r] [DecidableRel r1] :
    ∀ l : List α, (∀ a ∈ l, ∀ b ∈ l, r a b ↔ r1 a b) →
      List.insertionSort r l = List.insertionSort r1 l := by
  intro l
  induction l with
  | nil => intro _; rfl
  | cons a l ih =>
    intro h
    have hl := ih (fun x hx y hy => h x (List.mem_cons_of_mem _ hx) y (List.mem_cons_of_mem _ hy))
    simp only [List.insertionSort]
    rw [hl]
    apply orderedInsert_congr
    intro b hb
    have hb1 : b ∈ l := (List.perm_insertionSort r1 l).subset hb
    exact h a (List.mem_cons_self _ _) b (List.mem_cons_of_mem _ hb1)

theorem perm_map_some {l : List (Option Addr)} {ps : List Addr} (h : l.Perm (ps.map some)) :
    ∃ qs : List Addr, l = qs.map some ∧ qs.Perm ps := by
  refine ⟨l.map (fun q => q.getD 0), ?_, ?_⟩
  · rw [List.map_map]
    symm
    rw [← List.map_id l]
    rw [List.map_map]
    apply List.map_congr_left
    intro q hq
    have : q ∈ ps.map some := h.subset hq
    obtain ⟨p, _, rfl⟩ := List.mem_map.mp this
    rfl
  · have := h.map (fun q => q.getD 0)
    simpa [List.map_map, Function.comp_def] using this

theorem cmpSlots_compareId (s : St) {p q : Addr} {d e : ImageData}
    (hp : deref s p = some d) (hq : deref s q = some e)
    (hd : 0 ≤ d.id ∧ d.id < 2147483648) (he : 0 ≤ e.id ∧ e.id < 2147483648) :
    cmpSlots s compareId (some p) (some q) = slotId s (some p) - slotId s (some q) := by
  have h1 : cmpSlots s compareId (some p) (some q) = toInt32 (d.id - e.id) := by
    unfold cmpSlots compareId
    show (match deref s p, deref s q with
      | some x, some y => toInt32 (x.id - y.id)
      | _, _ => 0) = _
    rw [hp, hq]
  have h2 : slotId s (some p) = d.id := by
    unfold slotId
    show (((deref s p).map (fun d => d.id)).getD 0) = _
    rw [hp]; rfl
  have h3 : slotId s (some q) = e.id := by
    unfold slotId
    show (((deref s q).map (fun d => d.id)).getD 0) = _
    rw [hq]; rfl
  rw [h1, h2, h3]
  exact toInt32_small _ (by omega) (by omega)

theorem qsort_compareId (s : St) (ps : List Addr)
    (hvalid : ∀ p ∈ ps, ∃ d, deref s p = some d ∧ 0 ≤ d.id ∧ d.id < 2147483648)
    (hnd : (ps.map (fun p => slotId s (some p))).Nodup) :
    ∃ qs : List Addr, qsort (cmpSlots s compareId) (ps.map some) = qs.map some ∧ qs.Perm ps ∧
      (qs.map (fun p => slotId s (some p))).Sorted (fun a b => a < b) := by
  have hcongr : List.insertionSort (fun a b => cmpSlots s compareId a b ≤ 0) (ps.map some)
      = List.insertionSort (fun a b => slotId s a ≤ slotId s b) (ps.map some) := by
    apply insertionSort_congr
    intro a ha b hb
    obtain ⟨p, hp, rfl⟩ := List.mem_map.mp ha
    obtain ⟨q, hq, rfl⟩ := List.mem_map.mp hb
    obtain ⟨d, hd, hd1⟩ := hvalid p hp
    obtain ⟨e, he, he1⟩ := hvalid q hq
    rw [cmpSlots_compareId s hd he hd1 he1]
    omega
  haveI : IsTotal (Option Addr) (fun a b => slotId s a ≤ slotId s b) :=
    ⟨fun a b => le_total (slotId s a) (slotId s b)⟩
  haveI : IsTrans (Option Addr) (fun a b => slotId s a ≤ slotId s b) :=
    ⟨fun _ _ _ h1 h2 => le_trans h1 h2⟩
  have hsorted := List.sorted_insertionSort (fun a b => slotId s a ≤ slotId s b) (ps.map some)
  have hperm := List.perm_insertionSort (fun a b => slotId s a ≤ slotId s b) (ps.map some)
  obtain ⟨qs, hqs, hqperm⟩ := perm_map_some hperm
  refine ⟨qs, ?_, hqperm, ?_⟩
  · unfold qsort; rw [hcongr, hqs]
  · rw [hqs] at hsorted
    have hle : (qs.map (fun p => slotId s (some p))).Sorted (fun a b => a ≤ b) := by
      unfold List.Sorted at hsorted ⊢
      rw [List.pairwise_map] at hsorted ⊢
      exact hsorted
    have hnd1 : (qs.map (fun p => slotId s (some p))).Nodup :=
      (hqperm.map _).nodup_iff.mpr hnd
    exact hle.lt_of_le hnd1

theorem sort_func_loaded (E : Env) (hkeys : sortKeysOrdered E) :
    sort_func E E.IMG_SORT_LOADED = some compareId := by
  obtain ⟨h1, h2, h3⟩ := hkeys
  unfold sort_func
  rw [if_neg (by omega), if_neg (by omega), if_neg (by omega), if_pos rfl]

theorem sortImages_loaded (E : Env) (s : St) (ps : List Addr) (T : List (Option Addr))
    (type : Int) (hkeys : sortKeysOrdered E)
    (hdata : s.sys.context.data = ps.map some ++ T) (hnum : s.sys.context.num = ps.length)
    (hvalid : ∀ p ∈ ps, ∃ d, deref s p = some d ∧ 0 ≤ d.id ∧ d.id < 2147483648)
    (habs : type.natAbs = E.IMG_SORT_LOADED) :
    sortImages E s type = .ok (s.setContext { s.sys.context with
      data := if type < 0 then (qsort (cmpSlots s compareId) (ps.map some)).reverse ++ T
              else qsort (cmpSlots s compareId) (ps.map some) ++ T }) := by
  have hslots : slots s.sys.context = ps.map some := by
    unfold slots
    rw [hdata, hnum]
    have : ps.length = (ps.map some).length := by simp
    rw [this, List.take_left]
  have hdrop : s.sys.context.data.drop s.sys.context.num = T := by
    rw [hdata, hnum]
    have : ps.length = (ps.map some).length := by simp
    rw [this, List.drop_left]
  have hall : (slots s.sys.context).all (fun q => (q.bind (deref s)).isSome) = true := by
    rw [hslots, List.all_eq_true]
    intro q hq
    obtain ⟨p, hp, rfl⟩ := List.mem_map.mp hq
    obtain ⟨d, hd, _⟩ := hvalid p hp
    show (deref s p).isSome = true
    rw [hd]; rfl
  have hlen : ¬ s.sys.context.data.length < s.sys.context.num := by
    rw [hdata, hnum]; simp
  have hnostat : ¬ (hasFlag s.sys.context.flags E.LOAD_STATS = false ∧
      type.natAbs > E.IMG_SORT_NAME) := by
    rw [habs]; intro h; have := hkeys.1; omega
  have hqlen : (qsort (cmpSlots s compareId) (ps.map some)).length = s.sys.context.num := by
    unfold qsort
    rw [List.length_insertionSort, hnum]; simp
  have hcheck : ¬ (2 ≤ s.sys.context.num ∧
      ((slots s.sys.context).all (fun q => (q.bind (deref s)).isSome) = false ∨
        s.sys.context.data.length < s.sys.context.num)) := by
    rw [hall]; intro h; rcases h.2 with h1 | h1
    · exact absurd h1 (by decide)
    · exact hlen h1
  unfold sortImages
  rw [if_neg hnostat]
  dsimp only
  rw [if_neg hcheck, habs, sort_func_loaded E hkeys]
  dsimp only
  rw [hslots, hdrop]
  by_cases hneg : type < 0
  · rw [if_pos hneg, if_pos hneg, ← hqlen, sortImages_swap_reverse]
  · rw [if_neg hneg, if_neg hneg]

/-- C9: for a collection whose logical range holds the allocated entries `ps`
(no null slot) with pairwise distinct ids in the range of `int`, `sortImages`
with the load-order key, ascending, returns; the new logical range `qs` is a
permutation of `ps`, `num` and the heap are unchanged, and the ids along `qs`
are strictly increasing (creation order). -/
theorem sortImages_loaded_ascending (E : Env) (s : St) (ps : List Addr)
    (T : List (Option Addr)) (hkeys : sortKeysOrdered E)
    (hdata : s.sys.context.data = ps.map some ++ T) (hnum : s.sys.context.num = ps.length)
    (hvalid : ∀ p ∈ ps, ∃ d, deref s p = some d ∧ 0 ≤ d.id ∧ d.id < 2147483648)
    (hdistinct : (ps.map (fun p => slotId s (some p))).Nodup) :
    ∃ (s1 : St) (qs : List Addr), sortImages E s (E.IMG_SORT_LOADED : Int) = .ok s1 ∧
      slots s1.sys.context = qs.map some ∧ qs.Perm ps ∧
      s1.sys.context.num = s.sys.context.num ∧ s1.sys.heap = s.sys.heap ∧
      (qs.map (fun p => slotId s1 (some p))).Sorted (fun a b => a < b) := by
  obtain ⟨qs, hq, hperm, hsorted⟩ := qsort_compareId s ps hvalid hdistinct
  have hrun := sortImages_loaded E s ps T (E.IMG_SORT_LOADED : Int) hkeys hdata hnum hvalid
    (Int.natAbs_ofNat _)
  rw [if_neg (by omega), hq] at hrun
  refine ⟨_, qs, hrun, ?_, hperm, rfl, rfl, hsorted⟩
  show List.take s.sys.context.num (qs.map some ++ T) = _
  have : s.sys.context.num = (qs.map some).length := by rw [hnum, List.length_map, hperm.length_eq]
  rw [this, List.take_left]

/-- Witness of C9: ids 0, 1, 2 stored in the order 2, 0, 1. -/
theorem sortImages_loaded_ascending_witness :
    (sortImages demoEnv shuffled (demoEnv.IMG_SORT_LOADED : Int)).toOption.map slotIds
      = some [some 0, some 1, some 2] ∧
    ∃ (s1 : St) (qs : List Addr),
      sortImages demoEnv shuffled (demoEnv.IMG_SORT_LOADED : Int) = .ok s1 ∧
      slots s1.sys.context = qs.map some ∧ qs.Perm [2, 0, 1] ∧
      s1.sys.context.num = shuffled.sys.context.num ∧ s1.sys.heap = shuffled.sys.heap ∧
      (qs.map (fun p => slotId s1 (some p))).Sorted (fun a b => a < b) :=
  ⟨by decide,
    sortImages_loaded_ascending demoEnv shuffled [2, 0, 1] [] ⟨by decide, by decide, by decide⟩
      (by decide) (by decide) (by decide) (by decide)⟩

/-- C10 (as stated) fails when the load-order constant is 0, the value a C
enumeration gives its first member: `-IMG_SORT_LOADED` is then the same `type`
as `IMG_SORT_LOADED`, and `sortImages` produces the ascending order, not its
reverse. -/
theorem sortImages_descending_zero_key :
    (sortImages demoEnv shuffled (-(demoEnv.IMG_SORT_LOADED : Int))).toOption.map slotIds
      = some [some 0, some 1, some 2] ∧
    (sortImages demoEnv shuffled (demoEnv.IMG_SORT_LOADED : Int)).toOption.map slotIds
      = some [some 0, some 1, some 2] ∧
    ¬ ((sortImages demoEnv shuffled (-(demoEnv.IMG_SORT_LOADED : Int))).toOption.map slotIds
      = ((sortImages demoEnv shuffled (demoEnv.IMG_SORT_LOADED : Int)).toOption.map slotIds).map
          List.reverse) := by
  decide

/-- C10 (amended): when the load-order constant is not 0, `sortImages` with
`type = -IMG_SORT_LOADED` returns and its logical range is exactly the reverse
of the range `sortImages` with `type = IMG_SORT_LOADED` produces; the ids along
it are strictly decreasing. -/
theorem sortImages_loaded_descending (E : Env) (s : St) (ps : List Addr)
    (T : List (Option Addr)) (hkeys : sortKeysOrdered E) (hpos : 0 < E.IMG_SORT_LOADED)
    (hdata : s.sys.context.data = ps.map some ++ T) (hnum : s.sys.context.num = ps.length)
    (hvalid : ∀ p ∈ ps, ∃ d, deref s p = some d ∧ 0 ≤ d.id ∧ d.id < 2147483648)
    (hdistinct : (ps.map (fun p => slotId s (some p))).Nodup) :
    ∃ (s1 s2 : St) (qs : List Addr),
      sortImages E s (E.IMG_SORT_LOADED : Int) = .ok s1 ∧
      sortImages E s (-(E.IMG_SORT_LOADED : Int)) = .ok s2 ∧
      slots s1.sys.context = qs.map some ∧
      slots s2.sys.context = (slots s1.sys.context).reverse ∧ qs.Perm ps ∧
      s2.sys.context.num = s.sys.context.num ∧
      (qs.reverse.map (fun p => slotId s2 (some p))).Sorted (fun a b => a > b) := by
  obtain ⟨qs, hq, hperm, hsorted⟩ := qsort_compareId s ps hvalid hdistinct
  have hasc := sortImages_loaded E s ps T (E.IMG_SORT_LOADED : Int) hkeys hdata hnum hvalid
    (Int.natAbs_ofNat _)
  have hdesc := sortImages_loaded E s ps T (-(E.IMG_SORT_LOADED : Int)) hkeys hdata hnum hvalid
    (by rw [Int.natAbs_neg]; exact Int.natAbs_ofNat _)
  rw [if_neg (by omega), hq] at hasc
  rw [if_pos (by omega), hq] at hdesc
  have hlen : s.sys.context.num = (qs.map some).length := by
    rw [hnum, List.length_map, hperm.length_eq]
  have h1 : List.take s.sys.context.num (qs.map some ++ T) = qs.map some := by
    rw [hlen, List.take_left]
  have h2 : List.take s.sys.context.num ((qs.map some).reverse ++ T) = (qs.map some).reverse := by
    have : s.sys.context.num = ((qs.map some).reverse).length := by rw [List.length_reverse, hlen]
    rw [this, List.take_left]
  refine ⟨_, _, qs, hasc, hdesc, h1, ?_, hperm, rfl, ?_⟩
  · show List.take s.sys.context.num ((qs.map some).reverse ++ T)
      = (List.take s.sys.context.num (qs.map some ++ T)).reverse
    rw [h1, h2]
  · show ((qs.reverse).map (fun p => slotId s (some p))).Sorted (fun a b => a > b)
    rw [List.map_reverse]
    unfold List.Sorted at hsorted ⊢
    rw [List.pairwise_reverse]
    exact hsorted

/-- Witness of C10 (amended): ids 0, 1, 2 stored in the order 2, 0, 1, sort
constants numbered from 1. -/
theorem sortImages_loaded_descending_witness :
    (sortImages sortEnv shuffled (-(sortEnv.IMG_SORT_LOADED : Int))).toOption.map slotIds
      = some [some 2, some 1, some 0] ∧
    ∃ (s1 s2 : St) (qs : List Addr),
      sortImages sortEnv shuffled (sortEnv.IMG_SORT_LOADED : Int) = .ok s1 ∧
      sortImages sortEnv shuffled (-(sortEnv.IMG_SORT_LOADED : Int)) = .ok s2 ∧
      slots s1.sys.context = qs.map some ∧
      slots s2.sys.context = (slots s1.sys.context).reverse ∧ qs.Perm [2, 0, 1] ∧
      s2.sys.context.num = shuffled.sys.context.num ∧
      (qs.reverse.map (fun p => slotId s2 (some p))).Sorted (fun a b => a > b) :=
  ⟨by decide,
    sortImages_loaded_descending sortEnv shuffled [2, 0, 1] [] ⟨by decide, by decide, by decide⟩
      (by decide) (by decide) (by decide) (by decide) (by decide)⟩

/-! ### Comparators and stat metadata -/

/-- C11: the comparators return the `long` difference converted to `int`.  For
a 2 GiB file against an empty one `compareSize` is negative although the first
is larger, for a 4 GiB file it is 0 although the sizes differ; `compareMod`
does the same for times `2 ^ 31` and `2 ^ 32`.  `sortImages` ascending by size
(by modification time) leaves the pair `[2 ^ 31, 0]` in decreasing order. -/
theorem compare_truncates_difference :
    compareSize (statEntry 0 "big" 2147483648 0) (statEntry 1 "empty" 0 0) < 0 ∧
    compareSize (statEntry 0 "huge" 4294967296 0) (statEntry 1 "empty" 0 0) = 0 ∧
    compareMod (statEntry 0 "new" 0 2147483648) (statEntry 1 "old" 0 0) < 0 ∧
    compareMod (statEntry 0 "newer" 0 4294967296) (statEntry 1 "old" 0 0) = 0 ∧
    (sortImages demoEnv bigFiles (demoEnv.IMG_SORT_SIZE : Int)).toOption.map slotSizes
      = some [some 2147483648, some 0] ∧
    (sortImages demoEnv bigFiles (demoEnv.IMG_SORT_MOD : Int)).toOption.map slotTimes
      = some [some 2147483648, some 0] := by
  decide

/-! ### The registry table -/

/-- C17 (as stated) fails on the table: `dir`, a container backend, is the
first element, and `zip` stands before `imlib2`; so it is not the case that
every single-image backend precedes every container backend. -/
theorem img_loaders_not_single_first :
    ¬ singleFirst img_loaders ∧
    loaderIndex img_loaders "dir" < loaderIndex img_loaders "spng" ∧
    loaderIndex img_loaders "zip" < loaderIndex img_loaders "imlib2" := by
  unfold singleFirst
  decide

/-- C17 (amended): the table is `dir, spng, stb_image, zip, imlib2, curl`; the
container backends are exactly `dir`, `zip` and `curl`; `spng` and `stb_image`
precede `zip` and `curl`, `imlib2` precedes `curl`; `pipe_loader` is a container
backend that is not a member of the table, and no member has its name. -/
theorem img_loaders_order :
    img_loaders.map (fun l => l.name) = ["dir", "spng", "stb_image", "zip", "imlib2", "curl"] ∧
    img_loaders.map (fun l => hasFlag l.flags MULTI_LOADER) = [true, false, false, true, false, true] ∧
    loaderIndex img_loaders "spng" < loaderIndex img_loaders "zip" ∧
    loaderIndex img_loaders "stb_image" < loaderIndex img_loaders "zip" ∧
    loaderIndex img_loaders "imlib2" < loaderIndex img_loaders "curl" ∧
    hasFlag pipe_loader.flags MULTI_LOADER = true ∧
    pipe_loader ∉ img_loaders ∧ (∀ l ∈ img_loaders, l.name ≠ pipe_loader.name) ∧
    demoEnv.img_loaders = img_loaders := by
  decide

/-! ### Release of an entry owned by a container backend -/

/-- C20: the source `dir` is accepted by the container backend `dir`, whose
descriptor has no `img_close`; `openImage(context, 0, NULL)` returns the entry
with `ref_count` 1 and owner `dir`; stepping away with
`openImage(context, 1, entry)` reaches `closeImage(entry, 0)`, the count drops
to 0 and the call `data->loader->img_close(data)` goes through the `NULL`
member: undefined behaviour.  The direct call `closeImage(entry, 0)` does the
same. -/
theorem closeImage_container_null_close :
    dirOpened.toOption.map (fun r => r.1) = some (some 0) ∧
    (finalSt dirOpened).map (fun s => (deref s 0).map (fun d => (d.ref_count, d.loader, d.data)))
      = some (some (1, some (CREATE_PARENT_LOADER "dir" (MULTI_LOADER ||| NO_SEEK)), none)) ∧
    (CREATE_PARENT_LOADER "dir" (MULTI_LOADER ||| NO_SEEK)).has_close = false ∧
    isUB dirLeft = true ∧
    (finalSt dirOpened).map (fun s => isUB (closeImage demoEnv s 0 false)) = some true := by
  decide

/-! ### Compaction of a single gap -/

theorem removeInvalid_scan_full :
    ∀ (X W R : List (Option Addr)) (fuel : Nat), (∀ x ∈ X, x.isSome = true) →
      removeInvalid_scan (W ++ (X ++ R)) (W.length + X.length) fuel W.length
        ≤ W.length + X.length ∧
      (X.length ≤ fuel →
        removeInvalid_scan (W ++ (X ++ R)) (W.length + X.length) fuel W.length
          = W.length + X.length) := by
  intro X
  induction X with
  | nil =>
    intro W R fuel _
    cases fuel with
    | zero => simp [removeInvalid_scan]
    | succ f => simp [removeInvalid_scan]
  | cons x X ih =>
    intro W R fuel hX
    cases fuel with
    | zero => simp [removeInvalid_scan]
    | succ f =>
      unfold removeInvalid_scan
      have hx : x.isSome = true := hX x (List.mem_cons_self _ _)
      have hlt : W.length < W.length + (x :: X).length := by simp
      rw [List.cons_append, slot_getD_append_cons]
      simp only [hx, hlt, and_self, if_true]
      have := ih (W ++ [x]) R f (fun y hy => hX y (List.mem_cons_of_mem _ hy))
      simp only [List.length_append, List.length_singleton, List.append_assoc,
        List.singleton_append] at this
      have e : W.length + 1 + X.length = W.length + (x :: X).length := by
        simp only [List.length_cons]; omega
      rw [e] at this
      simp only [List.length_cons] at this ⊢
      exact ⟨this.1, fun h => this.2 (by omega)⟩

theorem removeInvalid_shift_done (num fuel : Nat) (data : List (Option Addr)) (i : Nat)
    (h : num ≤ i + 1) : removeInvalid_shift num fuel data i = (data, i) := by
  cases fuel with
  | zero => rfl
  | succ f =>
    unfold removeInvalid_shift
    rw [if_neg (by omega)]

theorem removeInvalid_no_null (c : ImageContext) (X T : List (Option Addr))
    (hdata : c.data = X ++ T) (hnum : c.num = X.length) (hX : ∀ x ∈ X, x.isSome = true) :
    removeInvalid c = c := by
  have hscan := (removeInvalid_scan_full X [] T c.num hX).2 (by simp [hnum])
  simp only [List.nil_append, List.length_nil, Nat.zero_add] at hscan
  rw [← hdata, ← hnum] at hscan
  unfold removeInvalid
  dsimp only
  rw [hscan, removeInvalid_shift_done c.num c.num c.data c.num (by omega)]

/-- C19: when the logical range `L` of the slot array holds `NULL` at position
`k` and nowhere else, `removeInvalid` leaves the range `L` with position `k`
erased (the slots before `k` stay, the slots after `k` move down by one) and
`num` one less; the slots beyond the old range and the flags are untouched.
When `L` holds no `NULL`, `removeInvalid` changes nothing. -/
theorem removeInvalid_single_gap (c : ImageContext) (L T : List (Option Addr))
    (hdata : c.data = L ++ T) (hnum : c.num = L.length) :
    (∀ k : Nat, k < L.length → L.getD k none = none →
      (∀ i : Nat, i < L.length → i ≠ k → (L.getD i none).isSome = true) →
        slots (removeInvalid c) = L.eraseIdx k ∧ (removeInvalid c).num + 1 = c.num ∧
        (∀ i : Nat, i < k → slot (removeInvalid c) i = slot c i) ∧
        (∀ i : Nat, k ≤ i → i + 1 < c.num → slot (removeInvalid c) i = slot c (i + 1)) ∧
        (removeInvalid c).data.drop c.num = T ∧ (removeInvalid c).flags = c.flags) ∧
    ((∀ x ∈ L, x.isSome = true) → removeInvalid c = c) := by
  refine ⟨?_, fun h => removeInvalid_no_null c L T hdata hnum h⟩
  intro k hk hnull hrest
  have hLk : L = L.take k ++ none :: L.drop (k + 1) := by
    have h1 : L[k]? = some none := by
      rw [List.getD_eq_getElem?_getD, List.getElem?_eq_getElem hk] at hnull
      rw [List.getElem?_eq_getElem hk]
      simpa using hnull
    have h2 : L[k] = none := by
      rw [List.getElem?_eq_getElem hk] at h1
      exact Option.some.inj h1
    conv_lhs => rw [← List.take_append_drop k L]
    rw [List.drop_eq_getElem_cons hk, h2]
  have hX : ∀ x ∈ L.take k, x.isSome = true := by
    intro x hx
    obtain ⟨i, hi, rfl⟩ := List.getElem_of_mem hx
    have hi1 : i < k := by
      have := hi; simp only [List.length_take] at this; omega
    have hi2 : i < L.length := by omega
    have := hrest i hi2 (by omega)
    rw [List.getD_eq_getElem?_getD, List.getElem?_eq_getElem hi2] at this
    rw [List.getElem_take]
    simpa using this
  have hlenX : (L.take k).length = k := by rw [List.length_take]; omega
  have hlenY : (L.drop (k + 1)).length = L.length - (k + 1) := by rw [List.length_drop]
  have hd : c.data = L.take k ++ none :: (L.drop (k + 1) ++ T) := by
    rw [hdata]
    conv_lhs => rw [hLk]
    simp
  have hn : c.num = (L.take k).length + 1 + (L.drop (k + 1)).length := by
    rw [hnum, hlenX, hlenY]; omega
  obtain ⟨h1, h2, h3, _, h5⟩ := removeInvalid_one_null c _ _ T hd hn hX
  have herase : L.eraseIdx k = L.take k ++ L.drop (k + 1) := List.eraseIdx_eq_take_drop_succ L k
  have hslots : ∀ i : Nat, i < (removeInvalid c).num →
      slot (removeInvalid c) i = (L.take k ++ L.drop (k + 1)).getD i none := by
    intro i hi
    have : (slots (removeInvalid c)).getD i none = slot (removeInvalid c) i := by
      unfold slots slot
      rw [List.getD_eq_getElem?_getD, List.getD_eq_getElem?_getD, List.getElem?_take_of_lt hi]
    rw [← this, h1]
  have hsl : ∀ i : Nat, i < L.length → slot c i = L.getD i none := by
    intro i hi
    unfold slot
    rw [hdata, List.getD_eq_getElem?_getD, List.getD_eq_getElem?_getD,
      List.getElem?_append_left hi]
  refine ⟨by rw [h1, herase], by rw [h2, hn]; omega, ?_, ?_, h5, h3⟩
  · intro i hi
    rw [hslots i (by rw [h2, hlenX]; omega), hsl i (by omega)]
    rw [List.getD_eq_getElem?_getD, List.getD_eq_getElem?_getD,
      List.getElem?_append_left (by rw [hlenX]; exact hi), List.getElem?_take_of_lt hi]
  · intro i hki hi
    rw [hnum] at hi
    rw [hslots i (by rw [h2, hlenX, hlenY]; omega), hsl (i + 1) hi]
    rw [List.getD_eq_getElem?_getD, List.getD_eq_getElem?_getD,
      List.getElem?_append_right (by rw [hlenX]; exact hki), hlenX, List.getElem?_drop]
    congr 2
    omega

/-- Witness of C19: the range `[a, NULL, b]` becomes `[a, b]`. -/
theorem removeInvalid_single_gap_witness :
    slots (removeInvalid gapContext) = [some 0, some 2] ∧
    removeInvalid denseContext = denseContext :=
  ⟨((removeInvalid_single_gap gapContext [some 0, none, some 2] [none] rfl rfl).1 1 (by decide)
        (by decide) (by decide)).1,
    (removeInvalid_single_gap denseContext [some 0, some 2] [] rfl rfl).2 (by decide)⟩

/-! ### Stat metadata -/

theorem fstats_append (a b : List Event) : fstats (a ++ b) = fstats a ++ fstats b := by
  simp [fstats, List.filterMap_append]

theorem getFD_eq (E : Env) {s : St} {p : Addr} {d : ImageData} (hd : deref s p = some d) :
    ∃ s1, getFD E s p = .ok ((fdOf E s d).1, s1) ∧ s1.sys.heap = s.sys.heap ∧
      s1.sys.context = s.sys.context ∧ s1.sys.world = (fdOf E s d).2 ∧
      fstats s1.trace = fstats s.trace := by
  unfold getFD fdOf
  simp only [hd]
  by_cases h : d.fd = -1
  · simp only [h, if_true]
    exact ⟨_, rfl, rfl, rfl, rfl, by simp [St.log, St.setWorld, fstats]⟩
  · simp only [h, if_false]
    exact ⟨_, rfl, rfl, rfl, rfl, rfl⟩

theorem loadStats_loaded (E : Env) {s : St} {p : Addr} {d : ImageData}
    (hd : deref s p = some d) (hl : d.stats_loaded = true) : loadStats E s p = .ok s := by
  unfold loadStats
  simp only [hd, hl, if_true]

theorem loadStats_query (E : Env) {s : St} {p : Addr} {d : ImageData}
    (hd : deref s p = some d) (hl : d.stats_loaded = false) :
    ∃ s1, loadStats E s p = .ok s1 ∧
      fstats s1.trace = fstats s.trace ++ [(fdOf E s d).1] ∧
      s1.sys.context = s.sys.context ∧ s1.sys.heap.length = s.sys.heap.length ∧
      (∀ q : Nat, q ≠ p → deref s1 q = deref s q) ∧
      deref s1 p = some (withStats d (E.sys_fstat (fdOf E s d).2 (fdOf E s d).1)) := by
  obtain ⟨s0, hfd, hheap, hctx, hw, htr⟩ := getFD_eq E hd
  have hd0 : deref s0 p = some d := by unfold deref; rw [hheap]; exact hd
  have hlen := deref_lt hd
  have htr2 : fstats (s0.log (.fstat (fdOf E s d).1)).trace
      = fstats s.trace ++ [(fdOf E s d).1] := by
    show fstats (s0.trace ++ [_]) = _
    rw [fstats_append, htr]; rfl
  have hq2 : ∀ q : Nat, deref (s0.log (.fstat (fdOf E s d).1)) q = deref s q := by
    intro q; unfold deref
    rw [show (s0.log (.fstat (fdOf E s d).1)).sys.heap = s.sys.heap from hheap]
  have hc2 : (s0.log (.fstat (fdOf E s d).1)).sys.context = s.sys.context := hctx
  have hh2 : (s0.log (.fstat (fdOf E s d).1)).sys.heap.length = s.sys.heap.length := by
    rw [show (s0.log (.fstat (fdOf E s d).1)).sys.heap = s.sys.heap from hheap]
  have hw2 : (s0.log (.fstat (fdOf E s d).1)).sys.world = (fdOf E s d).2 := hw
  unfold loadStats
  simp only [hd, hl, hfd, Bool.false_eq_true, if_false]
  generalize s0.log (.fstat (fdOf E s d).1) = s2 at htr2 hq2 hc2 hh2 hw2
  have hd2 : deref s2 p = some d := by rw [hq2]; exact hd
  rw [hw2]
  cases hr : E.sys_fstat (fdOf E s d).2 (fdOf E s d).1 with
  | none =>
    simp only [hd2, withStats]
    refine ⟨_, rfl, htr2, hc2, ?_, ?_, deref_store_same _ hd2⟩
    · simpa [store] using hh2
    · intro q hq
      rw [deref_store_ne _ _ hq, hq2]
  | some r =>
    obtain ⟨sz, mt⟩ := r
    simp only [setStats, hd2, withStats]
    rw [deref_store_same _ hd2]
    refine ⟨_, rfl, htr2, hc2, ?_, ?_, deref_store_same _ (deref_store_same _ hd2)⟩
    · simpa [store] using hh2
    · intro q hq
      rw [deref_store_ne _ _ hq, deref_store_ne _ _ hq, hq2]

/-- C16: for an allocated entry `d` at `p`: when `stats_loaded` is set,
`loadStats` returns the state unchanged (no stat query).  Otherwise it
returns, makes exactly one stat query, on the descriptor of `getFD`, and leaves
the entry as `withStats` says: `stats_loaded` set whether the query succeeds or
fails, size and modification time stored on success and as they were on
failure (zero when they were zero, as `addFile` leaves them); the context and
the other entries are unchanged.  A second `loadStats` changes nothing. -/
theorem loadStats_once (E : Env) (s : St) (p : Addr) (d : ImageData)
    (hd : deref s p = some d) :
    (d.stats_loaded = true → loadStats E s p = .ok s) ∧
    (d.stats_loaded = false →
      ∃ s1, loadStats E s p = .ok s1 ∧
        fstats s1.trace = fstats s.trace ++ [(fdOf E s d).1] ∧
        s1.sys.context = s.sys.context ∧
        (∀ q : Nat, q ≠ p → deref s1 q = deref s q) ∧
        deref s1 p = some (withStats d (E.sys_fstat (fdOf E s d).2 (fdOf E s d).1)) ∧
        (∀ sz mt, E.sys_fstat (fdOf E s d).2 (fdOf E s d).1 = some (sz, mt) →
          deref s1 p = some { d with size := sz, mod_time := mt, stats_loaded := true }) ∧
        (E.sys_fstat (fdOf E s d).2 (fdOf E s d).1 = none →
          deref s1 p = some { d with stats_loaded := true } ∧
          (d.size = 0 → d.mod_time = 0 →
            ∃ d1, deref s1 p = some d1 ∧ d1.size = 0 ∧ d1.mod_time = 0 ∧
              d1.stats_loaded = true))) ∧
    (∃ s1, loadStats E s p = .ok s1 ∧ loadStats E s1 p = .ok s1 ∧
      ∃ d1, deref s1 p = some d1 ∧ d1.stats_loaded = true) := by
  refine ⟨fun hl => loadStats_loaded E hd hl, ?_, ?_⟩
  · intro hl
    obtain ⟨s1, h1, h2, h3, _, h5, h6⟩ := loadStats_query E hd hl
    refine ⟨s1, h1, h2, h3, h5, h6, ?_, ?_⟩
    · intro sz mt hr
      rw [h6, hr]; rfl
    · intro hr
      rw [hr] at h6
      exact ⟨h6, fun hs hm => ⟨_, h6, hs, hm, rfl⟩⟩
  · cases hl : d.stats_loaded with
    | true =>
      have h := loadStats_loaded E hd hl
      exact ⟨s, h, h, d, hd, hl⟩
    | false =>
      obtain ⟨s1, h1, _, _, _, _, h6⟩ := loadStats_query E hd hl
      have hl1 : (withStats d (E.sys_fstat (fdOf E s d).2 (fdOf E s d).1)).stats_loaded = true := by
        unfold withStats
        cases E.sys_fstat (fdOf E s d).2 (fdOf E s d).1 with
        | none => rfl
        | some r => rfl
      exact ⟨s1, h1, loadStats_loaded E h6 hl1, _, h6, hl1⟩

/-- Witness of C16: the entry of `oneEntry` (as `addFile` creates it) in
`demoEnv`, where its name opens as descriptor 3 and `fstat` succeeds; and the
entry `createContext` makes for the name `nofile`, which does not open, so that
`fstat` fails. -/
theorem loadStats_once_witness :
    (loadStats demoEnv oneEntry 0).toOption.map (fun s => (fstats s.trace, slotSizes s, slotTimes s))
      = some ([3], [some 10], [some 20]) ∧
    (andThen (createContext demoEnv 0 (some [some "nofile", none]) 1 0)
        (fun s => loadStats demoEnv s 0)).toOption.map
        (fun s => (fstats s.trace, slotSizes s, slotTimes s,
          (deref s 0).map (fun d => d.stats_loaded)))
      = some ([-1], [some 0], [some 0], some true) ∧
    ∃ s1, loadStats demoEnv oneEntry 0 = .ok s1 ∧ loadStats demoEnv s1 0 = .ok s1 ∧
      ∃ d1, deref s1 0 = some d1 ∧ d1.stats_loaded = true :=
  ⟨by decide, by decide, (loadStats_once demoEnv oneEntry 0 _ rfl).2.2⟩

/-! ### Channel swap -/

theorem flipRedBlue_loop_val (n : Nat) (hfit : 4 * n < 2 ^ 31) :
    ∀ (fuel k : Nat) (raw : List Nat), n ≤ k + fuel → 4 * n ≤ raw.length →
      ∃ r, flipRedBlue_loop (4 * n) fuel (4 * k) raw = .ok r ∧ r.length = raw.length ∧
        ∀ j : Nat, r[j]? = if 4 * k ≤ j then swappedByte raw n j else raw[j]? := by
  intro fuel
  induction fuel with
  | zero =>
    intro k raw hk _
    refine ⟨raw, rfl, rfl, ?_⟩
    intro j
    unfold swappedByte
    split_ifs <;> first | rfl | omega
  | succ f ih =>
    intro k raw hk hl
    unfold flipRedBlue_loop
    by_cases hlt : 4 * k < 4 * n
    · have ha : 4 * k < raw.length := by omega
      have hb : 4 * k + 2 < raw.length := by omega
      have hc : 4 * k + 4 < 2 ^ 31 := by omega
      simp only [hlt, if_true, List.get?_eq_getElem?, List.getElem?_eq_getElem ha,
        List.getElem?_eq_getElem hb, hc]
      obtain ⟨r, hr, hlen, hval⟩ := ih (k + 1)
        ((raw.set (4 * k) raw[4 * k + 2]).set (4 * k + 2) raw[4 * k])
        (by omega) (by simpa using hl)
      have e : 4 * (k + 1) = 4 * k + 4 := by ring
      rw [e] at hr hval
      refine ⟨r, hr, by simpa using hlen, ?_⟩
      intro j
      rw [hval j]
      unfold swappedByte
      simp only [List.getElem?_set, List.length_set]
      by_cases h0 : j = 4 * k
      · subst h0
        have m0 : (4 * k) % 4 = 0 := by omega
        simp [m0, hlt, ha, List.getElem?_eq_getElem hb]
      · by_cases h2 : j = 4 * k + 2
        · subst h2
          have m2 : (4 * k + 2) % 4 = 2 := by omega
          have lt2 : 4 * k + 2 < 4 * n := by omega
          simp [m2, lt2, hb, List.getElem?_eq_getElem ha]
        · by_cases hj : 4 * k + 4 ≤ j
          · have hj0 : 4 * k ≤ j := by omega
            simp only [hj, hj0, if_true]
            by_cases hjn : j < 4 * n
            · simp only [hjn, if_true]
              by_cases m0 : j % 4 = 0
              · simp only [m0, if_true]
                rw [if_neg (by omega), if_neg (by omega)]
              · simp only [m0, if_false]
                by_cases m2 : j % 4 = 2
                · simp only [m2, if_true]
                  rw [if_neg (by omega), if_neg (by omega)]
                · simp only [m2, if_false]
                  rw [if_neg (by omega), if_neg (by omega)]
            · simp only [hjn, if_false]
              rw [if_neg (by omega), if_neg (by omega)]
          · simp only [hj, if_false]
            rw [if_neg (fun e => h2 e.symm), if_neg (fun e => h0 e.symm)]
            by_cases hj0 : 4 * k ≤ j
            · have hjn : j < 4 * n := by omega
              simp only [hj0, hjn, if_true]
              rw [if_neg (by omega), if_neg (by omega)]
            · simp only [hj0, if_false]
    · simp only [hlt, if_false]
      refine ⟨raw, rfl, rfl, ?_⟩
      intro j
      unfold swappedByte
      split_ifs <;> first | rfl | omega
theorem flipRedBlue_val {s : St} {p : Addr} {d : ImageData} {raw : List Nat} {n : Nat}
    (hd : deref s p = some d) (hraw : d.data = some raw)
    (hn : d.image_width * d.image_height = n) (hlen : raw.length = 4 * n)
    (hfit : 4 * n < 2 ^ 31) :
    ∃ r, flipRedBlue s p = .ok (store s p { d with data := some r }) ∧ r.length = raw.length ∧
      ∀ j : Nat, r[j]? = swappedByte raw n j := by
  unfold flipRedBlue
  simp only [hd]
  have e : flipLimit d = 4 * n := by
    unfold flipLimit
    rw [hn]
    omega
  rw [e]
  by_cases h0 : 4 * n = 0
  · simp only [h0, if_true]
    have hnil : raw = [] := List.length_eq_zero.mp (by omega)
    refine ⟨raw, ?_, rfl, ?_⟩
    · rw [← hraw]
      have : store s p d = s := by
        unfold store
        have hl := deref_lt hd
        have hg : s.sys.heap[p]? = some (some d) := by
          unfold deref at hd
          rw [List.getD_eq_getElem?_getD, List.getElem?_eq_getElem hl] at hd
          rw [List.getElem?_eq_getElem hl]
          simpa using hd
        have hs : s.sys.heap.set p (some d) = s.sys.heap := by
          apply List.ext_getElem?
          intro i
          rw [List.getElem?_set]
          by_cases hi : p = i
          · subst hi; simp [hl, hg]
          · simp [hi]
        rw [hs]
      exact congrArg Except.ok this.symm
    · intro j
      subst hnil
      unfold swappedByte
      split_ifs <;> simp
  · obtain ⟨r, hr, hl, hv⟩ := flipRedBlue_loop_val n hfit (4 * n) 0 raw (by omega) (by omega)
    simp only [h0, if_false, hraw]
    rw [Nat.mul_zero] at hr
    rw [hr]
    refine ⟨r, rfl, hl, ?_⟩
    intro j
    rw [hv j, if_pos (Nat.zero_le _)]

theorem hugeRaw_length : hugeRaw.length = 4 * (1073741824 * 1) := by
  unfold hugeRaw
  rw [List.length_cons, List.length_cons, List.length_cons, List.length_cons,
    List.length_replicate]

theorem hugeRaw_byte0 : hugeRaw[0]? = some 1 := by
  unfold hugeRaw
  exact List.getElem?_cons_zero

theorem hugeRaw_byte2 : hugeRaw[2]? = some 3 := by
  unfold hugeRaw
  rw [List.getElem?_cons_succ, List.getElem?_cons_succ]
  exact List.getElem?_cons_zero

theorem huge_dispatch :
    bufferAt 0 (loadImageWithLoader hugeEnv flipEntry 3 0 (CREATE_LOADER "spng"))
      = some hugeRaw := rfl

/-- C15 (as stated) fails for a wide image: for `2 ^ 30` by 1 pixels the loop
bound `image_width * image_height * 4` is `2 ^ 32`, which is 0 in 32 bits, so
the loop body never runs.  The backend leaves the buffer `hugeRaw` of `2 ^ 30`
pixels with first pixel `[1, 2, 3, 4]`, the flag is set on the entry, and the
dispatch leaves the buffer as decoded: byte 0 is 1, not the decoded byte 2. -/
theorem flip_wide_image_unswapped :
    hugeRaw.length = 4 * (1073741824 * 1) ∧
    hugeRaw[0]? = some 1 ∧ hugeRaw[2]? = some 3 ∧
    (deref flipEntry 0).map (fun d => hasFlag d.flags hugeEnv.IMG_DATA_FLIP_RED_BLUE)
      = some true ∧
    bufferAt 0 (loadImageWithLoader hugeEnv flipEntry 3 0 (CREATE_LOADER "spng"))
      = some hugeRaw ∧
    ¬ (∃ r, bufferAt 0 (loadImageWithLoader hugeEnv flipEntry 3 0 (CREATE_LOADER "spng"))
        = some r ∧ r[0]? = hugeRaw[2]?) := by
  refine ⟨hugeRaw_length, hugeRaw_byte0, hugeRaw_byte2, by decide, huge_dispatch, ?_⟩
  rintro ⟨r, hr, hb⟩
  rw [huge_dispatch] at hr
  cases hr
  rw [hugeRaw_byte0, hugeRaw_byte2] at hb
  exact absurd hb (by decide)

/-- C15 (amended): let the backend `l` report success on entry `p` and leave
it as `d` with a buffer `raw` of `width * height = n` pixels of 4 bytes, the
byte count `4 * n` below `2 ^ 31` (within the range of the `int` loop counter
and of the 32-bit loop bound).  With `IMG_DATA_FLIP_RED_BLUE`
set, `loadImageWithLoader` returns 0 and the entry is `d` with owner `l` and a
buffer `r` of the same length in which, for every pixel `px < n`, byte `4 px`
is the decoded byte `4 px + 2`, byte `4 px + 2` is the decoded byte `4 px`, and
bytes `4 px + 1` and `4 px + 3` are the decoded ones.  Without the flag the
entry is `d` with owner `l`, buffer as decoded. -/
theorem loadImageWithLoader_flip (E : Env) (s : St) (fd : Int) (p : Addr) (l : ImageLoader)
    (d : ImageData) (raw : List Nat) (n : Nat)
    (hret : (E.img_open l s.sys fd p).1 = 0)
    (hd : (E.img_open l s.sys fd p).2.heap.getD p none = some d)
    (hraw : d.data = some raw) (hn : d.image_width * d.image_height = n)
    (hlen : raw.length = 4 * n) (hfit : 4 * n < 2 ^ 31) :
    (hasFlag d.flags E.IMG_DATA_FLIP_RED_BLUE = true →
      ∃ s1 r, loadImageWithLoader E s fd p l = .ok (0, s1) ∧
        s1.trace = s.trace ++ [.img_open l fd p 0] ∧
        deref s1 p = some { d with loader := some l, data := some r } ∧
        r.length = raw.length ∧
        ∀ px : Nat, px < n →
          r[4 * px]? = raw[4 * px + 2]? ∧ r[4 * px + 2]? = raw[4 * px]? ∧
          r[4 * px + 1]? = raw[4 * px + 1]? ∧ r[4 * px + 3]? = raw[4 * px + 3]?) ∧
    (hasFlag d.flags E.IMG_DATA_FLIP_RED_BLUE = false →
      ∃ s1, loadImageWithLoader E s fd p l = .ok (0, s1) ∧
        s1.trace = s.trace ++ [.img_open l fd p 0] ∧
        deref s1 p = some { d with loader := some l } ∧
        (deref s1 p).bind (fun x => x.data) = some raw) := by
  have hd1 : deref (St.mk (E.img_open l s.sys fd p).2
      (s.trace ++ [.img_open l fd p 0])) p = some d := hd
  constructor
  · intro hflag
    unfold loadImageWithLoader
    simp only [hret, if_true, hd1, hflag]
    generalize hs1 : St.mk (E.img_open l s.sys fd p).2 (s.trace ++ [.img_open l fd p 0]) = s1
      at hd1 ⊢
    have hd2 : deref (store s1 p { d with loader := some l }) p
        = some { d with loader := some l } := deref_store_same _ hd1
    obtain ⟨r, hr, hl, hv⟩ := flipRedBlue_val hd2 hraw hn hlen hfit
    rw [hr]
    refine ⟨_, r, rfl, ?_, deref_store_same _ hd2, hl, ?_⟩
    · rw [← hs1]; rfl
    · intro px hpx
      have v0 := hv (4 * px)
      have v1 := hv (4 * px + 1)
      have v2 := hv (4 * px + 2)
      have v3 := hv (4 * px + 3)
      unfold swappedByte at v0 v1 v2 v3
      have m0 : (4 * px) % 4 = 0 := by omega
      have m1 : (4 * px + 1) % 4 = 1 := by omega
      have m2 : (4 * px + 2) % 4 = 2 := by omega
      have m3 : (4 * px + 3) % 4 = 3 := by omega
      rw [if_pos (by omega), m0, if_pos rfl] at v0
      rw [if_pos (by omega), m1, if_neg (by decide), if_neg (by decide)] at v1
      rw [if_pos (by omega), m2, if_neg (by decide), if_pos rfl] at v2
      rw [if_pos (by omega), m3, if_neg (by decide), if_neg (by decide)] at v3
      exact ⟨v0, by rw [v2]; rfl, v1, v3⟩
  · intro hflag
    unfold loadImageWithLoader
    simp only [hret, if_true, hd1, hflag, Bool.false_eq_true, if_false]
    refine ⟨_, rfl, rfl, deref_store_same _ hd1, ?_⟩
    rw [deref_store_same _ hd1]
    exact hraw

/-- Witness of C15 (amended): the `spng` backend of `demoEnv` decodes the entry of
`flipEntry` to the pixel `[1, 2, 3, 4]`; the dispatch leaves `[3, 2, 1, 4]`. -/
theorem loadImageWithLoader_flip_witness :
    bufferAt 0 (loadImageWithLoader demoEnv flipEntry 3 0 (CREATE_LOADER "spng"))
      = some [3, 2, 1, 4] ∧
    bufferAt 0 (loadImageWithLoader demoEnv spngEntry 3 0 (CREATE_LOADER "spng"))
      = some [1, 2, 3, 4] ∧
    ∃ s1 r, loadImageWithLoader demoEnv flipEntry 3 0 (CREATE_LOADER "spng") = .ok (0, s1) ∧
      s1.trace = flipEntry.trace ++ [.img_open (CREATE_LOADER "spng") 3 0 0] ∧
      deref s1 0 = some { zeroImageData with
        fd := -1, name := "spng", flags := 4, image_width := 1, image_height := 1,
        loader := some (CREATE_LOADER "spng"), data := some r } ∧
      r.length = [1, 2, 3, 4].length ∧
      ∀ px : Nat, px < 1 →
        r[4 * px]? = [1, 2, 3, 4][4 * px + 2]? ∧ r[4 * px + 2]? = [1, 2, 3, 4][4 * px]? ∧
        r[4 * px + 1]? = [1, 2, 3, 4][4 * px + 1]? ∧ r[4 * px + 3]? = [1, 2, 3, 4][4 * px + 3]? :=
  ⟨by decide, by decide,
    (loadImageWithLoader_flip demoEnv flipEntry 3 0 (CREATE_LOADER "spng")
      { zeroImageData with fd := -1, name := "spng", flags := 4, image_width := 1,
                           image_height := 1, data := some [1, 2, 3, 4] }
      [1, 2, 3, 4] 1 (by decide) (by decide) rfl rfl rfl (by decide)).1 (by decide)⟩

/-! ### Stat queries of `sortImages` -/

theorem sortImages_after_stats (E : Env) (s s1 : St) (ps : List Addr)
    (T : List (Option Addr)) (type : Int) (f : ImageData → ImageData → Int)
    (hstat : (if hasFlag s.sys.context.flags E.LOAD_STATS = false ∧
        type.natAbs > E.IMG_SORT_NAME then sortImages_stats E s.sys.context.num 0 s
      else .ok s) = .ok s1)
    (hctx : s1.sys.context = s.sys.context)
    (hdata : s.sys.context.data = ps.map some ++ T) (hnum : s.sys.context.num = ps.length)
    (hvalid : ∀ p ∈ ps, (deref s1 p).isSome = true)
    (hf : sort_func E type.natAbs = some f) :
    sortImages E s type = .ok (s1.setContext { s.sys.context with
      data := if type < 0 then (qsort (cmpSlots s1 f) (ps.map some)).reverse ++ T
              else qsort (cmpSlots s1 f) (ps.map some) ++ T }) := by
  have hslots : slots s.sys.context = ps.map some := by
    unfold slots
    rw [hdata, hnum]
    have : ps.length = (ps.map some).length := by simp
    rw [this, List.take_left]
  have hdrop : s.sys.context.data.drop s.sys.context.num = T := by
    rw [hdata, hnum]
    have : ps.length = (ps.map some).length := by simp
    rw [this, List.drop_left]
  have hall : (slots s.sys.context).all (fun q => (q.bind (deref s1)).isSome) = true := by
    rw [hslots, List.all_eq_true]
    intro q hq
    obtain ⟨p, hp, rfl⟩ := List.mem_map.mp hq
    exact hvalid p hp
  have hlen : ¬ s.sys.context.data.length < s.sys.context.num := by
    rw [hdata, hnum]; simp
  have hqlen : (qsort (cmpSlots s1 f) (ps.map some)).length = s.sys.context.num := by
    unfold qsort
    rw [List.length_insertionSort, hnum]; simp
  have hcheck : ¬ (2 ≤ s.sys.context.num ∧
      ((slots s.sys.context).all (fun q => (q.bind (deref s1)).isSome) = false ∨
        s.sys.context.data.length < s.sys.context.num)) := by
    rw [hall]; intro h; rcases h.2 with h1 | h1
    · exact absurd h1 (by decide)
    · exact hlen h1
  unfold sortImages
  rw [hstat]
  dsimp only
  rw [hctx, if_neg hcheck, hf]
  dsimp only
  rw [hslots, hdrop]
  by_cases hneg : type < 0
  · rw [if_pos hneg, if_pos hneg, ← hqlen, sortImages_swap_reverse]
  · rw [if_neg hneg, if_neg hneg]

theorem needsStats_eq {s : St} {p : Addr} {d : ImageData} (hd : deref s p = some d) :
    needsStats s p = !d.stats_loaded := by
  unfold needsStats; rw [hd]

theorem sortImages_stats_spec (E : Env) (T : List (Option Addr)) :
    ∀ (R W : List Addr) (s : St) (fuel : Nat),
      s.sys.context.data = (W ++ R).map some ++ T → s.sys.context.num = (W ++ R).length →
      R.Nodup → (∀ p ∈ R, (deref s p).isSome = true) → R.length ≤ fuel →
      ∃ s1, sortImages_stats E fuel W.length s = .ok s1 ∧
        s1.sys.context = s.sys.context ∧
        (fstats s1.trace).length = (fstats s.trace).length + (R.filter (needsStats s)).length ∧
        (∀ q : Nat, q ∉ R → deref s1 q = deref s q) ∧
        ∀ p ∈ R, ∃ d d1, deref s p = some d ∧ deref s1 p = some d1 ∧ d1.stats_loaded = true ∧
          (d.stats_loaded = true → d1 = d) ∧
          (d.stats_loaded = false → ∃ r, d1 = withStats d r) := by
  intro R
  induction R with
  | nil =>
    intro W s fuel _ hnum _ _ _
    have hnot : ¬ W.length < s.sys.context.num := by rw [hnum]; simp
    refine ⟨s, ?_, rfl, by simp, fun _ _ => rfl, fun p hp => absurd hp (List.not_mem_nil p)⟩
    cases fuel with
    | zero => rfl
    | succ f => unfold sortImages_stats; rw [if_neg hnot]
  | cons p R ih =>
    intro W s fuel hdata hnum hnd hvalid hfuel
    obtain ⟨f, rfl⟩ : ∃ f, fuel = f + 1 := ⟨fuel - 1, by simp at hfuel; omega⟩
    have hlt : W.length < s.sys.context.num := by rw [hnum]; simp
    have hslot : slot s.sys.context W.length = some p := by
      unfold slot
      rw [hdata, List.map_append, List.map_cons, List.append_assoc]
      have := slot_getD_append_cons (W.map some) (some p) (R.map some ++ T)
      simpa using this
    obtain ⟨d, hd⟩ := Option.isSome_iff_exists.mp (hvalid p (List.mem_cons_self _ _))
    have hpR : p ∉ R := (List.nodup_cons.mp hnd).1
    have hndR : R.Nodup := (List.nodup_cons.mp hnd).2
    -- the call of loadStats on `p`
    have hstep : ∃ s0, loadStats E s p = .ok s0 ∧ s0.sys.context = s.sys.context ∧
        (fstats s0.trace).length
          = (fstats s.trace).length + (if needsStats s p then 1 else 0) ∧
        (∀ q : Nat, q ≠ p → deref s0 q = deref s q) ∧
        ∃ d1, deref s0 p = some d1 ∧ d1.stats_loaded = true ∧
          (d.stats_loaded = true → d1 = d) ∧
          (d.stats_loaded = false → ∃ r, d1 = withStats d r) := by
      cases hl : d.stats_loaded with
      | true =>
        refine ⟨s, loadStats_loaded E hd hl, rfl, ?_, fun _ _ => rfl, d, hd, hl,
          fun _ => rfl, fun h => absurd h (by simp)⟩
        rw [needsStats_eq hd, hl]; rfl
      | false =>
        obtain ⟨s0, h1, h2, h3, _, h5, h6⟩ := loadStats_query E hd hl
        refine ⟨s0, h1, h3, ?_, h5, _, h6, ?_, fun h => absurd h (by simp), fun _ => ⟨_, rfl⟩⟩
        · rw [h2, needsStats_eq hd, hl]; simp
        · unfold withStats
          cases E.sys_fstat (fdOf E s d).2 (fdOf E s d).1 with
          | none => rfl
          | some r => rfl
    obtain ⟨s0, hs0, hc0, ht0, ho0, d1, hd1, hl1, hsame, hnew⟩ := hstep
    have hdata0 : s0.sys.context.data = ((W ++ [p]) ++ R).map some ++ T := by
      rw [hc0, hdata]; simp
    have hnum0 : s0.sys.context.num = ((W ++ [p]) ++ R).length := by
      rw [hc0, hnum]; simp
    have hvalid0 : ∀ q ∈ R, (deref s0 q).isSome = true := by
      intro q hq
      have hne : q ≠ p := fun e => hpR (e ▸ hq)
      rw [ho0 q hne]
      exact hvalid q (List.mem_cons_of_mem _ hq)
    obtain ⟨s1, hs1, hc1, ht1, ho1, hR1⟩ := ih (W ++ [p]) s0 f hdata0 hnum0 hndR hvalid0
      (by simp at hfuel; omega)
    have hfilter : R.filter (needsStats s0) = R.filter (needsStats s) := by
      apply List.filter_congr
      intro q hq
      have hne : q ≠ p := fun e => hpR (e ▸ hq)
      unfold needsStats
      rw [ho0 q hne]
    refine ⟨s1, ?_, by rw [hc1, hc0], ?_, ?_, ?_⟩
    · unfold sortImages_stats
      rw [if_pos hlt, hslot]
      simp only [hs0]
      have : (W ++ [p]).length = W.length + 1 := by simp
      rw [← this]
      exact hs1
    · rw [ht1, ht0, hfilter, List.filter_cons]
      by_cases hn : needsStats s p = true
      · simp [hn]; omega
      · simp [hn]
    · intro q hq
      have hne : q ≠ p := fun e => hq (e ▸ List.mem_cons_self _ _)
      have hqR : q ∉ R := fun h => hq (List.mem_cons_of_mem _ h)
      rw [ho1 q hqR, ho0 q hne]
    · intro q hq
      rcases List.mem_cons.mp hq with rfl | hqR
      · exact ⟨d, d1, hd, by rw [ho1 q hpR]; exact hd1, hl1, hsame, hnew⟩
      · have hne : q ≠ p := fun e => hpR (e ▸ hqR)
        obtain ⟨e, e1, he, he1, h3, h4, h5⟩ := hR1 q hqR
        exact ⟨e, e1, by rw [← ho0 q hne]; exact he, he1, h3, h4, h5⟩

theorem slots_sorted_perm (s1 : St) (c : ImageContext) (ps : List Addr) (T : List (Option Addr))
    (type : Int) (f : ImageData → ImageData → Int) (hnum : c.num = ps.length) :
    (slots { c with
      data := if type < 0 then (qsort (cmpSlots s1 f) (ps.map some)).reverse ++ T
              else qsort (cmpSlots s1 f) (ps.map some) ++ T }).Perm (ps.map some) := by
  have hq : (qsort (cmpSlots s1 f) (ps.map some)).Perm (ps.map some) := by
    unfold qsort; exact List.perm_insertionSort _ _
  have hlen : (qsort (cmpSlots s1 f) (ps.map some)).length = ps.length := by
    rw [hq.length_eq]; simp
  unfold slots
  by_cases hneg : type < 0
  · simp only [hneg, if_true]
    have : c.num = ((qsort (cmpSlots s1 f) (ps.map some)).reverse).length := by
      rw [List.length_reverse, hlen, hnum]
    rw [this, List.take_left]
    exact (List.reverse_perm _).trans hq
  · simp only [hneg, if_false]
    have : c.num = (qsort (cmpSlots s1 f) (ps.map some)).length := by rw [hlen, hnum]
    rw [this, List.take_left]
    exact hq

theorem addFile_stats_loaded (E : Env) {s s1 : St} {p : Addr}
    (hflag : hasFlag s.sys.context.flags E.LOAD_STATS = true)
    (hslot : slot s.sys.context s.sys.context.num = some p)
    (h : addFile_stats E s = .ok s1) :
    ∃ d1, deref s1 p = some d1 ∧ d1.stats_loaded = true := by
  unfold addFile_stats at h
  rw [if_pos hflag, hslot] at h
  dsimp only at h
  cases hd : deref s p with
  | none =>
    unfold loadStats at h
    rw [hd] at h
    exact absurd h (by simp)
  | some d =>
    cases hl : d.stats_loaded with
    | true =>
      rw [loadStats_loaded E hd hl] at h
      cases h
      exact ⟨d, hd, hl⟩
    | false =>
      obtain ⟨s2, h1, _, _, _, _, h6⟩ := loadStats_query E hd hl
      rw [h1] at h
      cases h
      refine ⟨_, h6, ?_⟩
      unfold withStats
      cases E.sys_fstat (fdOf E s d).2 (fdOf E s d).1 with
      | none => rfl
      | some r => rfl

/-- C12: for a collection whose logical range holds the distinct allocated
entries `ps` (no null slot), where a session with `LOAD_STATS` holds only
entries whose metadata is loaded (what `addFile` establishes under that flag),
and sort constants ordered as `sortImages` assumes.  With the name key, either
direction, `sortImages` returns, adds nothing to the trace (no stat query) and
leaves the heap, hence `stats_loaded`, size and modification time of every
entry, unchanged.  With the byte-size key, either direction, it returns, the
number of stat queries it adds is the number of entries whose `stats_loaded`
was false, an entry whose `stats_loaded` was true is unchanged, an entry whose
`stats_loaded` was false is as one `loadStats` query leaves it, and afterwards
every entry has `stats_loaded` true.  The range is a permutation of `ps`. -/
theorem sortImages_stat_queries (E : Env) (s : St) (ps : List Addr)
    (T : List (Option Addr)) (type : Int) (hkeys : sortKeysOrdered E)
    (hdata : s.sys.context.data = ps.map some ++ T) (hnum : s.sys.context.num = ps.length)
    (hnd : ps.Nodup) (hvalid : ∀ p ∈ ps, (deref s p).isSome = true)
    (hsession : hasFlag s.sys.context.flags E.LOAD_STATS = true →
      ∀ p ∈ ps, needsStats s p = false) :
    (type.natAbs = E.IMG_SORT_NAME →
      ∃ s1, sortImages E s type = .ok s1 ∧ s1.trace = s.trace ∧ s1.sys.heap = s.sys.heap ∧
        (slots s1.sys.context).Perm (ps.map some)) ∧
    (type.natAbs = E.IMG_SORT_SIZE →
      ∃ s1, sortImages E s type = .ok s1 ∧
        (fstats s1.trace).length
          = (fstats s.trace).length + (ps.filter (needsStats s)).length ∧
        (slots s1.sys.context).Perm (ps.map some) ∧
        ∀ p ∈ ps, ∃ d d1, deref s p = some d ∧ deref s1 p = some d1 ∧
          d1.stats_loaded = true ∧ (d.stats_loaded = true → d1 = d) ∧
          (d.stats_loaded = false → ∃ r, d1 = withStats d r)) := by
  obtain ⟨k1, k2, k3⟩ := hkeys
  constructor
  · intro habs
    have hf : sort_func E type.natAbs = some compareName := by
      unfold sort_func
      rw [habs, if_neg (by omega), if_neg (by omega), if_pos rfl]
    have hstat : (if hasFlag s.sys.context.flags E.LOAD_STATS = false ∧
        type.natAbs > E.IMG_SORT_NAME then sortImages_stats E s.sys.context.num 0 s
        else .ok s) = .ok s := by
      rw [if_neg (by rw [habs]; intro h; omega)]
    have hrun := sortImages_after_stats E s s ps T type compareName hstat rfl hdata hnum hvalid hf
    exact ⟨_, hrun, rfl, rfl, slots_sorted_perm s _ ps T type _ hnum⟩
  · intro habs
    have hf : sort_func E type.natAbs = some compareSize := by
      unfold sort_func
      rw [habs, if_pos rfl]
    by_cases hflag : hasFlag s.sys.context.flags E.LOAD_STATS = true
    · have hstat : (if hasFlag s.sys.context.flags E.LOAD_STATS = false ∧
          type.natAbs > E.IMG_SORT_NAME then sortImages_stats E s.sys.context.num 0 s
          else .ok s) = .ok s := by
        rw [if_neg (by rw [hflag]; simp)]
      have hrun := sortImages_after_stats E s s ps T type compareSize hstat rfl hdata hnum
        hvalid hf
      have hnone : ps.filter (needsStats s) = [] := by
        rw [List.filter_eq_nil_iff]
        intro p hp
        rw [hsession hflag p hp]; simp
      refine ⟨_, hrun, by rw [hnone]; rfl, slots_sorted_perm s _ ps T type _ hnum, ?_⟩
      intro p hp
      obtain ⟨d, hd⟩ := Option.isSome_iff_exists.mp (hvalid p hp)
      have hl : d.stats_loaded = true := by
        have := hsession hflag p hp
        rw [needsStats_eq hd] at this
        simpa using this
      exact ⟨d, d, hd, hd, hl, fun _ => rfl, fun h => absurd hl (by rw [h]; simp)⟩
    · have hflag0 : hasFlag s.sys.context.flags E.LOAD_STATS = false := by
        simpa using hflag
      obtain ⟨s1, hs1, hc1, ht1, _, hR1⟩ := sortImages_stats_spec E T ps [] s s.sys.context.num
        (by simpa using hdata) (by simpa using hnum) hnd hvalid (by rw [hnum])
      have hstat : (if hasFlag s.sys.context.flags E.LOAD_STATS = false ∧
          type.natAbs > E.IMG_SORT_NAME then sortImages_stats E s.sys.context.num 0 s
          else .ok s) = .ok s1 := by
        rw [if_pos ⟨hflag0, by rw [habs]; omega⟩]
        exact hs1
      have hvalid1 : ∀ p ∈ ps, (deref s1 p).isSome = true := by
        intro p hp
        obtain ⟨_, d1, _, hd1, _⟩ := hR1 p hp
        rw [hd1]; rfl
      have hrun := sortImages_after_stats E s s1 ps T type compareSize hstat hc1 hdata hnum
        hvalid1 hf
      exact ⟨_, hrun, ht1, slots_sorted_perm s1 _ ps T type _ hnum, hR1⟩

/-- Witness of C12: in `halfLoaded` (no `LOAD_STATS`) the first entry has its
metadata and the second has not: the size sort makes one stat query, the name
sort none; in `eagerLoaded` (`LOAD_STATS`) both have it and the size sort makes
no query. -/
theorem sortImages_stat_queries_witness :
    (fstats halfLoaded.trace).length = 1 ∧
    (sortImages demoEnv halfLoaded (-3)).toOption.map (fun s => (fstats s.trace).length)
      = some 2 ∧
    (sortImages demoEnv halfLoaded 1).toOption.map (fun s => (fstats s.trace).length)
      = some 1 ∧
    (fstats eagerLoaded.trace).length = 2 ∧
    (sortImages demoEnv eagerLoaded 3).toOption.map (fun s => (fstats s.trace).length)
      = some 2 ∧
    (∃ s1, sortImages demoEnv halfLoaded (-3) = .ok s1 ∧
      (fstats s1.trace).length
        = (fstats halfLoaded.trace).length + ([0, 1].filter (needsStats halfLoaded)).length ∧
      (slots s1.sys.context).Perm ([0, 1].map some) ∧
      ∀ p ∈ [0, 1], ∃ d d1, deref halfLoaded p = some d ∧ deref s1 p = some d1 ∧
        d1.stats_loaded = true ∧ (d.stats_loaded = true → d1 = d) ∧
        (d.stats_loaded = false → ∃ r, d1 = withStats d r)) :=
  ⟨by decide, by decide, by decide, by decide, by decide,
    (sortImages_stat_queries demoEnv halfLoaded [0, 1] [] (-3) ⟨by decide, by decide, by decide⟩
      (by decide) (by decide) (by decide) (by decide) (by decide)).2 (by decide)⟩

/-! ### Ids and the counter -/

theorem IdExt.same (a : Sys) : IdExt a a := by
  refine ⟨le_refl _, le_refl _, fun q d1 _ h => ⟨d1, h, rfl⟩, ?_, ?_⟩
  · intro q d1 hq h
    exact absurd (getD_lt h) (by omega)
  · intro q q1 d d1 hq _ h _
    exact absurd (getD_lt h) (by omega)

theorem IdExt.comp {a b c : Sys} (h1 : IdExt a b) (h2 : IdExt b c) : IdExt a c := by
  obtain ⟨c1, l1, o1, n1, m1⟩ := h1
  obtain ⟨c2, l2, o2, n2, m2⟩ := h2
  refine ⟨le_trans c1 c2, le_trans l1 l2, ?_, ?_, ?_⟩
  · intro q d2 hq h
    obtain ⟨d1, hd1, e1⟩ := o2 q d2 (by omega) h
    obtain ⟨d, hd, e⟩ := o1 q d1 hq hd1
    exact ⟨d, hd, by rw [e, e1]⟩
  · intro q d2 hq h
    by_cases hb : q < b.heap.length
    · obtain ⟨d1, hd1, e1⟩ := o2 q d2 hb h
      have := n1 q d1 hq hd1
      rw [← e1]
      exact ⟨this.1, lt_of_lt_of_le this.2 c2⟩
    · have := n2 q d2 (by omega) h
      exact ⟨le_trans c1 this.1, this.2⟩
  · intro q q1 d d1 hq hlt hd hd1
    by_cases hb1 : q1 < b.heap.length
    · obtain ⟨e, he, ee⟩ := o2 q d (by omega) hd
      obtain ⟨e1, he1, ee1⟩ := o2 q1 d1 hb1 hd1
      rw [← ee, ← ee1]
      exact m1 q q1 e e1 hq hlt he he1
    · by_cases hb : q < b.heap.length
      · obtain ⟨e, he, ee⟩ := o2 q d hb hd
        have h3 := n1 q e hq he
        have h4 := n2 q1 d1 (by omega) hd1
        rw [← ee]
        exact lt_of_lt_of_le h3.2 h4.1
      · exact m2 q q1 d d1 (by omega) hlt hd hd1

theorem IdInv.ext {a b : Sys} (hi : IdInv a) (h : IdExt a b) : IdInv b := by
  obtain ⟨h0, hb, ho⟩ := hi
  obtain ⟨c1, l1, o1, n1, m1⟩ := h
  refine ⟨le_trans h0 c1, ?_, ?_⟩
  · intro q d1 hd1
    by_cases hq : q < a.heap.length
    · obtain ⟨d, hd, e⟩ := o1 q d1 hq hd1
      have := hb q d hd
      rw [← e]
      exact ⟨this.1, lt_of_lt_of_le this.2 c1⟩
    · have := n1 q d1 (by omega) hd1
      exact ⟨le_trans h0 this.1, this.2⟩
  · intro q q1 d d1 hlt hd hd1
    by_cases hq1 : q1 < a.heap.length
    · obtain ⟨e, he, ee⟩ := o1 q d (by omega) hd
      obtain ⟨e1, he1, ee1⟩ := o1 q1 d1 hq1 hd1
      rw [← ee, ← ee1]
      exact ho q q1 e e1 hlt he he1
    · by_cases hq : q < a.heap.length
      · obtain ⟨e, he, ee⟩ := o1 q d hq hd
        have h3 := hb q e he
        have h4 := n1 q1 d1 (by omega) hd1
        rw [← ee]
        exact lt_of_lt_of_le h3.2 h4.1
      · exact m1 q q1 d d1 (by omega) hlt hd hd1

/-- A change that keeps the heap and the counter. -/
theorem IdExt.of_eq {a b : Sys} (hh : b.heap = a.heap)
    (hc : b.context.counter = a.context.counter) : IdExt a b := by
  have := IdExt.same a
  unfold IdExt at this ⊢
  rw [hh, hc]
  exact this

/-- Overwriting an allocated entry by one with the same id. -/
theorem IdExt.of_store {s : St} {p : Addr} {d : ImageData} (d1 : ImageData)
    (hd : deref s p = some d) (hid : d1.id = d.id) : IdExt s.sys (store s p d1).sys := by
  have hlen : (store s p d1).sys.heap.length = s.sys.heap.length := by
    unfold store; simp
  refine ⟨le_refl _, by rw [hlen], ?_, ?_, ?_⟩
  · intro q e1 _ h
    by_cases hq : q = p
    · subst hq
      have : (store s q d1).sys.heap.getD q none = some d1 := deref_store_same d1 hd
      rw [this] at h
      cases h
      exact ⟨d, hd, hid.symm⟩
    · have : (store s p d1).sys.heap.getD q none = s.sys.heap.getD q none :=
        deref_store_ne s d1 hq
      rw [this] at h
      exact ⟨e1, h, rfl⟩
  · intro q e1 hq h
    have := getD_lt h
    rw [hlen] at this
    omega
  · intro q q1 e e1 hq _ h _
    have := getD_lt h
    rw [hlen] at this
    omega

/-- Freeing an entry. -/
theorem IdExt.of_free (a : Sys) (p : Addr) : IdExt a { a with heap := a.heap.set p none } := by
  refine ⟨le_refl _, by simp, ?_, ?_, ?_⟩
  · intro q e1 _ h
    by_cases hq : q = p
    · subst hq
      rw [getD_set_none] at h
      exact absurd h (by simp)
    · rw [getD_set_ne _ _ hq] at h
      exact ⟨e1, h, rfl⟩
  · intro q e1 hq h
    have := getD_lt h
    simp at this
    omega
  · intro q q1 e e1 hq _ h _
    have := getD_lt h
    simp at this
    omega

/-- A change of one allocated entry that keeps its id. -/
theorem IdExt.of_edit {a b : Sys} {p : Nat} {d d1 : ImageData}
    (hc : b.context.counter = a.context.counter) (hl : b.heap.length = a.heap.length)
    (ho : ∀ q : Nat, q ≠ p → b.heap.getD q none = a.heap.getD q none)
    (hd : a.heap.getD p none = some d) (hd1 : b.heap.getD p none = some d1)
    (hid : d1.id = d.id) : IdExt a b := by
  refine ⟨by rw [hc], by rw [hl], ?_, ?_, ?_⟩
  · intro q e1 _ h
    by_cases hq : q = p
    · subst hq
      rw [hd1] at h
      cases h
      exact ⟨d, hd, hid.symm⟩
    · rw [ho q hq] at h
      exact ⟨e1, h, rfl⟩
  · intro q e1 hq h
    have := getD_lt h
    omega
  · intro q q1 e e1 hq _ h _
    have := getD_lt h
    omega

theorem getFD_ids (E : Env) {s s1 : St} {p : Addr} {fd : Int}
    (h : getFD E s p = .ok (fd, s1)) : IdExt s.sys s1.sys := by
  obtain ⟨hheap, hctx, _⟩ := getFD_inv E h
  exact IdExt.of_eq hheap (by rw [hctx])

theorem withStats_id (d : ImageData) (r : Option (Int × Int)) : (withStats d r).id = d.id := by
  unfold withStats
  cases r with
  | none => rfl
  | some v => rfl

theorem loadStats_ids (E : Env) {s s1 : St} {p : Addr} (h : loadStats E s p = .ok s1) :
    IdExt s.sys s1.sys := by
  cases hd : deref s p with
  | none =>
    unfold loadStats at h
    rw [hd] at h
    exact absurd h (by simp)
  | some d =>
    cases hl : d.stats_loaded with
    | true =>
      rw [loadStats_loaded E hd hl] at h
      cases h
      exact IdExt.same _
    | false =>
      obtain ⟨s2, h1, _, h3, h4, h5, h6⟩ := loadStats_query E hd hl
      rw [h1] at h
      cases h
      exact IdExt.of_edit (by rw [h3]) h4 h5 hd h6 (withStats_id _ _)

theorem flipRedBlue_ids {s s1 : St} {p : Addr} (h : flipRedBlue s p = .ok s1) :
    IdExt s.sys s1.sys := by
  obtain ⟨d, hd, hctx, _, x, hheap, _⟩ := flipRedBlue_inv h
  have hl := deref_lt hd
  have hd1 : s1.sys.heap.getD p none = some { d with data := x } := by
    rw [hheap]
    exact getD_set_same _ hl
  refine IdExt.of_edit (by rw [hctx]) (by rw [hheap]; simp) ?_ hd hd1 rfl
  intro q hq
  rw [hheap]
  exact getD_set_ne _ _ hq

theorem closeImage_ids (E : Env) (hE : IdContract E) {s s1 : St} {p : Addr} {force : Bool}
    (h : closeImage E s p force = .ok s1) : IdExt s.sys s1.sys := by
  obtain ⟨d, hd, hcase⟩ := closeImage_cases E h
  have h1 : IdExt s.sys (store s p { d with ref_count := d.ref_count - 1 }).sys :=
    IdExt.of_store _ hd rfl
  rcases hcase with ⟨_, l, d2, _, _, hd2, hs1⟩ | ⟨_, hs1⟩
  · have h2 := hE.2 l (store s p { d with ref_count := d.ref_count - 1 }).sys p
    have hd2' : deref (St.mk (E.img_close l (store s p { d with ref_count := d.ref_count - 1 }).sys p)
        (s.trace ++ [Event.img_close l p])) p = some d2 := hd2
    have h3 := IdExt.of_store { d2 with image_data := none, data := none } hd2' rfl
    rw [hs1]
    exact (h1.comp h2).comp h3
  · rw [hs1]; exact h1

theorem freeImageData_ids (E : Env) (hE : IdContract E) {s s1 : St} {q : Option Addr}
    (h : freeImageData E s q = .ok s1) : IdExt s.sys s1.sys := by
  unfold freeImageData at h
  cases q with
  | none => exact absurd h (by simp)
  | some p =>
    dsimp only at h
    cases hd : deref s p with
    | none => rw [hd] at h; exact absurd h (by simp)
    | some d =>
      rw [hd] at h
      dsimp only at h
      cases hr : (if d.data.isSome then closeImage E s p true else .ok s) with
      | error e => rw [hr] at h; exact absurd h (by simp)
      | ok s2 =>
        rw [hr] at h
        dsimp only at h
        have h2 : IdExt s.sys s2.sys := by
          by_cases hb : d.data.isSome = true
          · rw [if_pos hb] at hr
            exact closeImage_ids E hE hr
          · rw [if_neg hb] at hr
            cases hr
            exact IdExt.same _
        cases h
        exact h2.comp ((IdExt.of_free s2.sys p).comp (IdExt.of_eq rfl rfl))

theorem loadImageWithLoader_ids (E : Env) (hE : IdContract E) {s s1 : St} {fd : Int}
    {p : Addr} {l : ImageLoader} {r : Int} (h : loadImageWithLoader E s fd p l = .ok (r, s1)) :
    IdExt s.sys s1.sys := by
  have h0 := hE.1 l s.sys fd p
  unfold loadImageWithLoader at h
  dsimp only at h
  split at h
  · split at h
    · exact absurd h (by simp)
    · rename_i d hd
      have h1 := IdExt.of_store { d with loader := some l } hd rfl
      split at h
      · split at h
        · exact absurd h (by simp)
        · rename_i s3 h3
          cases h
          exact (h0.comp h1).comp (flipRedBlue_ids h3)
      · cases h
        exact h0.comp h1
  · cases h
    exact h0

theorem _loadImage_loop_ids (E : Env) (hE : IdContract E) (fd : Int) (p : Addr) (multi : Bool) :
    ∀ (tbl : List ImageLoader) (s s2 : St) (r : Option Addr),
      _loadImage_loop E fd p multi tbl s = .ok (r, s2) → IdExt s.sys s2.sys := by
  intro tbl
  induction tbl with
  | nil =>
    intro s s2 r h
    simp only [_loadImage_loop, Except.ok.injEq, Prod.mk.injEq] at h
    rw [← h.2]
    exact IdExt.same _
  | cons l tbl ih =>
    intro s s2 r h
    by_cases hsk : skipped multi fd l = true
    · rw [_loadImage_loop_skip E fd p multi l _ s hsk] at h
      exact ih s s2 r h
    · have hsk : skipped multi fd l = false := by simpa using hsk
      rw [_loadImage_loop_try E fd p multi l _ s hsk] at h
      cases hl : loadImageWithLoader E s fd p l with
      | error e => rw [hl] at h; exact absurd h (by simp)
      | ok v =>
        obtain ⟨ret, s1⟩ := v
        have h1 := loadImageWithLoader_ids E hE hl
        rw [hl] at h
        dsimp only at h
        by_cases hret : ret = 0
        · simp only [hret, if_true, Except.ok.injEq, Prod.mk.injEq] at h
          rw [← h.2]
          exact h1
        · simp only [hret, if_false] at h
          have h2 := ih _ s2 r h
          refine h1.comp (IdExt.comp ?_ h2)
          split
          · exact IdExt.of_eq rfl rfl
          · exact IdExt.same _

theorem _loadImage_ids (E : Env) (hE : IdContract E) {s s2 : St} {p : Addr} {multi : Bool}
    {r : Option Addr} (h : _loadImage E s p multi = .ok (r, s2)) : IdExt s.sys s2.sys := by
  unfold _loadImage at h
  cases hfd : getFD E s p with
  | error e => rw [hfd] at h; exact absurd h (by simp)
  | ok v =>
    obtain ⟨fd, s1⟩ := v
    have h1 := getFD_ids E hfd
    rw [hfd] at h
    dsimp only at h
    cases hl : _loadImage_loop E fd p multi E.img_loaders s1 with
    | error e => rw [hl] at h; exact absurd h (by simp)
    | ok w =>
      obtain ⟨r1, s3⟩ := w
      have h2 := _loadImage_loop_ids E hE fd p multi _ _ _ _ hl
      rw [hl] at h
      cases r1 with
      | some q =>
        cases h
        exact h1.comp h2
      | none =>
        dsimp only at h
        split at h
        · cases h
          exact (h1.comp h2).comp (IdExt.of_eq rfl rfl)
        · cases h
          exact h1.comp h2

theorem acquire_ids {s s1 : St} {p : Addr} {r : Option Addr}
    (h : acquire s p = .ok (r, s1)) : IdExt s.sys s1.sys := by
  unfold acquire at h
  split at h
  · exact absurd h (by simp)
  · rename_i d hd
    cases h
    exact IdExt.of_store _ hd rfl

theorem loadImage_ids (E : Env) (hE : IdContract E) {s s1 : St} {q r : Option Addr}
    (h : loadImage E s q = .ok (r, s1)) : IdExt s.sys s1.sys := by
  unfold loadImage at h
  cases q with
  | none => exact absurd h (by simp)
  | some p =>
    dsimp only at h
    split at h
    · exact absurd h (by simp)
    · split at h
      · exact acquire_ids h
      · cases hl : _loadImage E s p false with
        | error e => rw [hl] at h; exact absurd h (by simp)
        | ok w =>
          obtain ⟨r1, s2⟩ := w
          have h1 := _loadImage_ids E hE hl
          rw [hl] at h
          cases r1 with
          | some x => exact h1.comp (acquire_ids h)
          | none =>
            cases h
            exact h1

theorem openImage_tail_ids (E : Env) (hE : IdContract E) {s s1 : St}
    {cur data r : Option Addr} (h : openImage_tail E s cur data = .ok (r, s1)) :
    IdExt s.sys s1.sys := by
  unfold openImage_tail at h
  cases cur with
  | none =>
    cases h
    exact IdExt.same _
  | some c =>
    dsimp only at h
    cases hc : closeImage E s c false with
    | error e => rw [hc] at h; exact absurd h (by simp)
    | ok s2 =>
      rw [hc] at h
      cases h
      exact closeImage_ids E hE hc

theorem openImage_ids (E : Env) (hE : IdContract E) :
    ∀ (fuel : Nat) (s s1 : St) (index : Int) (cur r : Option Addr),
      openImage E fuel s index cur = .ok (r, s1) → IdExt s.sys s1.sys := by
  intro fuel
  induction fuel with
  | zero =>
    intro s s1 index cur r h
    exact absurd h (by simp [openImage])
  | succ n ih =>
    intro s s1 index cur r h
    unfold openImage at h
    split at h
    · split at h
      · cases h
        exact IdExt.same _
      · cases hl : loadImage E s (slot s.sys.context index.toNat) with
        | error e => rw [hl] at h; exact absurd h (by simp)
        | ok w =>
          obtain ⟨data, s2⟩ := w
          have h1 := loadImage_ids E hE hl
          rw [hl] at h
          dsimp only at h
          split at h
          · exact absurd h (by simp)
          · split at h
            · cases hf : freeImageData E s2 (slot s2.sys.context index.toNat) with
              | error e => rw [hf] at h; exact absurd h (by simp)
              | ok s3 =>
                have h2 := freeImageData_ids E hE hf
                rw [hf] at h
                dsimp only at h
                have h3 := ih _ s1 index cur r h
                exact (h1.comp h2).comp (IdExt.comp (IdExt.of_eq rfl rfl) h3)
            · exact h1.comp (openImage_tail_ids E hE h)
    · exact openImage_tail_ids E hE h

theorem addFile_grow_counter (c : ImageContext) : (addFile_grow c).counter = c.counter := by
  unfold addFile_grow
  split <;> rfl

theorem addFile_alloc_ids {s s1 : St} {name : String} {p : Addr}
    (h : addFile_alloc s name = .ok (p, s1)) : IdExt s.sys s1.sys := by
  unfold addFile_alloc at h
  dsimp only at h
  split at h
  · cases h
    have hc := addFile_grow_counter s.sys.context
    refine ⟨?_, by simp, ?_, ?_, ?_⟩
    · show s.sys.context.counter ≤ (addFile_grow s.sys.context).counter + 1
      rw [hc]; omega
    · intro q d1 hq hd1
      refine ⟨d1, ?_, rfl⟩
      rw [← hd1]
      show s.sys.heap.getD q none = (s.sys.heap ++ [_]).getD q none
      rw [List.getD_eq_getElem?_getD, List.getD_eq_getElem?_getD, List.getElem?_append_left hq]
    · intro q d1 hq hd1
      have hlt := getD_lt hd1
      simp only [List.length_append, List.length_singleton] at hlt
      have hqe : q = s.sys.heap.length := by omega
      subst hqe
      have : (s.sys.heap ++ [some { zeroImageData with
          fd := -1, id := (addFile_grow s.sys.context).counter, name := name }]).getD
            s.sys.heap.length none = some { zeroImageData with
          fd := -1, id := (addFile_grow s.sys.context).counter, name := name } := by
        rw [List.getD_eq_getElem?_getD, List.getElem?_append_right (le_refl _)]
        simp
      have hd1' : (s.sys.heap ++ [some { zeroImageData with
          fd := -1, id := (addFile_grow s.sys.context).counter, name := name }]).getD
            s.sys.heap.length none = some d1 := hd1
      rw [this] at hd1'
      cases hd1'
      show s.sys.context.counter ≤ (addFile_grow s.sys.context).counter ∧
        (addFile_grow s.sys.context).counter < (addFile_grow s.sys.context).counter + 1
      rw [hc]
      omega
    · intro q q1 d d1 hq hlt _ hd1
      have := getD_lt hd1
      simp only [List.length_append, List.length_singleton] at this
      omega
  · exact absurd h (by simp)

theorem addFile_ids (E : Env) (hE : IdContract E) {s s1 : St} {name : String} {p : Addr}
    (h : addFile E s name = .ok (p, s1)) : IdExt s.sys s1.sys := by
  unfold addFile at h
  cases ha : addFile_alloc s name with
  | error e => rw [ha] at h; exact absurd h (by simp)
  | ok v =>
    obtain ⟨p1, sa⟩ := v
    have h1 := addFile_alloc_ids ha
    rw [ha] at h
    dsimp only at h
    cases hs : addFile_stats E sa with
    | error e => rw [hs] at h; exact absurd h (by simp)
    | ok sb =>
      have h2 : IdExt sa.sys sb.sys := by
        unfold addFile_stats at hs
        split at hs
        · split at hs
          · exact absurd hs (by simp)
          · exact loadStats_ids E hs
        · cases hs
          exact IdExt.same _
      rw [hs] at h
      dsimp only at h
      cases hx : addFile_expand E sb with
      | error e => rw [hx] at h; exact absurd h (by simp)
      | ok sc =>
        have h3 : IdExt sb.sys sc.sys := by
          unfold addFile_expand at hx
          split at hx
          · split at hx
            · exact absurd hx (by simp)
            · rename_i q hq
              cases hl : _loadImage E sb q true with
              | error e => rw [hl] at hx; exact absurd hx (by simp)
              | ok w =>
                obtain ⟨r, sd⟩ := w
                rw [hl] at hx
                cases hx
                exact _loadImage_ids E hE hl
          · cases hx
            exact IdExt.same _
        rw [hx] at h
        cases h
        exact ((h1.comp h2).comp h3).comp (IdExt.of_eq rfl rfl)

theorem addFromPipe_ids (E : Env) (hE : IdContract E) {s s1 : St} {fd : Int} {name : String}
    {r : Int} (h : addFromPipe E s fd name = .ok (r, s1)) : IdExt s.sys s1.sys := by
  unfold addFromPipe at h
  cases ha : addFile E s name with
  | error e => rw [ha] at h; exact absurd h (by simp)
  | ok v =>
    obtain ⟨p, sa⟩ := v
    rw [ha] at h
    exact (addFile_ids E hE ha).comp (loadImageWithLoader_ids E hE h)

theorem createContext_loop_ids (E : Env) (hE : IdContract E) (num : Int) :
    ∀ (names : List (Option String)) (i : Nat) (s s1 : St),
      createContext_loop E num names i s = .ok s1 → IdExt s.sys s1.sys := by
  intro names
  induction names with
  | nil =>
    intro i s s1 h
    unfold createContext_loop at h
    split at h
    · exact absurd h (by simp)
    · cases h
      exact IdExt.same _
  | cons x rest ih =>
    intro i s s1 h
    unfold createContext_loop at h
    split at h
    · cases x with
      | none =>
        cases h
        exact IdExt.same _
      | some nm =>
        dsimp only at h
        split at h
        · cases ha : addFromPipe E s STDIN_FILENO "stdin" with
          | error e => rw [ha] at h; exact absurd h (by simp)
          | ok v =>
            obtain ⟨r, sa⟩ := v
            rw [ha] at h
            exact (addFromPipe_ids E hE ha).comp (ih _ _ _ h)
        · cases ha : addFile E s nm with
          | error e => rw [ha] at h; exact absurd h (by simp)
          | ok v =>
            obtain ⟨r, sa⟩ := v
            rw [ha] at h
            exact (addFile_ids E hE ha).comp (ih _ _ _ h)
    · cases h
      exact IdExt.same _

theorem createContext_ids (E : Env) (hE : IdContract E) {world : Nat}
    {names : Option (List (Option String))} {num : Int} {flags : Nat} {s : St}
    (h : createContext E world names num flags = .ok s) : IdInv s.sys := by
  have hinit : ∀ (size : Int), IdInv
      { context := { data := [], num := 0, size := size, counter := 0, flags := flags },
        heap := [], world := world } := by
    intro size
    refine ⟨le_refl _, ?_, ?_⟩
    · intro q d hd
      exact absurd (getD_lt hd) (by simp)
    · intro q q1 d d1 _ hd _
      exact absurd (getD_lt hd) (by simp)
  unfold createContext at h
  dsimp only at h
  cases names with
  | none =>
    cases h
    exact hinit _
  | some l =>
    dsimp only at h
    exact (hinit _).ext (createContext_loop_ids E hE num l 0 _ _ h)

theorem sortImages_stats_ids (E : Env) :
    ∀ (fuel i : Nat) (s s1 : St), sortImages_stats E fuel i s = .ok s1 →
      IdExt s.sys s1.sys := by
  intro fuel
  induction fuel with
  | zero =>
    intro i s s1 h
    cases h
    exact IdExt.same _
  | succ n ih =>
    intro i s s1 h
    unfold sortImages_stats at h
    split at h
    · split at h
      · exact absurd h (by simp)
      · rename_i p hp
        cases hl : loadStats E s p with
        | error e => rw [hl] at h; exact absurd h (by simp)
        | ok s2 =>
          rw [hl] at h
          exact (loadStats_ids E hl).comp (ih _ _ _ h)
    · cases h
      exact IdExt.same _

theorem sortImages_ids (E : Env) {s s1 : St} {type : Int}
    (h : sortImages E s type = .ok s1) : IdExt s.sys s1.sys := by
  unfold sortImages at h
  dsimp only at h
  split at h
  · exact absurd h (by simp)
  · rename_i s2 hs2
    have h1 : IdExt s.sys s2.sys := by
      split at hs2
      · exact sortImages_stats_ids E _ _ _ _ hs2
      · cases hs2
        exact IdExt.same _
    split at h
    · exact absurd h (by simp)
    · split at h
      · split at h
        · exact absurd h (by simp)
        · cases h
          exact h1
      · cases h
        exact h1.comp (IdExt.of_eq rfl rfl)

theorem Run_ids (E : Env) (hE : IdContract E) {s0 s : St} (h : Run E s0 s) :
    IdExt s0.sys s.sys := by
  induction h with
  | start => exact IdExt.same _
  | addFile s name p s1 _ h ih => exact ih.comp (addFile_ids E hE h)
  | addFromPipe s fd name r s1 _ h ih => exact ih.comp (addFromPipe_ids E hE h)
  | freeImageData s q s1 _ h ih => exact ih.comp (freeImageData_ids E hE h)
  | removeInvalid s _ ih => exact ih.comp (IdExt.of_eq rfl rfl)
  | sortImages s type s1 _ h ih => exact ih.comp (sortImages_ids E h)
  | openImage fuel s index cur r s1 _ h ih => exact ih.comp (openImage_ids E hE fuel _ _ _ _ _ h)

theorem IdExt.of_set (a : Sys) {p : Nat} {d : ImageData} (d1 : ImageData)
    (hd : a.heap.getD p none = some d) (hid : d1.id = d.id) :
    IdExt a { a with heap := a.heap.set p (some d1) } :=
  IdExt.of_edit rfl (by simp) (fun _ hq => getD_set_ne _ _ hq) hd
    (getD_set_same _ (getD_lt hd)) hid

theorem demoEnv_ids : IdContract demoEnv := by
  constructor
  · intro l sys fd p
    show IdExt sys (demo_open l sys fd p).2
    unfold demo_open
    split
    · exact IdExt.same _
    · rename_i d hd
      split
      · split
        · exact IdExt.same _
        · exact IdExt.of_set sys _ hd rfl
      · exact IdExt.same _
  · intro l sys p
    show IdExt sys (demo_close l sys p)
    unfold demo_close
    split
    · exact IdExt.same _
    · rename_i d hd
      exact IdExt.of_set sys _ hd rfl

/-- C13: let the backends obey `IdContract`, let `s0` be made by
`createContext`, `s` be reached from `s0` and `s1` from `s` by `addFile`,
`addFromPipe`, `freeImageData`, `removeInvalid`, `sortImages` and `openImage`,
with the counter of `s1` at most `2 ^ 31`.  Then in `s1` two different entries
have different ids; every id is at least 0, below the counter and within
`int`; an entry allocated later has a strictly larger id.  From `s` to `s1` the
counter did not go down, an entry that survived kept its id, and every entry
created after `s` has an id at or above the counter of `s`, hence above every
id that was ever given out up to `s`, destroyed entries included. -/
theorem ids_unique_increasing (E : Env) (hE : IdContract E) (world : Nat)
    (names : Option (List (Option String))) (num : Int) (flags : Nat) (s0 s s1 : St)
    (h0 : createContext E world names num flags = .ok s0) (h1 : Run E s0 s) (h2 : Run E s s1)
    (hbound : s1.sys.context.counter ≤ 2147483648) :
    (∀ (q q1 : Nat) (d d1 : ImageData), q ≠ q1 → deref s1 q = some d →
      deref s1 q1 = some d1 → d.id ≠ d1.id) ∧
    (∀ (q : Nat) (d : ImageData), deref s1 q = some d →
      0 ≤ d.id ∧ d.id < s1.sys.context.counter ∧ d.id < 2147483648) ∧
    (∀ (q q1 : Nat) (d d1 : ImageData), q < q1 → deref s1 q = some d →
      deref s1 q1 = some d1 → d.id < d1.id) ∧
    s.sys.context.counter ≤ s1.sys.context.counter ∧
    (∀ (q : Nat) (d1 : ImageData), q < s.sys.heap.length → deref s1 q = some d1 →
      ∃ d, deref s q = some d ∧ d.id = d1.id) ∧
    (∀ (q : Nat) (d1 : ImageData), s.sys.heap.length ≤ q → deref s1 q = some d1 →
      s.sys.context.counter ≤ d1.id ∧
      ∀ (q0 : Nat) (d0 : ImageData), deref s q0 = some d0 → d0.id < d1.id) := by
  have hs : IdInv s.sys := (createContext_ids E hE h0).ext (Run_ids E hE h1)
  have hext : IdExt s.sys s1.sys := Run_ids E hE h2
  have hs1 : IdInv s1.sys := hs.ext hext
  obtain ⟨_, hb1, ho1⟩ := hs1
  obtain ⟨_, hb, _⟩ := hs
  obtain ⟨hc, _, hold, hnew, _⟩ := hext
  refine ⟨?_, ?_, ho1, hc, hold, ?_⟩
  · intro q q1 d d1 hne hd hd1
    rcases Nat.lt_or_gt_of_ne hne with hlt | hgt
    · exact ne_of_lt (ho1 q q1 d d1 hlt hd hd1)
    · exact ne_of_gt (ho1 q1 q d1 d hgt hd1 hd)
  · intro q d hd
    have := hb1 q d hd
    exact ⟨this.1, this.2, lt_of_lt_of_le this.2 hbound⟩
  · intro q d1 hq hd1
    have h3 := hnew q d1 hq hd1
    refine ⟨h3.1, ?_⟩
    intro q0 d0 hd0
    exact lt_of_lt_of_le (hb q0 d0 hd0).2 h3.1

/-- Witness of C13: sources `a`, `b` (ids 0, 1); `a` is destroyed and its slot
compacted away; the source `c` added next gets id 2, not the freed id 0. -/
theorem ids_unique_increasing_witness :
    slotIds twoNames = [some 0, some 1] ∧ slotIds twoNames_freed = [some 1] ∧
    slotIds twoNames_added = [some 1, some 2] ∧
    twoNames_freed.sys.context.counter ≤ twoNames_added.sys.context.counter ∧
    (∀ (q : Nat) (d1 : ImageData), twoNames_freed.sys.heap.length ≤ q →
      deref twoNames_added q = some d1 →
      twoNames_freed.sys.context.counter ≤ d1.id ∧
      ∀ (q0 : Nat) (d0 : ImageData), deref twoNames_freed q0 = some d0 → d0.id < d1.id) :=
  ⟨by decide, by decide, by decide,
    (ids_unique_increasing demoEnv demoEnv_ids 0 (some [some "a", some "b", none]) 2 0
      twoNames twoNames_freed twoNames_added rfl
      (Run.removeInvalid _ (Run.freeImageData twoNames (some 0) _ Run.start rfl))
      (Run.addFile twoNames_freed "c" 2 _ Run.start rfl) (by decide)).2.2.2.1,
    (ids_unique_increasing demoEnv demoEnv_ids 0 (some [some "a", some "b", none]) 2 0
      twoNames twoNames_freed twoNames_added rfl
      (Run.removeInvalid _ (Run.freeImageData twoNames (some 0) _ Run.start rfl))
      (Run.addFile twoNames_freed "c" 2 _ Run.start rfl) (by decide)).2.2.2.2.2⟩

/-! ### Termination of `openImage` -/

theorem openImage_tail_run (E : Env) (s : St) (cur data : Option Addr)
    (hcur : ∀ c, cur = some c → ∃ dc, deref s c = some dc ∧ releasable E c dc) :
    ∃ s1, openImage_tail E s cur data = .ok (data, s1) ∧ s1.sys.context = s.sys.context := by
  cases cur with
  | none => exact ⟨s, rfl, rfl⟩
  | some c =>
    obtain ⟨dc, hdc, hrel⟩ := hcur c rfl
    obtain ⟨s1, _, hclose, hctx, _⟩ := hrel s hdc
    refine ⟨s1, ?_, hctx⟩
    unfold openImage_tail
    simp only [hclose]

theorem openImage_out_of_range (E : Env) (fuel : Nat) (s : St) (index : Int)
    (cur : Option Addr) (hout : ¬ (0 ≤ index ∧ index < (s.sys.context.num : Int)))
    (hcur : ∀ c, cur = some c → ∃ dc, deref s c = some dc ∧ releasable E c dc) :
    ∃ s1, openImage E (fuel + 1) s index cur = .ok (none, s1) ∧
      s1.sys.context = s.sys.context := by
  obtain ⟨s1, h1, h2⟩ := openImage_tail_run E s cur none hcur
  refine ⟨s1, ?_, h2⟩
  rw [openImage, if_neg hout]
  exact h1

theorem openImage_step_keep (E : Env) (fuel : Nat) (s : St) (A R : List Addr) (f : Addr)
    (T : List (Option Addr)) (cur : Option Addr) (d : ImageData)
    (hdata : s.sys.context.data = (A ++ f :: R).map some ++ T)
    (hnum : s.sys.context.num = (A ++ f :: R).length)
    (hrem : hasFlag s.sys.context.flags E.REMOVE_INVALID = false)
    (hne : cur ≠ some f) (hd : deref s f = some d) (hfail : failsAt E f d)
    (hcur : ∀ c, cur = some c → ∃ dc, deref s c = some dc ∧ releasable E c dc) :
    ∃ r s1, openImage E (fuel + 1) s (A.length : Int) cur = .ok (r, s1) ∧
      s1.sys.context = s.sys.context := by
  obtain ⟨r, s2, d2, hload, hr, hctx2, hd2, hnb2, hoth2⟩ := hfail s hd
  have hslot : slot s.sys.context A.length = some f := slot_at _ A R f T hdata
  have hrange : 0 ≤ (A.length : Int) ∧ (A.length : Int) < (s.sys.context.num : Int) := by
    refine ⟨Int.natCast_nonneg _, ?_⟩
    rw [hnum]; simp
  have hrem2 : hasFlag s2.sys.context.flags E.REMOVE_INVALID = false := by rw [hctx2]; exact hrem
  have hnbuf : noBuffer s2 r = .ok true := by
    rcases hr with rfl | rfl
    · rfl
    · unfold noBuffer; simp only [hd2, hnb2]; rfl
  have hopen : openImage E (fuel + 1) s (A.length : Int) cur = openImage_tail E s2 cur r := by
    rw [openImage, if_pos hrange]
    simp only [Int.toNat_ofNat, hslot, hne, if_false, hload, hnbuf, hrem2, Bool.and_false,
      Bool.false_eq_true]
  have hcur2 : ∀ c, cur = some c → ∃ dc, deref s2 c = some dc ∧ releasable E c dc := by
    intro c hc
    obtain ⟨dc, hdc, hrel⟩ := hcur c hc
    have hcf : c ≠ f := fun e => hne (by rw [hc, e])
    exact ⟨dc, by rw [hoth2 c hcf]; exact hdc, hrel⟩
  obtain ⟨s3, h3, hctx3⟩ := openImage_tail_run E s2 cur r hcur2
  exact ⟨r, s3, by rw [hopen]; exact h3, by rw [hctx3, hctx2]⟩

theorem openImage_total_run (E : Env) :
    ∀ (R : List Addr) (s : St) (A : List Addr) (T : List (Option Addr)) (cur : Option Addr)
      (fuel : Nat),
      s.sys.context.data = (A ++ R).map some ++ T →
      s.sys.context.num = (A ++ R).length → (A ++ R).Nodup →
      (∀ p ∈ R, ∃ d, deref s p = some d ∧ (failsAt E p d ∨ decodesAt E p d)) →
      (∀ c, cur = some c → ∃ dc, deref s c = some dc ∧ releasable E c dc) →
      R.length < fuel →
      ∃ r s1, openImage E fuel s (A.length : Int) cur = .ok (r, s1) ∧
        s1.sys.context.num ≤ s.sys.context.num ∧
        s.sys.context.num ≤ s1.sys.context.num + R.length ∧
        (r ≠ none → A.length < s1.sys.context.num) ∧
        ∃ (qs : List Addr) (T1 : List (Option Addr)),
          s1.sys.context.data = qs.map some ++ T1 ∧ s1.sys.context.num = qs.length := by
  intro R
  induction R with
  | nil =>
    intro s A T cur fuel hdata hnum _ _ hcur hfuel
    obtain ⟨n, rfl⟩ : ∃ n, fuel = n + 1 := ⟨fuel - 1, by omega⟩
    have hout : ¬ (0 ≤ (A.length : Int) ∧ (A.length : Int) < (s.sys.context.num : Int)) := by
      rw [hnum]; simp
    obtain ⟨s1, h1, hctx⟩ := openImage_out_of_range E n s _ cur hout hcur
    refine ⟨none, s1, h1, by rw [hctx], by rw [hctx]; omega, fun h => absurd rfl h,
      A ++ [], T, by rw [hctx]; exact hdata, by rw [hctx]; exact hnum⟩
  | cons f R ih =>
    intro s A T cur fuel hdata hnum hnd hent hcur hfuel
    obtain ⟨n, rfl⟩ : ∃ n, fuel = n + 1 := ⟨fuel - 1, by omega⟩
    simp only [List.length_cons] at hfuel
    have hslot : slot s.sys.context A.length = some f := slot_at _ A R f T hdata
    have hlt : A.length < s.sys.context.num := by rw [hnum]; simp
    have hrange : 0 ≤ (A.length : Int) ∧ (A.length : Int) < (s.sys.context.num : Int) :=
      ⟨Int.natCast_nonneg _, by exact_mod_cast hlt⟩
    by_cases hcf : cur = some f
    · refine ⟨cur, s, ?_, le_refl _, by omega, fun _ => hlt, A ++ f :: R, T, hdata, hnum⟩
      rw [openImage, if_pos hrange]
      simp only [Int.toNat_ofNat, hslot, hcf, if_true]
    · obtain ⟨d, hd, hcase⟩ := hent f (List.mem_cons_self _ _)
      rcases hcase with hfail | hdec
      · by_cases hrem : hasFlag s.sys.context.flags E.REMOVE_INVALID = true
        · obtain ⟨s1, l, hstep, hdata1, hnum1, _, _, hoth1⟩ :=
            openImage_step_fail E n s A R f T cur d hdata hnum hnd hrem hcf hd hfail
          have hnd1 : (A ++ R).Nodup := by
            have := List.nodup_append.mp hnd
            refine List.nodup_append.mpr ⟨this.1, (List.nodup_cons.mp this.2.1).2, ?_⟩
            intro a ha hb
            exact this.2.2 ha (List.mem_cons_of_mem _ hb)
          have hfR : f ∉ R := by
            have := List.nodup_append.mp hnd
            exact (List.nodup_cons.mp this.2.1).1
          have hent1 : ∀ p ∈ R, ∃ d, deref s1 p = some d ∧ (failsAt E p d ∨ decodesAt E p d) := by
            intro p hp
            have hpf : p ≠ f := fun e => hfR (e ▸ hp)
            obtain ⟨dp, hdp, hc⟩ := hent p (List.mem_cons_of_mem _ hp)
            exact ⟨dp, by rw [hoth1 p hpf]; exact hdp, hc⟩
          have hcur1 : ∀ c, cur = some c → ∃ dc, deref s1 c = some dc ∧ releasable E c dc := by
            intro c hc
            obtain ⟨dc, hdc, hrel⟩ := hcur c hc
            have hne : c ≠ f := fun e => hcf (by rw [hc, e])
            exact ⟨dc, by rw [hoth1 c hne]; exact hdc, hrel⟩
          obtain ⟨r, s2, hrun, hle, hge, hr, qs, T1, hq1, hq2⟩ :=
            ih s1 A (l :: T) cur n hdata1 hnum1 hnd1 hent1 hcur1 (by omega)
          have hn1 : s1.sys.context.num + 1 = s.sys.context.num := by
            rw [hnum1, hnum]
            simp only [List.length_append, List.length_cons]
            omega
          refine ⟨r, s2, by rw [hstep]; exact hrun, by omega, ?_, hr, qs, T1, hq1, hq2⟩
          simp only [List.length_cons]; omega
        · have hrem0 : hasFlag s.sys.context.flags E.REMOVE_INVALID = false := by
            simpa using hrem
          obtain ⟨r, s1, hrun, hctx⟩ :=
            openImage_step_keep E n s A R f T cur d hdata hnum hrem0 hcf hd hfail hcur
          exact ⟨r, s1, hrun, by rw [hctx], by rw [hctx]; omega, fun _ => by rw [hctx]; exact hlt,
            A ++ f :: R, T, by rw [hctx]; exact hdata, by rw [hctx]; exact hnum⟩
      · have hcur1 : ∀ c, cur = some c → ∃ dc, deref s c = some dc ∧
            (c = f → dc.data.isSome = true) ∧ (c ≠ f → releasable E c dc) := by
          intro c hc
          obtain ⟨dc, hdc, hrel⟩ := hcur c hc
          have hne : c ≠ f := fun e => hcf (by rw [hc, e])
          exact ⟨dc, hdc, fun e => absurd e hne, fun _ => hrel⟩
        obtain ⟨s1, hrun, hctx, _, _⟩ :=
          openImage_step_ok E n s A R f T cur d hdata hnum hd hdec hcur1
        exact ⟨some f, s1, hrun, by rw [hctx], by rw [hctx]; omega,
          fun _ => by rw [hctx]; exact hlt,
          A ++ f :: R, T, by rw [hctx]; exact hdata, by rw [hctx]; exact hnum⟩

theorem decodesAt_of_buffer (E : Env) (p : Addr) (d : ImageData)
    (hbuf : d.data.isSome = true) : decodesAt E p d := by
  intro s hd
  refine ⟨_, _, loadImage_present E hd hbuf, rfl, deref_store_same _ hd, hbuf, ?_⟩
  intro q hq
  exact deref_store_ne s _ hq

theorem keys_length (h : List (Option ImageData)) : (keys h).length = h.length := by
  unfold keys; simp

theorem keys_getD (h : List (Option ImageData)) (q : Nat) :
    (keys h).getD q none = (h.getD q none).map (fun d => (d.id, d.name)) := by
  unfold keys
  rw [List.getD_eq_getElem?_getD, List.getD_eq_getElem?_getD, List.getElem?_map]
  cases h[q]? with
  | none => rfl
  | some x => rfl

theorem keys_eq_of_pointwise {h h1 : List (Option ImageData)} (hl : h1.length = h.length)
    (hp : ∀ q : Nat, q < h.length →
      (h1.getD q none).map (fun d => (d.id, d.name))
        = (h.getD q none).map (fun d => (d.id, d.name))) :
    keys h1 = keys h := by
  apply List.ext_getElem?
  intro q
  by_cases hq : q < h.length
  · have h1q : q < (keys h1).length := by rw [keys_length, hl]; exact hq
    have h0q : q < (keys h).length := by rw [keys_length]; exact hq
    have e1 := keys_getD h1 q
    have e0 := keys_getD h q
    rw [List.getD_eq_getElem?_getD, List.getElem?_eq_getElem h1q] at e1
    rw [List.getD_eq_getElem?_getD, List.getElem?_eq_getElem h0q] at e0
    rw [List.getElem?_eq_getElem h1q, List.getElem?_eq_getElem h0q]
    simp only [Option.getD_some] at e1 e0
    rw [e1, e0, hp q hq]
  · rw [List.getElem?_eq_none (by rw [keys_length, hl]; omega),
      List.getElem?_eq_none (by rw [keys_length]; omega)]

theorem keys_isSome {h h1 : List (Option ImageData)} (hk : keys h1 = keys h) {p : Nat}
    (hp : (h.getD p none).isSome = true) : (h1.getD p none).isSome = true := by
  have e1 := keys_getD h1 p
  have e0 := keys_getD h p
  rw [hk, e0] at e1
  cases hx : h1.getD p none with
  | some d => rfl
  | none =>
    rw [hx] at e1
    obtain ⟨d, hd⟩ := Option.isSome_iff_exists.mp hp
    rw [hd] at e1
    exact absurd e1 (by simp)

theorem keys_store {s : St} {p : Addr} {d : ImageData} (d1 : ImageData)
    (hd : deref s p = some d) (hid : d1.id = d.id) (hname : d1.name = d.name) :
    keys (store s p d1).sys.heap = keys s.sys.heap := by
  apply keys_eq_of_pointwise
  · unfold store; simp
  · intro q _
    by_cases hq : q = p
    · subst hq
      have : (store s q d1).sys.heap.getD q none = some d1 := deref_store_same d1 hd
      rw [this]
      have hd' : s.sys.heap.getD q none = some d := hd
      rw [hd']
      simp [hid, hname]
    · have : (store s p d1).sys.heap.getD q none = s.sys.heap.getD q none :=
        deref_store_ne s d1 hq
      rw [this]

theorem imgOpens_append (a b : List Event) : imgOpens (a ++ b) = imgOpens a ++ imgOpens b := by
  simp [imgOpens, List.filterMap_append]

theorem sysOpens_append (a b : List Event) : sysOpens (a ++ b) = sysOpens a ++ sysOpens b := by
  simp [sysOpens, List.filterMap_append]

theorem loadImageWithLoader_quiet (E : Env) (hQ : Quiet E) (s : St) (fd : Int) (p : Addr)
    (l : ImageLoader) (hp : (deref s p).isSome = true) :
    ∃ r s1, loadImageWithLoader E s fd p l = .ok (r, s1) ∧
      s1.sys.context = s.sys.context ∧ keys s1.sys.heap = keys s.sys.heap ∧
      s1.trace = s.trace ++ [.img_open l fd p r] := by
  obtain ⟨hctx, hkeys, hflip⟩ := hQ l s.sys fd p hp
  have hp0 := keys_isSome hkeys hp
  obtain ⟨d0, hd0⟩ := Option.isSome_iff_exists.mp hp0
  by_cases hret : (E.img_open l s.sys fd p).1 = 0
  · obtain ⟨s1, d1, hrun, htr, hc1, _, hlen, hd1, hd1eq, _, hoth⟩ :=
      loadImageWithLoader_success E s fd p l hret hd0 (hflip hret d0 hd0)
    refine ⟨0, s1, hrun, by rw [hc1, hctx], ?_, htr⟩
    rw [← hkeys]
    apply keys_eq_of_pointwise hlen
    intro q _
    by_cases hq : q = p
    · subst hq
      have hd1' : s1.sys.heap.getD q none = some d1 := hd1
      rw [hd1', hd0, hd1eq]
      rfl
    · have := hoth q hq
      unfold deref at this
      rw [this]
  · refine ⟨_, _, loadImageWithLoader_fail E s fd p l hret, hctx, hkeys, rfl⟩

theorem _loadImage_loop_quiet (E : Env) (hQ : Quiet E) (fd : Int) (p : Addr) (multi : Bool) :
    ∀ (tbl : List ImageLoader) (s : St), (deref s p).isSome = true →
      ∃ r s1, _loadImage_loop E fd p multi tbl s = .ok (r, s1) ∧
        s1.sys.context = s.sys.context ∧ keys s1.sys.heap = keys s.sys.heap := by
  intro tbl
  induction tbl with
  | nil =>
    intro s _
    exact ⟨none, s, rfl, rfl, rfl⟩
  | cons l tbl ih =>
    intro s hp
    by_cases hsk : skipped multi fd l = true
    · rw [_loadImage_loop_skip E fd p multi l _ s hsk]
      exact ih s hp
    · have hsk : skipped multi fd l = false := by simpa using hsk
      rw [_loadImage_loop_try E fd p multi l _ s hsk]
      obtain ⟨r, s1, hrun, hc1, hk1, _⟩ := loadImageWithLoader_quiet E hQ s fd p l hp
      rw [hrun]
      dsimp only
      by_cases hret : r = 0
      · rw [if_pos hret]
        exact ⟨some p, s1, rfl, hc1, hk1⟩
      · rw [if_neg hret]
        have hp1 : (deref s1 p).isSome = true := keys_isSome hk1 hp
        generalize hs2 : (if hasFlag l.flags NO_SEEK = false then
            (s1.setWorld (E.sys_lseek s1.sys.world fd)).log (.lseek fd) else s1) = s2
        have h2 : s2.sys.context = s1.sys.context ∧ s2.sys.heap = s1.sys.heap := by
          rw [← hs2]; split <;> exact ⟨rfl, rfl⟩
        have hp2 : (deref s2 p).isSome = true := by
          unfold deref; rw [h2.2]; exact hp1
        obtain ⟨r3, s3, hrun3, hc3, hk3⟩ := ih s2 hp2
        exact ⟨r3, s3, hrun3, by rw [hc3, h2.1, hc1], by rw [hk3, h2.2, hk1]⟩

theorem _loadImage_quiet (E : Env) (hQ : Quiet E) (s : St) (p : Addr) (multi : Bool)
    (hp : (deref s p).isSome = true) :
    ∃ r s1, _loadImage E s p multi = .ok (r, s1) ∧
      s1.sys.context = s.sys.context ∧ keys s1.sys.heap = keys s.sys.heap := by
  obtain ⟨d, hd⟩ := Option.isSome_iff_exists.mp hp
  obtain ⟨s0, hfd, hheap, hctx, _, _⟩ := getFD_eq E hd
  have hp0 : (deref s0 p).isSome = true := by unfold deref; rw [hheap]; exact hp
  obtain ⟨r, s1, hrun, hc1, hk1⟩ :=
    _loadImage_loop_quiet E hQ (fdOf E s d).1 p multi E.img_loaders s0 hp0
  unfold _loadImage
  rw [hfd]
  dsimp only
  rw [hrun]
  cases r with
  | some x => exact ⟨some x, s1, rfl, by rw [hc1, hctx], by rw [hk1, hheap]⟩
  | none =>
    dsimp only
    split
    · exact ⟨none, _, rfl, by
        show s1.sys.context = _
        rw [hc1, hctx], by
        show keys s1.sys.heap = _
        rw [hk1, hheap]⟩
    · exact ⟨none, s1, rfl, by rw [hc1, hctx], by rw [hk1, hheap]⟩

theorem getFD_trace (E : Env) {s : St} {p : Addr} {d : ImageData} (hd : deref s p = some d) :
    ∃ s1, getFD E s p = .ok ((fdOf E s d).1, s1) ∧ s1.sys.heap = s.sys.heap ∧
      s1.sys.world = (fdOf E s d).2 ∧
      imgOpens s1.trace = imgOpens s.trace ∧
      sysOpens s1.trace = sysOpens s.trace ++ (if d.fd = -1 then [d.name] else []) := by
  unfold getFD fdOf
  simp only [hd]
  by_cases h : d.fd = -1
  · simp only [h, if_true]
    refine ⟨_, rfl, rfl, rfl, ?_, ?_⟩
    · simp [St.log, St.setWorld, imgOpens]
    · simp [St.log, St.setWorld, sysOpens]
  · simp only [h, if_false]
    exact ⟨_, rfl, rfl, rfl, rfl, by simp⟩

theorem loadStats_run (E : Env) {s : St} {p : Addr} {d : ImageData}
    (hd : deref s p = some d) :
    ∃ s1, loadStats E s p = .ok s1 ∧ s1.sys.context = s.sys.context ∧
      keys s1.sys.heap = keys s.sys.heap ∧ imgOpens s1.trace = imgOpens s.trace ∧
      sysOpens s1.trace = sysOpens s.trace ++
        (if d.stats_loaded = true then [] else if d.fd = -1 then [d.name] else []) := by
  cases hl : d.stats_loaded with
  | true =>
    exact ⟨s, loadStats_loaded E hd hl, rfl, rfl, rfl, by simp⟩
  | false =>
    obtain ⟨s1, h1, _, h3, h4, h5, h6⟩ := loadStats_query E hd hl
    have hk : keys s1.sys.heap = keys s.sys.heap := by
      apply keys_eq_of_pointwise h4
      intro q _
      by_cases hq : q = p
      · subst hq
        have h6' : s1.sys.heap.getD q none = some _ := h6
        have hd' : s.sys.heap.getD q none = some d := hd
        rw [h6', hd']
        unfold withStats
        cases E.sys_fstat (fdOf E s d).2 (fdOf E s d).1 with
        | none => rfl
        | some r => rfl
      · have := h5 q hq
        unfold deref at this
        rw [this]
    -- the trace, read off the definition
    obtain ⟨s0, hfd, hheap, hw, hio, hso⟩ := getFD_trace E hd
    have htrace : s1.trace = s0.trace ++ [.fstat (fdOf E s d).1] := by
      have h := h1
      unfold loadStats at h
      simp only [hd, hl, hfd, Bool.false_eq_true, if_false] at h
      have hd2 : deref (s0.log (.fstat (fdOf E s d).1)) p = some d := by
        unfold deref; rw [show (s0.log (.fstat (fdOf E s d).1)).sys.heap = s.sys.heap from hheap]
        exact hd
      cases hr : E.sys_fstat (s0.log (.fstat (fdOf E s d).1)).sys.world (fdOf E s d).1 with
      | none =>
        simp only [hr, hd2] at h
        cases h
        rfl
      | some r =>
        obtain ⟨sz, mt⟩ := r
        simp only [hr, setStats, hd2] at h
        rw [deref_store_same _ hd2] at h
        simp only [Except.ok.injEq] at h
        rw [← h]
        rfl
    refine ⟨s1, h1, h3, hk, ?_, ?_⟩
    · rw [htrace, imgOpens_append, hio]
      simp [imgOpens]
    · rw [htrace, sysOpens_append, hso]
      simp [sysOpens]

theorem realloc_spec (data : List (Option Addr)) (size : Int) (h : (data.length : Int) ≤ size) :
    (realloc data size).length = size.toNat ∧
      ∀ n : Nat, n ≤ data.length → (realloc data size).take n = data.take n := by
  have hl : data.length ≤ size.toNat := by omega
  unfold realloc
  constructor
  · rw [List.length_take, List.length_append, List.length_replicate]
    omega
  · intro n hn
    rw [List.take_take, min_eq_left (by omega), List.take_append_of_le_length hn]

theorem addFile_alloc_spec (s : St) (name : String) (hcap : Cap s.sys.context) :
    ∃ s1, addFile_alloc s name = .ok (s.sys.heap.length, s1) ∧
      s1.sys.heap = s.sys.heap ++
        [some { zeroImageData with fd := -1, id := s.sys.context.counter, name := name }] ∧
      s1.sys.context.num = s.sys.context.num ∧
      s1.sys.context.counter = s.sys.context.counter + 1 ∧
      s1.sys.context.flags = s.sys.context.flags ∧
      s1.trace = s.trace ∧ s1.sys.world = s.sys.world ∧
      0 < s1.sys.context.size ∧ (s1.sys.context.data.length : Int) = s1.sys.context.size ∧
      s1.sys.context.num < s1.sys.context.data.length ∧
      slot s1.sys.context s.sys.context.num = some s.sys.heap.length ∧
      s1.sys.context.data.take s.sys.context.num
        = s.sys.context.data.take s.sys.context.num := by
  obtain ⟨hpos, hcase⟩ := hcap
  -- the context after `addFile_grow`
  have hgrow : ∃ c1, addFile_grow s.sys.context = c1 ∧ c1.num = s.sys.context.num ∧
      c1.counter = s.sys.context.counter ∧ c1.flags = s.sys.context.flags ∧ 0 < c1.size ∧
      (c1.data.length : Int) = c1.size ∧ c1.num < c1.data.length ∧
      c1.data.take s.sys.context.num = s.sys.context.data.take s.sys.context.num := by
    unfold addFile_grow
    rcases hcase with ⟨hnil, hzero⟩ | ⟨hlen, hle⟩
    · have hc : (s.sys.context.num : Int) = s.sys.context.size ∨ s.sys.context.data = [] :=
        Or.inr hnil
      rw [if_pos hc]
      dsimp only
      have hne : ¬ s.sys.context.data ≠ [] := fun h => h hnil
      rw [if_neg hne]
      have hr := realloc_spec s.sys.context.data s.sys.context.size (by rw [hnil]; simp; omega)
      refine ⟨_, rfl, rfl, rfl, rfl, hpos, ?_, ?_, ?_⟩
      · show ((realloc _ _).length : Int) = s.sys.context.size
        rw [hr.1]; omega
      · show s.sys.context.num < (realloc _ _).length
        rw [hr.1, hzero]; omega
      · show (realloc _ _).take _ = _
        exact hr.2 _ (by rw [hzero]; omega)
    · by_cases hfull : (s.sys.context.num : Int) = s.sys.context.size
      · have hc : (s.sys.context.num : Int) = s.sys.context.size ∨ s.sys.context.data = [] :=
          Or.inl hfull
        rw [if_pos hc]
        dsimp only
        have hne : s.sys.context.data ≠ [] := by
          intro h
          rw [h] at hlen
          simp at hlen
          omega
        rw [if_pos hne]
        have hr := realloc_spec s.sys.context.data (s.sys.context.size * 2) (by omega)
        refine ⟨_, rfl, rfl, rfl, rfl, by show 0 < s.sys.context.size * 2; omega, ?_, ?_, ?_⟩
        · show ((realloc _ _).length : Int) = s.sys.context.size * 2
          rw [hr.1]; omega
        · show s.sys.context.num < (realloc _ _).length
          rw [hr.1]; omega
        · show (realloc _ _).take _ = _
          exact hr.2 _ hle
      · have hc : ¬ ((s.sys.context.num : Int) = s.sys.context.size ∨ s.sys.context.data = []) := by
          intro h
          rcases h with h | h
          · exact hfull h
          · rw [h] at hlen
            simp at hlen
            omega
        rw [if_neg hc]
        exact ⟨_, rfl, rfl, rfl, rfl, hpos, hlen, by omega, rfl⟩
  obtain ⟨c1, hc1, hn1, hk1, hf1, hs1, hl1, hlt1, ht1⟩ := hgrow
  unfold addFile_alloc
  dsimp only
  rw [hc1, if_pos hlt1]
  refine ⟨_, rfl, by rw [hk1], hn1, by show c1.counter + 1 = _; rw [hk1], hf1, rfl, rfl, hs1,
    ?_, ?_, ?_, ?_⟩
  · show ((c1.data.set c1.num _).length : Int) = c1.size
    rw [List.length_set]; exact hl1
  · show c1.num < (c1.data.set c1.num _).length
    rw [List.length_set]; exact hlt1
  · show (c1.data.set c1.num (some s.sys.heap.length)).getD s.sys.context.num none = _
    rw [← hn1, List.getD_eq_getElem?_getD, List.getElem?_set_self hlt1]
    rfl
  · show (c1.data.set c1.num _).take s.sys.context.num = _
    rw [← ht1, hn1]
    apply List.ext_getElem?
    intro i
    by_cases hi : i < s.sys.context.num
    · rw [List.getElem?_take_of_lt hi, List.getElem?_take_of_lt hi,
        List.getElem?_set_ne (by omega)]
    · rw [List.getElem?_take_eq_none (by omega), List.getElem?_take_eq_none (by omega)]

theorem addFile_stats_run (E : Env) (s : St) (p : Addr) (d : ImageData)
    (hslot : slot s.sys.context s.sys.context.num = some p) (hd : deref s p = some d)
    (hfd : d.fd = -1) (hl : d.stats_loaded = false) :
    ∃ s1, addFile_stats E s = .ok s1 ∧ s1.sys.context = s.sys.context ∧
      keys s1.sys.heap = keys s.sys.heap ∧ imgOpens s1.trace = imgOpens s.trace ∧
      sysOpens s1.trace = sysOpens s.trace ++
        (if hasFlag s.sys.context.flags E.LOAD_STATS = true then [d.name] else []) := by
  unfold addFile_stats
  by_cases hf : hasFlag s.sys.context.flags E.LOAD_STATS = true
  · rw [if_pos hf, hslot, if_pos hf]
    obtain ⟨s1, h1, h2, h3, h4, h5⟩ := loadStats_run E hd
    refine ⟨s1, h1, h2, h3, h4, ?_⟩
    rw [h5, hl, hfd]
    simp
  · rw [if_neg hf, if_neg hf]
    exact ⟨s, rfl, rfl, rfl, rfl, by simp⟩

theorem addFile_expand_run (E : Env) (hQ : Quiet E) (s : St) (p : Addr)
    (hslot : slot s.sys.context s.sys.context.num = some p)
    (hp : (deref s p).isSome = true) :
    ∃ s1, addFile_expand E s = .ok s1 ∧ s1.sys.context = s.sys.context ∧
      keys s1.sys.heap = keys s.sys.heap ∧
      (hasFlag s.sys.context.flags E.PRE_EXPAND = false → s1 = s) := by
  unfold addFile_expand
  by_cases hf : hasFlag s.sys.context.flags E.PRE_EXPAND = true
  · rw [if_pos hf, hslot]
    obtain ⟨r, s1, hrun, hc, hk⟩ := _loadImage_quiet E hQ s p true hp
    simp only [hrun]
    exact ⟨s1, rfl, hc, hk, fun h => absurd hf (by rw [h]; simp)⟩
  · rw [if_neg hf]
    exact ⟨s, rfl, rfl, rfl, fun _ => rfl⟩

theorem addFile_spec (E : Env) (hQ : Quiet E) (s : St) (name : String) (hb : Built s) :
    ∃ s1, addFile E s name = .ok (s.sys.heap.length, s1) ∧ Built s1 ∧
      keys s1.sys.heap = keys s.sys.heap ++ [some ((s.sys.context.num : Int), name)] ∧
      s1.sys.context.num = s.sys.context.num + 1 ∧
      s1.sys.context.flags = s.sys.context.flags ∧
      slots s1.sys.context = slots s.sys.context ++ [some s.sys.context.num] ∧
      (hasFlag s.sys.context.flags E.PRE_EXPAND = false →
        imgOpens s1.trace = imgOpens s.trace ∧
        sysOpens s1.trace = sysOpens s.trace ++
          (if hasFlag s.sys.context.flags E.LOAD_STATS = true then [name] else [])) := by
  obtain ⟨hcap, hheap, hcnt⟩ := hb
  obtain ⟨sa, hrun, hha, hna, hca, hfa, hta, _, hsa, hla, hlta, hslot, htake⟩ :=
    addFile_alloc_spec s name hcap
  have hda : deref sa s.sys.heap.length
      = some { zeroImageData with fd := -1, id := s.sys.context.counter, name := name } := by
    unfold deref
    rw [hha]
    exact getD_append_length _ _
  have hslota : slot sa.sys.context sa.sys.context.num = some s.sys.heap.length := by
    rw [hna]; exact hslot
  obtain ⟨sb, hrunb, hcb, hkb, hib, hsb⟩ := addFile_stats_run E sa _ _ hslota hda rfl rfl
  have hpb : (deref sb s.sys.heap.length).isSome = true :=
    keys_isSome hkb (by
      have : sa.sys.heap.getD s.sys.heap.length none = some _ := hda
      rw [this]; rfl)
  have hslotb : slot sb.sys.context sb.sys.context.num = some s.sys.heap.length := by
    rw [hcb]; exact hslota
  obtain ⟨sc, hrunc, hcc, hkc, hsame⟩ := addFile_expand_run E hQ sb _ hslotb hpb
  have hctx : sc.sys.context = sa.sys.context := by rw [hcc, hcb]
  have hkeys : keys sc.sys.heap = keys s.sys.heap ++ [some ((s.sys.context.num : Int), name)] := by
    rw [hkc, hkb, hha]
    unfold keys
    rw [List.map_append]
    simp only [List.map_cons, List.map_nil, Option.map_some']
    rw [hcnt]
  have hlen : sc.sys.heap.length = s.sys.heap.length + 1 := by
    rw [← keys_length, hkeys, List.length_append, keys_length]
    rfl
  refine ⟨sc.setContext { sc.sys.context with num := sc.sys.context.num + 1 }, ?_, ?_, hkeys,
    ?_, ?_, ?_, ?_⟩
  · unfold addFile
    simp only [hrun, hrunb, hrunc]
  · refine ⟨⟨?_, Or.inr ⟨?_, ?_⟩⟩, ?_, ?_⟩
    · show 0 < sc.sys.context.size
      rw [hctx]; exact hsa
    · show (sc.sys.context.data.length : Int) = sc.sys.context.size
      rw [hctx]; exact hla
    · show sc.sys.context.num + 1 ≤ sc.sys.context.data.length
      rw [hctx]; omega
    · show sc.sys.heap.length = sc.sys.context.num + 1
      rw [hlen, hctx, hna, hheap]
    · show sc.sys.context.counter = ((sc.sys.context.num + 1 : Nat) : Int)
      rw [hctx, hca, hna, hcnt]
      push_cast
      rfl
  · show sc.sys.context.num + 1 = _
    rw [hctx, hna]
  · show sc.sys.context.flags = _
    rw [hctx, hfa]
  · show List.take (sc.sys.context.num + 1) sc.sys.context.data = _
    rw [hctx, hna, List.take_succ]
    unfold slots
    rw [htake]
    have hget : sa.sys.context.data[s.sys.context.num]? = some (some s.sys.heap.length) := by
      have := hslot
      unfold slot at this
      rw [List.getD_eq_getElem?_getD, List.getElem?_eq_getElem (by rw [← hna]; exact hlta)]
        at this
      rw [List.getElem?_eq_getElem (by rw [← hna]; exact hlta)]
      simpa using this
    rw [hget, hheap]
    rfl
  · intro hpre
    have hpreb : hasFlag sb.sys.context.flags E.PRE_EXPAND = false := by
      rw [hcb, hfa]; exact hpre
    have hsc : sc = sb := hsame hpreb
    subst hsc
    constructor
    · show imgOpens sc.trace = _
      rw [hib, hta]
    · show sysOpens sc.trace = _
      rw [hsb, hta, hfa]

theorem addFromPipe_spec (E : Env) (hQ : Quiet E) (s : St) (fd : Int) (name : String)
    (hb : Built s) :
    ∃ r s1, addFromPipe E s fd name = .ok (r, s1) ∧ Built s1 ∧
      keys s1.sys.heap = keys s.sys.heap ++ [some ((s.sys.context.num : Int), name)] ∧
      s1.sys.context.num = s.sys.context.num + 1 ∧
      s1.sys.context.flags = s.sys.context.flags ∧
      slots s1.sys.context = slots s.sys.context ++ [some s.sys.context.num] ∧
      (hasFlag s.sys.context.flags E.PRE_EXPAND = false →
        imgOpens s1.trace = imgOpens s.trace ++ [(pipe_loader, fd, s.sys.context.num)] ∧
        sysOpens s1.trace = sysOpens s.trace ++
          (if hasFlag s.sys.context.flags E.LOAD_STATS = true then [name] else [])) := by
  obtain ⟨sa, hrun, hba, hka, hna, hfa, hsa, hta⟩ := addFile_spec E hQ s name hb
  have hpa : (deref sa s.sys.heap.length).isSome = true := by
    have h1 := keys_getD sa.sys.heap s.sys.heap.length
    rw [hka] at h1
    have h2 : (keys s.sys.heap ++ [some ((s.sys.context.num : Int), name)]).getD
        s.sys.heap.length none = some ((s.sys.context.num : Int), name) := by
      rw [List.getD_eq_getElem?_getD,
        List.getElem?_append_right (by rw [keys_length])]
      simp [keys_length]
    rw [h2] at h1
    unfold deref
    cases hx : sa.sys.heap.getD s.sys.heap.length none with
    | none => rw [hx] at h1; exact absurd h1 (by simp)
    | some d => rfl
  obtain ⟨r, s1, hrun1, hc1, hk1, ht1⟩ :=
    loadImageWithLoader_quiet E hQ sa fd s.sys.heap.length pipe_loader hpa
  obtain ⟨hcap, hheap, hcnt⟩ := hba
  refine ⟨r, s1, ?_, ⟨by rw [hc1]; exact hcap, ?_, by rw [hc1]; exact hcnt⟩, by rw [hk1, hka],
    by rw [hc1, hna], by rw [hc1, hfa], by rw [hc1, hsa], ?_⟩
  · unfold addFromPipe
    simp only [hrun, hrun1]
  · rw [hc1, ← hheap, ← keys_length, hk1, keys_length]
  · intro hpre
    obtain ⟨hio, hso⟩ := hta hpre
    constructor
    · rw [ht1, imgOpens_append, hio]
      simp only [imgOpens, List.filterMap_cons, List.filterMap_nil]
      rw [hb.2.1]
    · rw [ht1, sysOpens_append, hso]
      simp [sysOpens]

theorem listedFrom_nil (num : Int) (i : Nat) : listedFrom num i [] = [] := by
  unfold listedFrom
  split <;> simp

theorem listedFrom_none (num : Int) (i : Nat) (rest : List (Option String)) :
    listedFrom num i (none :: rest) = [] := by
  unfold listedFrom
  split <;> simp

theorem listedFrom_stop (num : Int) (i : Nat) (arr : List (Option String))
    (h : ¬ (num = 0 ∨ (i : Int) < num)) : listedFrom num i arr = [] := by
  unfold listedFrom
  have h0 : num ≠ 0 := fun e => h (Or.inl e)
  have h1 : num.toNat - i = 0 := by omega
  rw [if_neg h0, h1, List.take_zero]

theorem listedFrom_some (num : Int) (i : Nat) (nm : String) (rest : List (Option String))
    (h : num = 0 ∨ (i : Int) < num) :
    listedFrom num i (some nm :: rest) = nm :: listedFrom num (i + 1) rest := by
  unfold listedFrom
  by_cases h0 : num = 0
  · simp [h0]
  · have h1 : (i : Int) < num := by
      rcases h with h | h
      · exact absurd h h0
      · exact h
    have h2 : num.toNat - i = (num.toNat - (i + 1)) + 1 := by omega
    rw [if_neg h0, if_neg h0, h2]
    simp

theorem createContext_loop_spec (E : Env) (hQ : Quiet E) (num : Int) :
    ∀ (arr : List (Option String)) (i : Nat) (s : St), Built s →
      ((∀ x ∈ arr, x.isSome = true) → num ≠ 0 ∧ num ≤ (i : Int) + arr.length) →
      ∃ s1, createContext_loop E num arr i s = .ok s1 ∧ Built s1 ∧
        keys s1.sys.heap
          = keys s.sys.heap ++ expectedKeys s.sys.context.num (listedFrom num i arr) ∧
        s1.sys.context.num = s.sys.context.num + (listedFrom num i arr).length ∧
        s1.sys.context.flags = s.sys.context.flags ∧
        slots s1.sys.context = slots s.sys.context ++
          (List.range' s.sys.context.num (listedFrom num i arr).length).map some ∧
        (hasFlag s.sys.context.flags E.PRE_EXPAND = false →
          imgOpens s1.trace
            = imgOpens s.trace ++ expectedPipeOpens s.sys.context.num (listedFrom num i arr) ∧
          sysOpens s1.trace = sysOpens s.trace ++
            (if hasFlag s.sys.context.flags E.LOAD_STATS = true then
              (listedFrom num i arr).map entryName else [])) := by
  intro arr
  induction arr with
  | nil =>
    intro i s hb hwf
    have h := hwf (fun x hx => absurd hx (List.not_mem_nil x))
    have hc : ¬ (num = 0 ∨ (i : Int) < num) := by
      simp only [List.length_nil] at h
      omega
    refine ⟨s, ?_, hb, ?_, ?_, rfl, ?_, fun _ => ⟨?_, ?_⟩⟩
    · unfold createContext_loop; rw [if_neg hc]
    · rw [listedFrom_nil]; simp [expectedKeys]
    · rw [listedFrom_nil]; rfl
    · rw [listedFrom_nil]; simp
    · rw [listedFrom_nil]; simp [expectedPipeOpens]
    · rw [listedFrom_nil]; simp
  | cons x rest ih =>
    intro i s hb hwf
    by_cases hc : num = 0 ∨ (i : Int) < num
    · cases x with
      | none =>
        refine ⟨s, ?_, hb, ?_, ?_, rfl, ?_, fun _ => ⟨?_, ?_⟩⟩
        · unfold createContext_loop; rw [if_pos hc]
        · rw [listedFrom_none]; simp [expectedKeys]
        · rw [listedFrom_none]; rfl
        · rw [listedFrom_none]; simp
        · rw [listedFrom_none]; simp [expectedPipeOpens]
        · rw [listedFrom_none]; simp
      | some nm =>
        have hwf1 : (∀ y ∈ rest, y.isSome = true) →
            num ≠ 0 ∧ num ≤ ((i + 1 : Nat) : Int) + rest.length := by
          intro hall
          have := hwf (by
            intro y hy
            rcases List.mem_cons.mp hy with rfl | hy
            · rfl
            · exact hall y hy)
          simp only [List.length_cons] at this
          push_cast at this ⊢
          omega
        rw [listedFrom_some num i nm rest hc]
        by_cases hdash : nm = "-"
        · obtain ⟨r, sa, hrun, hba, hka, hna, hfa, hsa, hta⟩ :=
            addFromPipe_spec E hQ s STDIN_FILENO "stdin" hb
          obtain ⟨s1, hrun1, hb1, hk1, hn1, hf1, hs1, ht1⟩ := ih (i + 1) sa hba hwf1
          refine ⟨s1, ?_, hb1, ?_, ?_, by rw [hf1, hfa], ?_, ?_⟩
          · unfold createContext_loop
            rw [if_pos hc]
            simp only [hdash, if_true, hrun]
            exact hrun1
          · rw [hk1, hka, hna, List.append_assoc]
            simp [expectedKeys, entryName, hdash]
          · rw [hn1, hna, List.length_cons]; omega
          · rw [hs1, hsa, hna, List.append_assoc, List.length_cons, List.range'_succ]
            simp
          · intro hpre
            obtain ⟨hio, hso⟩ := hta hpre
            obtain ⟨hio1, hso1⟩ := ht1 (by rw [hfa]; exact hpre)
            constructor
            · rw [hio1, hio, hna, List.append_assoc]
              simp [expectedPipeOpens, hdash]
            · rw [hso1, hso, hfa, List.append_assoc]
              by_cases hF : hasFlag s.sys.context.flags E.LOAD_STATS = true
              · simp [hF, entryName, hdash]
              · simp [hF]
        · obtain ⟨sa, hrun, hba, hka, hna, hfa, hsa, hta⟩ := addFile_spec E hQ s nm hb
          obtain ⟨s1, hrun1, hb1, hk1, hn1, hf1, hs1, ht1⟩ := ih (i + 1) sa hba hwf1
          refine ⟨s1, ?_, hb1, ?_, ?_, by rw [hf1, hfa], ?_, ?_⟩
          · unfold createContext_loop
            rw [if_pos hc]
            simp only [hdash, if_false, hrun]
            exact hrun1
          · rw [hk1, hka, hna, List.append_assoc]
            simp [expectedKeys, entryName, hdash]
          · rw [hn1, hna, List.length_cons]; omega
          · rw [hs1, hsa, hna, List.append_assoc, List.length_cons, List.range'_succ]
            simp
          · intro hpre
            obtain ⟨hio, hso⟩ := hta hpre
            obtain ⟨hio1, hso1⟩ := ht1 (by rw [hfa]; exact hpre)
            constructor
            · rw [hio1, hio, hna]
              simp [expectedPipeOpens, hdash]
            · rw [hso1, hso, hfa, List.append_assoc]
              by_cases hF : hasFlag s.sys.context.flags E.LOAD_STATS = true
              · simp [hF, entryName, hdash]
              · simp [hF]
    · refine ⟨s, ?_, hb, ?_, ?_, rfl, ?_, fun _ => ⟨?_, ?_⟩⟩
      · unfold createContext_loop; rw [if_neg hc]
      · rw [listedFrom_stop num i _ hc]; simp [expectedKeys]
      · rw [listedFrom_stop num i _ hc]; rfl
      · rw [listedFrom_stop num i _ hc]; simp
      · rw [listedFrom_stop num i _ hc]; simp [expectedPipeOpens]
      · rw [listedFrom_stop num i _ hc]; simp

theorem createContext_loop_negative (E : Env) (num : Int) (hneg : num < 0)
    (arr : List (Option String)) (s : St) :
    createContext_loop E num arr 0 s = .ok s ∧ listedFrom num 0 arr = [] := by
  have hc : ¬ (num = 0 ∨ ((0 : Nat) : Int) < num) := by
    intro h
    rcases h with h | h
    · omega
    · have : ((0 : Nat) : Int) = 0 := rfl
      omega
  refine ⟨?_, listedFrom_stop num 0 arr hc⟩
  cases arr with
  | nil => unfold createContext_loop; rw [if_neg hc]
  | cons x rest => unfold createContext_loop; rw [if_neg hc]

theorem fixed_open_stb (l : ImageLoader) (sys : Sys) (fd : Int) (p : Addr) (d : ImageData)
    (hl : l.name = "stb_image") (hd : sys.heap.getD p none = some d) :
    fixed_open l sys fd p = (0, { sys with heap := sys.heap.set p (some { d with
      data := some [1, 2, 3, 4], image_width := 1, image_height := 1 }) }) := by
  unfold fixed_open
  simp only [hl, if_true, hd]

theorem fixed_open_other (l : ImageLoader) (sys : Sys) (fd : Int) (p : Addr)
    (hl : l.name ≠ "stb_image") : fixed_open l sys fd p = (-1, sys) := by
  unfold fixed_open
  rw [if_neg hl]

theorem fixedEnv_quiet : Quiet fixedEnv := by
  intro l sys fd p hp
  show (fixed_open l sys fd p).2.context = sys.context ∧
    keys (fixed_open l sys fd p).2.heap = keys sys.heap ∧
    ((fixed_open l sys fd p).1 = 0 →
      ∀ d1, (fixed_open l sys fd p).2.heap.getD p none = some d1 → flipFits fixedEnv d1)
  obtain ⟨d, hd⟩ := Option.isSome_iff_exists.mp hp
  by_cases hl : l.name = "stb_image"
  · rw [fixed_open_stb l sys fd p d hl hd]
    have hlt := getD_lt hd
    refine ⟨rfl, ?_, ?_⟩
    · apply keys_eq_of_pointwise (by simp)
      intro q _
      by_cases hq : q = p
      · subst hq
        rw [getD_set_same _ hlt, hd]
        rfl
      · rw [getD_set_ne _ _ hq]
    · intro _ d1 hd1
      rw [getD_set_same _ hlt] at hd1
      cases hd1
      intro _ _
      exact ⟨(show (1 * 1 * 4) % 2 ^ 32 < 2 ^ 31 by decide), [1, 2, 3, 4], rfl,
        (show (1 * 1 * 4) % 2 ^ 32 ≤ 4 by decide)⟩
  · rw [fixed_open_other l sys fd p hl]
    exact ⟨rfl, rfl, fun h => absurd h (show ¬ ((-1 : Int) = 0) by decide)⟩

theorem entryName_ne_dash (nm : String) : entryName nm ≠ "-" := by
  unfold entryName
  split
  · decide
  · assumption

/-- C14 (as stated) fails with either insertion flag, because `addFromPipe`
creates its entry with `addFile`.  With `PRE_EXPAND`, for the name list `["-"]`
the registry scan runs on the new entry `stdin`: the file `stdin` is opened
(descriptor 3 in `demoEnv`) and the entry is offered to `spng`, `stb_image` and
`imlib2` with that descriptor before the pipe backend gets it with descriptor
0.  With `LOAD_STATS` alone `loadStats` opens the file `stdin`, queries it and
stores its size and time (10 and 20 in `demoEnv`) on the entry. -/
theorem createContext_stdin_scanned :
    (createContext demoEnv 0 (some [some "-", none]) 1 demoEnv.PRE_EXPAND).toOption.map
        (fun s => (sysOpens s.trace, imgOpens s.trace))
      = some (["stdin"],
          [(CREATE_LOADER "spng", 3, 0), (CREATE_LOADER "stb_image", 3, 0),
           (CREATE_LOADER "imlib2", 3, 0), (pipe_loader, STDIN_FILENO, 0)]) ∧
    ¬ ((createContext demoEnv 0 (some [some "-", none]) 1 demoEnv.PRE_EXPAND).toOption.map
        (fun s => imgOpens s.trace) = some (expectedPipeOpens 0 ["-"])) ∧
    (createContext demoEnv 0 (some [some "-", none]) 1 demoEnv.LOAD_STATS).toOption.map
        (fun s => (sysOpens s.trace, fstats s.trace)) = some (["stdin"], [3]) ∧
    (createContext demoEnv 0 (some [some "-", none]) 1 demoEnv.LOAD_STATS).toOption.map
        (fun s => (slotSizes s, slotTimes s)) = some ([some 10], [some 20]) ∧
    ¬ ((createContext demoEnv 0 (some [some "-", none]) 1 demoEnv.LOAD_STATS).toOption.map
        (fun s => sysOpens s.trace) = some []) := by
  decide

/-- C14 (amended): let no backend insert entries (`Quiet`), and let the name
array `arr` hold a `NULL` or at least `num` names.  `createContext` returns;
with `names = listedNames num arr` (the names before the first `NULL`, cut to
the hint `num` unless that is 0), `num` of the context and the counter are the
number of names, slot `i` points to entry `i`, and entry `i` has id `i` and the
`i`-th name, `stdin` standing for a single dash.  When `PRE_EXPAND` is not
set, the backend opens of the whole run are exactly one per single dash, to the
pipe backend with descriptor `STDIN_FILENO` on the entry made for it (no
registry scan), and the files opened are: none at all when `LOAD_STATS` is not
set either, and with `LOAD_STATS` one per entry, under the entry's name
(`stdin` for a dash, never `-`).  For an absent array the collection is
empty. -/
theorem createContext_builds (E : Env) (hQ : Quiet E) (world : Nat)
    (arr : List (Option String)) (num : Int) (flags : Nat)
    (hwf : (∀ x ∈ arr, x.isSome = true) → num ≠ 0 ∧ num ≤ (arr.length : Int)) :
    (∃ s, createContext E world (some arr) num flags = .ok s ∧
      s.sys.context.num = (listedNames num arr).length ∧
      s.sys.context.counter = ((listedNames num arr).length : Int) ∧
      slots s.sys.context = (List.range (listedNames num arr).length).map some ∧
      keys s.sys.heap = expectedKeys 0 (listedNames num arr) ∧
      (hasFlag flags E.PRE_EXPAND = false →
        imgOpens s.trace = expectedPipeOpens 0 (listedNames num arr) ∧
        sysOpens s.trace = (if hasFlag flags E.LOAD_STATS = true then
          (listedNames num arr).map entryName else []) ∧
        "-" ∉ sysOpens s.trace)) ∧
    (∃ s, createContext E world none num flags = .ok s ∧
      s.sys.context.num = 0 ∧ slots s.sys.context = [] ∧ s.sys.heap = [] ∧ s.trace = []) := by
  constructor
  · have hcreate : createContext E world (some arr) num flags
        = createContext_loop E num arr 0 (initialSt world num flags) := rfl
    rw [hcreate]
    unfold listedNames
    by_cases hneg : num < 0
    · obtain ⟨hrun, hl⟩ := createContext_loop_negative E num hneg arr (initialSt world num flags)
      rw [hl]
      refine ⟨_, hrun, rfl, rfl, rfl, rfl, fun _ => ⟨rfl, ?_, ?_⟩⟩
      · simp [sysOpens, initialSt]
      · simp [sysOpens, initialSt]
    · have hb : Built (initialSt world num flags) := by
        refine ⟨⟨?_, Or.inl ⟨rfl, rfl⟩⟩, rfl, rfl⟩
        show 0 < (if num ≠ 0 then num else 16)
        split
        · omega
        · decide
      obtain ⟨s1, hrun, hb1, hk1, hn1, _, hs1, ht1⟩ :=
        createContext_loop_spec E hQ num arr 0 _ hb (by
          intro hall
          have := hwf hall
          push_cast
          omega)
      have hnum0 : (initialSt world num flags).sys.context.num = 0 := rfl
      have hflags0 : (initialSt world num flags).sys.context.flags = flags := rfl
      rw [hnum0] at hk1 hn1 hs1
      rw [hnum0, hflags0] at ht1
      refine ⟨s1, hrun, ?_, ?_, ?_, ?_, ?_⟩
      · rw [hn1]; simp
      · rw [hb1.2.2, hn1]; simp
      · rw [hs1, List.range_eq_range']
        simp [slots, initialSt]
      · rw [hk1]; simp [keys, initialSt]
      · intro hpre
        obtain ⟨hio, hso⟩ := ht1 hpre
        have hso1 : sysOpens s1.trace = (if hasFlag flags E.LOAD_STATS = true then
            (listedFrom num 0 arr).map entryName else []) := by
          rw [hso]; simp [sysOpens, initialSt]
        refine ⟨by rw [hio]; simp [imgOpens, initialSt], hso1, ?_⟩
        rw [hso1]
        split
        · intro hmem
          obtain ⟨nm, _, hnm⟩ := List.mem_map.mp hmem
          exact entryName_ne_dash nm hnm
        · simp
  · exact ⟨_, rfl, rfl, rfl, rfl, rfl⟩

/-- Witness of C14 (amended): the names `a`, `-`, `b` with hint 0 in
`fixedEnv`, once with `LOAD_STATS` and once without any flag. -/
theorem createContext_builds_witness :
    listedNames 0 [some "a", some "-", some "b", none, some "c"] = ["a", "-", "b"] ∧
    listedNames 2 [some "a", some "-", some "b", none, some "c"] = ["a", "-"] ∧
    (createContext fixedEnv 0 (some [some "a", some "-", some "b", none, some "c"]) 0
        fixedEnv.LOAD_STATS).toOption.map (fun s => (keys s.sys.heap, slots s.sys.context))
      = some ([some (0, "a"), some (1, "stdin"), some (2, "b")], [some 0, some 1, some 2]) ∧
    (createContext fixedEnv 0 (some [some "a", some "-", some "b", none, some "c"]) 0
        fixedEnv.LOAD_STATS).toOption.map (fun s => (sysOpens s.trace, imgOpens s.trace))
      = some (["a", "stdin", "b"], [(pipe_loader, STDIN_FILENO, 1)]) ∧
    (createContext fixedEnv 0 (some [some "a", some "-", some "b", none, some "c"]) 0
        0).toOption.map (fun s => s.trace)
      = some [Event.img_open pipe_loader STDIN_FILENO 1 (-1)] ∧
    ∃ s, createContext fixedEnv 0 (some [some "a", some "-", some "b", none, some "c"]) 0 0
        = .ok s ∧
      s.sys.context.num = (listedNames 0 [some "a", some "-", some "b", none, some "c"]).length ∧
      s.sys.context.counter
        = ((listedNames 0 [some "a", some "-", some "b", none, some "c"]).length : Int) ∧
      slots s.sys.context
        = (List.range (listedNames 0 [some "a", some "-", some "b", none, some "c"]).length).map
            some ∧
      keys s.sys.heap
        = expectedKeys 0 (listedNames 0 [some "a", some "-", some "b", none, some "c"]) ∧
      (hasFlag 0 fixedEnv.PRE_EXPAND = false →
        imgOpens s.trace
          = expectedPipeOpens 0 (listedNames 0 [some "a", some "-", some "b", none, some "c"]) ∧
        sysOpens s.trace = (if hasFlag 0 fixedEnv.LOAD_STATS = true then
          (listedNames 0 [some "a", some "-", some "b", none, some "c"]).map entryName
          else []) ∧
        "-" ∉ sysOpens s.trace) :=
  ⟨by decide, by decide, by decide, by decide, by decide,
    (createContext_builds fixedEnv fixedEnv_quiet 0
      [some "a", some "-", some "b", none, some "c"] 0 0
      (fun h => absurd (h none (by decide)) (by decide))).1⟩

/-! ### Release of the current entry -/

theorem Away.keep (p : Nat) (a : List (Option ImageData)) : Away p a a :=
  ⟨Nat.le_refl _, fun _ _ _ => rfl⟩

theorem Away.join {p : Nat} {a b c : List (Option ImageData)} (h1 : Away p a b)
    (h2 : Away p b c) : Away p a c :=
  ⟨Nat.le_trans h1.1 h2.1, fun q hq hl =>
    (h2.2 q hq (Nat.lt_of_lt_of_le hl h1.1)).trans (h1.2 q hq hl)⟩

theorem Away.at_set (p : Nat) (a : List (Option ImageData)) (x : Option ImageData) :
    Away p a (a.set p x) :=
  ⟨by rw [List.length_set], fun _ hq _ => getD_set_ne _ _ hq⟩

theorem Away.by_eq {p : Nat} {a b : List (Option ImageData)} (h : b = a) : Away p a b := by
  rw [h]; exact Away.keep p a

theorem closeImage_away (E : Env) (hE : Apart E) {s s1 : St} {p : Addr} {force : Bool}
    (h : closeImage E s p force = .ok s1) : Away p s.sys.heap s1.sys.heap := by
  obtain ⟨d, _, hcase⟩ := closeImage_cases E h
  have h1 : Away p s.sys.heap (store s p { d with ref_count := d.ref_count - 1 }).sys.heap :=
    Away.at_set p _ _
  rcases hcase with ⟨_, l, d2, _, _, _, hs1⟩ | ⟨_, hs1⟩
  · rw [hs1]
    exact (h1.join (hE.2.1 l _ p)).join (Away.at_set p _ _)
  · rw [hs1]; exact h1

theorem closeImage_lowers (E : Env) (hE : Apart E) {s s1 : St} {c : Addr}
    {force : Bool} {dc : ImageData} (hd : deref s c = some dc)
    (h : closeImage E s c force = .ok s1) :
    ∃ dc1, deref s1 c = some dc1 ∧ dc1.ref_count = dc.ref_count - 1 := by
  obtain ⟨d, hd0, hcase⟩ := closeImage_cases E h
  rw [hd] at hd0; cases hd0
  rcases hcase with ⟨_, l, d2, _, _, hd2, hs1⟩ | ⟨_, hs1⟩
  · have hst := deref_store_same { dc with ref_count := dc.ref_count - 1 } hd
    obtain ⟨d3, hd3, hrc3⟩ := hE.2.2 l c _ _ hst
    rw [hd2] at hd3; cases hd3
    refine ⟨{ d2 with image_data := none, data := none }, ?_, hrc3⟩
    rw [hs1]
    exact deref_store_same _ (show deref (St.mk _ _) c = some d2 from hd2)
  · rw [hs1]
    exact ⟨_, deref_store_same _ hd, rfl⟩

theorem freeImageData_away (E : Env) (hE : Apart E) {s s1 : St} {q : Option Addr}
    (h : freeImageData E s q = .ok s1) :
    ∃ p, q = some p ∧ Away p s.sys.heap s1.sys.heap ∧ deref s1 p = none := by
  unfold freeImageData at h
  cases q with
  | none => exact absurd h (by simp)
  | some p =>
    dsimp only at h
    cases hd : deref s p with
    | none => rw [hd] at h; exact absurd h (by simp)
    | some d =>
      rw [hd] at h
      dsimp only at h
      cases hr : (if d.data.isSome then closeImage E s p true else .ok s) with
      | error e => rw [hr] at h; exact absurd h (by simp)
      | ok s2 =>
        rw [hr] at h
        dsimp only at h
        have h2 : Away p s.sys.heap s2.sys.heap := by
          by_cases hb : d.data.isSome = true
          · rw [if_pos hb] at hr
            exact closeImage_away E hE hr
          · rw [if_neg hb] at hr
            cases hr
            exact Away.keep _ _
        cases h
        exact ⟨p, rfl, h2.join (Away.at_set p _ _), getD_set_none _ _⟩

theorem loadImageWithLoader_away (E : Env) (hE : Apart E) {s s1 : St} {fd : Int}
    {p : Addr} {l : ImageLoader} {r : Int} (h : loadImageWithLoader E s fd p l = .ok (r, s1)) :
    Away p s.sys.heap s1.sys.heap := by
  have h0 := hE.1 l s.sys fd p
  unfold loadImageWithLoader at h
  dsimp only at h
  split at h
  · split at h
    · exact absurd h (by simp)
    · rename_i d hd
      split at h
      · split at h
        · exact absurd h (by simp)
        · rename_i s3 h3
          cases h
          obtain ⟨_, _, _, _, x, hheap, _⟩ := flipRedBlue_inv h3
          rw [hheap]
          exact (h0.join (Away.at_set p _ _)).join (Away.at_set p _ _)
      · cases h
        exact h0.join (Away.at_set p _ _)
  · cases h
    exact h0

theorem _loadImage_loop_away (E : Env) (hE : Apart E) (fd : Int) (p : Addr) (multi : Bool) :
    ∀ (tbl : List ImageLoader) (s s2 : St) (r : Option Addr),
      _loadImage_loop E fd p multi tbl s = .ok (r, s2) → Away p s.sys.heap s2.sys.heap := by
  intro tbl
  induction tbl with
  | nil =>
    intro s s2 r h
    simp only [_loadImage_loop, Except.ok.injEq, Prod.mk.injEq] at h
    rw [← h.2]
    exact Away.keep _ _
  | cons l tbl ih =>
    intro s s2 r h
    by_cases hsk : skipped multi fd l = true
    · rw [_loadImage_loop_skip E fd p multi l _ s hsk] at h
      exact ih s s2 r h
    · have hsk : skipped multi fd l = false := by simpa using hsk
      rw [_loadImage_loop_try E fd p multi l _ s hsk] at h
      cases hl : loadImageWithLoader E s fd p l with
      | error e => rw [hl] at h; exact absurd h (by simp)
      | ok v =>
        obtain ⟨ret, s1⟩ := v
        have h1 := loadImageWithLoader_away E hE hl
        rw [hl] at h
        dsimp only at h
        by_cases hret : ret = 0
        · simp only [hret, if_true, Except.ok.injEq, Prod.mk.injEq] at h
          rw [← h.2]
          exact h1
        · simp only [hret, if_false] at h
          have h2 := ih _ s2 r h
          refine h1.join (Away.join ?_ h2)
          split
          · exact Away.by_eq rfl
          · exact Away.keep _ _

theorem _loadImage_away (E : Env) (hE : Apart E) {s s2 : St} {p : Addr} {multi : Bool}
    {r : Option Addr} (h : _loadImage E s p multi = .ok (r, s2)) :
    Away p s.sys.heap s2.sys.heap := by
  unfold _loadImage at h
  cases hfd : getFD E s p with
  | error e => rw [hfd] at h; exact absurd h (by simp)
  | ok v =>
    obtain ⟨fd, s1⟩ := v
    have h1 : Away p s.sys.heap s1.sys.heap := Away.by_eq (getFD_inv E hfd).1
    rw [hfd] at h
    dsimp only at h
    cases hl : _loadImage_loop E fd p multi E.img_loaders s1 with
    | error e => rw [hl] at h; exact absurd h (by simp)
    | ok w =>
      obtain ⟨r1, s3⟩ := w
      have h2 := _loadImage_loop_away E hE fd p multi _ _ _ _ hl
      rw [hl] at h
      cases r1 with
      | some q =>
        cases h
        exact h1.join h2
      | none =>
        dsimp only at h
        split at h
        · cases h
          exact (h1.join h2).join (Away.by_eq rfl)
        · cases h
          exact h1.join h2

theorem acquire_away {s s1 : St} {p : Addr} {r : Option Addr}
    (h : acquire s p = .ok (r, s1)) : Away p s.sys.heap s1.sys.heap := by
  unfold acquire at h
  split at h
  · exact absurd h (by simp)
  · cases h
    exact Away.at_set p _ _

theorem loadImage_away (E : Env) (hE : Apart E) {s s1 : St} {p : Addr} {r : Option Addr}
    (h : loadImage E s (some p) = .ok (r, s1)) : Away p s.sys.heap s1.sys.heap := by
  unfold loadImage at h
  dsimp only at h
  split at h
  · exact absurd h (by simp)
  · split at h
    · exact acquire_away h
    · cases hl : _loadImage E s p false with
      | error e => rw [hl] at h; exact absurd h (by simp)
      | ok w =>
        obtain ⟨r1, s2⟩ := w
        have h1 := _loadImage_away E hE hl
        rw [hl] at h
        cases r1 with
        | some x => exact h1.join (acquire_away h)
        | none =>
          cases h
          exact h1

theorem openImage_release_run (E : Env) (hE : Apart E) (c : Nat) (dc : ImageData) :
    ∀ (fuel : Nat) (s s1 : St) (index : Int) (r : Option Addr),
      c < s.sys.heap.length → (deref s c = some dc ∨ deref s c = none) →
      openImage E fuel s index (some c) = .ok (r, s1) → r ≠ some c →
      ∃ dc1, deref s1 c = some dc1 ∧ dc1.ref_count = dc.ref_count - 1 := by
  intro fuel
  induction fuel with
  | zero => intro s s1 index r _ _ h; exact absurd h (by simp [openImage])
  | succ fuel ih =>
    intro s s1 index r hlen hg h hr
    have tail : ∀ (s2 : St) (data : Option Addr), c < s2.sys.heap.length →
        (deref s2 c = some dc ∨ deref s2 c = none) →
        openImage_tail E s2 (some c) data = .ok (r, s1) →
        ∃ dc1, deref s1 c = some dc1 ∧ dc1.ref_count = dc.ref_count - 1 := by
      intro s2 data _ hg2 ht
      unfold openImage_tail at ht
      dsimp only at ht
      cases hcl : closeImage E s2 c false with
      | error e => rw [hcl] at ht; exact absurd ht (by simp)
      | ok s3 =>
        rw [hcl] at ht
        simp only [Except.ok.injEq, Prod.mk.injEq] at ht
        rw [← ht.2]
        obtain ⟨d, hd, _⟩ := closeImage_cases E hcl
        rcases hg2 with hg2 | hg2
        · exact closeImage_lowers E hE hg2 hcl
        · rw [hg2] at hd; exact absurd hd (by simp)
    have keep : ∀ (s2 s3 : St) (p : Addr), c < s2.sys.heap.length →
        (deref s2 c = some dc ∨ deref s2 c = none) →
        Away p s2.sys.heap s3.sys.heap →
        (c = p → deref s3 c = some dc ∨ deref s3 c = none) →
        c < s3.sys.heap.length ∧ (deref s3 c = some dc ∨ deref s3 c = none) := by
      intro s2 s3 p hl2 hg2 fr hp
      refine ⟨lt_of_lt_of_le hl2 fr.1, ?_⟩
      by_cases hcp : c = p
      · exact hp hcp
      · have : deref s3 c = deref s2 c := fr.2 c hcp hl2
        rw [this]; exact hg2
    rw [openImage] at h
    by_cases hrange : 0 ≤ index ∧ index < (s.sys.context.num : Int)
    · rw [if_pos hrange] at h
      by_cases hcur : some c = slot s.sys.context index.toNat
      · rw [if_pos hcur] at h
        simp only [Except.ok.injEq, Prod.mk.injEq] at h
        exact absurd h.1.symm hr
      · rw [if_neg hcur] at h
        cases hsl : slot s.sys.context index.toNat with
        | none => rw [hsl] at h; exact absurd h (by simp [loadImage])
        | some p =>
          rw [hsl] at h hcur
          have hcp : c ≠ p := fun e => hcur (by rw [e])
          cases hl : loadImage E s (some p) with
          | error e => rw [hl] at h; exact absurd h (by simp)
          | ok v =>
            obtain ⟨data, s2⟩ := v
            have fr2 := loadImage_away E hE hl
            obtain ⟨hlen2, hg2⟩ := keep s s2 p hlen hg fr2 (fun e => absurd e hcp)
            rw [hl] at h
            dsimp only at h
            cases hnb : noBuffer s2 data with
            | error e => rw [hnb] at h; exact absurd h (by simp)
            | ok nb =>
              rw [hnb] at h
              dsimp only at h
              by_cases hrem : (nb && hasFlag s2.sys.context.flags E.REMOVE_INVALID) = true
              · rw [if_pos hrem] at h
                cases hf : freeImageData E s2 (slot s2.sys.context index.toNat) with
                | error e => rw [hf] at h; exact absurd h (by simp)
                | ok s3 =>
                  rw [hf] at h
                  dsimp only at h
                  obtain ⟨p3, _, fr3, hnone3⟩ := freeImageData_away E hE hf
                  obtain ⟨hlen3, hg3⟩ := keep s2 s3 p3 hlen2 hg2 fr3
                    (fun e => Or.inr (by rw [e]; exact hnone3))
                  refine ih _ s1 index r ?_ ?_ h hr
                  · exact hlen3
                  · exact hg3
              · rw [if_neg hrem] at h
                exact tail s2 data hlen2 hg2 h
    · rw [if_neg hrange] at h
      exact tail s none hlen hg h

theorem openImage_returns (E : Env) (s : St) (ps : List Addr) (T : List (Option Addr))
    (index : Int) (cur : Option Addr)
    (hdata : s.sys.context.data = ps.map some ++ T) (hnum : s.sys.context.num = ps.length)
    (hnd : ps.Nodup)
    (hent : ∀ p ∈ ps, ∃ d, deref s p = some d ∧ (failsAt E p d ∨ decodesAt E p d))
    (hcur : ∀ c, cur = some c → ∃ dc, deref s c = some dc ∧ releasable E c dc) :
    ∃ r s1, openImage E (s.sys.context.num - index.toNat + 1) s index cur = .ok (r, s1) := by
  by_cases hin : 0 ≤ index ∧ index < (s.sys.context.num : Int)
  · obtain ⟨k, hk⟩ : ∃ k : Nat, index = (k : Int) := ⟨index.toNat, (Int.toNat_of_nonneg hin.1).symm⟩
    subst hk
    have hklt : k < ps.length := by
      have := hin.2; rw [hnum] at this; exact_mod_cast this
    have hsplit : ps = ps.take k ++ ps.drop k := (List.take_append_drop k ps).symm
    have hlenA : (ps.take k).length = k := by rw [List.length_take]; omega
    have hlenR : (ps.drop k).length = ps.length - k := by rw [List.length_drop]
    obtain ⟨r, s1, hrun, _⟩ := openImage_total_run E (ps.drop k) s (ps.take k) T
      cur (s.sys.context.num - k + 1) (by rw [← hsplit]; exact hdata)
      (by rw [← hsplit]; exact hnum) (by rw [← hsplit]; exact hnd)
      (fun p hp => hent p (List.mem_of_mem_drop hp)) hcur (by rw [hlenR, hnum]; omega)
    rw [hlenA] at hrun
    exact ⟨r, s1, by simpa using hrun⟩
  · obtain ⟨s1, hrun, _⟩ :=
      openImage_out_of_range E (s.sys.context.num - index.toNat) s index cur hin hcur
    exact ⟨none, s1, hrun⟩

theorem addrEnv_apart : Apart addrEnv := by
  refine ⟨?_, ?_, fun l p => demo_close_keeps l p⟩
  · intro l sys fd p
    show Away p sys.heap (addr_open l sys fd p).2.heap
    unfold addr_open
    split
    · exact Away.keep _ _
    · split
      · exact Away.keep _ _
      · exact Away.at_set p _ _
  · intro l sys p
    show Away p sys.heap (demo_close l sys p).heap
    unfold demo_close
    split
    · exact Away.keep _ _
    · exact Away.at_set p _ _

/-- C8: `current` is an allocated entry and backends leave the entries they
are not called for as they are (they may insert entries and succeed without a
buffer).  (1) Whenever a call `openImage(context, index, current)` returns a
pointer other than `current`, the reference count of `current` afterwards is
its old value minus one: one `closeImage(current, 0)`, also across the retries
of `REMOVE_INVALID`, for an index out of range and for a failed acquisition.
(2) When `index` is in range and its slot holds `current`, the call returns
`current` at once and the whole state (reference count, buffer, collection)
is unchanged.  (3) The call does return, within `num - index + 1` levels of
recursion, when the logical range holds distinct allocated entries each of
which fails or decodes without touching the collection and `current` is
releasable; then (1) applies to its result. -/
theorem openImage_current (E : Env) (hE : Apart E) (s : St) (index : Int) (c : Addr)
    (dc : ImageData) (hd : deref s c = some dc) :
    (∀ (fuel : Nat) (r : Option Addr) (s1 : St),
      openImage E fuel s index (some c) = .ok (r, s1) → r ≠ some c →
        ∃ dc1, deref s1 c = some dc1 ∧ dc1.ref_count = dc.ref_count - 1) ∧
    ((0 ≤ index ∧ index < (s.sys.context.num : Int)) →
      slot s.sys.context index.toNat = some c →
        ∀ fuel : Nat, openImage E (fuel + 1) s index (some c) = .ok (some c, s)) ∧
    (∀ (ps : List Addr) (T : List (Option Addr)),
      s.sys.context.data = ps.map some ++ T → s.sys.context.num = ps.length → ps.Nodup →
      (∀ p ∈ ps, ∃ d, deref s p = some d ∧ (failsAt E p d ∨ decodesAt E p d)) →
      releasable E c dc →
        ∃ r s1, openImage E (s.sys.context.num - index.toNat + 1) s index (some c)
            = .ok (r, s1) ∧
          (r ≠ some c →
            ∃ dc1, deref s1 c = some dc1 ∧ dc1.ref_count = dc.ref_count - 1)) := by
  refine ⟨fun fuel r s1 h hr =>
    openImage_release_run E hE c dc fuel s s1 index r (deref_lt hd) (Or.inl hd) h hr, ?_, ?_⟩
  · intro hrange hslot fuel
    rw [openImage, if_pos hrange, if_pos hslot.symm]
  · intro ps T hdata hnum hnd hent hrel
    obtain ⟨r, s1, hrun⟩ := openImage_returns E s ps T index (some c) hdata hnum hnd hent
      (fun c1 hc1 => by cases hc1; exact ⟨dc, hd, hrel⟩)
    exact ⟨r, s1, hrun, fun hr =>
      openImage_release_run E hE c dc _ s s1 index r (deref_lt hd) (Or.inl hd) hrun hr⟩

/-- Witness of C8: in `threeSources_at0` (`REMOVE_INVALID` set, the caller
holds entry 0 with reference count 1) the entry at index 1 fails every
backend: `openImage(context, 1, entry 0)` retries once, returns entry 2 and
leaves entry 0 with reference count 0; `openImage(context, 0, entry 0)`
returns entry 0 and the state as it was. -/
theorem openImage_current_witness :
    ((deref threeSources_at0 0).map (fun d => d.ref_count) = some 1 ∧
      (openImage addrEnv 3 threeSources_at0 1 (some 0)).toOption.map
        (fun v => (v.1, v.2.sys.context.num, (deref v.2 0).map (fun d => d.ref_count)))
        = some (some 2, 2, some 0) ∧
      threeSources_at0.sys.context.num = 3) ∧
    (∃ r s1, openImage addrEnv (threeSources_at0.sys.context.num - (1 : Int).toNat + 1)
        threeSources_at0 1 (some 0) = .ok (r, s1) ∧
      (r ≠ some 0 → ∃ dc1, deref s1 0 = some dc1 ∧
        dc1.ref_count = (heldEntry 0 "a").ref_count - 1)) ∧
    (∀ fuel : Nat, openImage addrEnv (fuel + 1) threeSources_at0 0 (some 0)
        = .ok (some 0, threeSources_at0)) :=
  ⟨by decide,
    (openImage_current addrEnv addrEnv_apart threeSources_at0 1 0 (heldEntry 0 "a")
      (by decide)).2.2 [0, 1, 2] [] (by decide) (by decide) (by decide)
      (fun p hp => by
        rcases List.mem_cons.mp hp with rfl | hp
        · exact ⟨heldEntry 0 "a", by decide,
            Or.inr (decodesAt_of_buffer addrEnv 0 _ rfl)⟩
        · rcases List.mem_cons.mp hp with rfl | hp
          · exact ⟨freshEntry 1 "b", by decide, Or.inl (addrEnv_fails _ rfl)⟩
          · rw [List.mem_singleton] at hp
            subst hp
            exact ⟨freshEntry 2 "c", by decide,
              Or.inr (addrEnv_decodes 2 2 "c" (by decide) (by decide))⟩)
      (addrEnv_releasable 0 0 "a"),
    (openImage_current addrEnv addrEnv_apart threeSources_at0 0 0 (heldEntry 0 "a")
      (by decide)).2.1 (by decide) (by decide)⟩

end ImgLoader
